import Mathlib

/-!
vuya-go-utils: a verification development of the cryptographic services layer.

A shallow embedding of `src/crypto` (AEAD codec, Argon2id password-hash codec,
envelope data-key registry and envelope service, signed-claims service) and of
the helpers of `src/paginate`, `src/json`, `src/array` and `src/math/uint256`,
together with the parts of the Go standard library those functions call
(`encoding/base64`, `fmt.Sprintf`/`fmt.Sscanf` for the verbs used,
`strings.Split`, `crypto/subtle`, `crypto/aes`, `crypto/cipher`,
`encoding/hex`).

Conventions of the embedding

* a Go `[]byte` is a `List Byte`; a nil slice and an empty slice are both `[]`;
* a Go `string` is a `List Char` (`GoString`), i.e. a valid UTF-8 string;
* a Go function returning `(T, error)` and unable to panic returns
  `Except Error T`; where the claim is about the pair itself the pair is kept;
* a call that may panic returns an `Option`, `none` being the panic;
* `crypto/rand` is an explicit entropy tape (`List Byte`) given to the call.
-/

namespace Vuya

/-- One octet. -/
abbrev Byte := Fin 256

/-- Go strings, as sequences of characters. -/
abbrev GoString := List Char

/-- The error values the embedded code can return. -/
inductive Error where
  /-- `base64.CorruptInputError`. -/
  | corruptInput
  /-- `fmt` scanning: `io.ErrUnexpectedEOF` or `io.EOF`. -/
  | scanEOF
  /-- `fmt` scanning: "input does not match format". -/
  | scanMismatch
  /-- `fmt` scanning: "unexpected newline". -/
  | scanNewline
  /-- `fmt` scanning: "expected integer". -/
  | scanExpectedInteger
  /-- `fmt` scanning: `strconv` range error or "integer overflow on token". -/
  | scanRange
  /-- `ErrInvalidHash`. -/
  | ErrInvalidHash
  /-- `ErrIncompatibleVersion`. -/
  | ErrIncompatibleVersion
  /-- `ErrInvalidPassword`. -/
  | ErrInvalidPassword
  /-- The reader of `crypto/rand` failed. -/
  | randRead
  /-- "chacha20poly1305: bad key length". -/
  | badKeyLength
  /-- "chacha20poly1305: message authentication failed". -/
  | errOpen
  /-- "ciphertext is too short: %d < %d". -/
  | ciphertextTooShort (got want : Nat)
  /-- `errors.New("data key already exists for this organization")`. -/
  | dataKeyExists
  /-- "no data key found for organization: %s". -/
  | noDataKey (orgID : GoString)
  /-- An error reported by the external key service. -/
  | kms (code : Nat)
  /-- `fmt.Errorf(msg + ": %w", err)`. -/
  | wrap (msg : String) (inner : Error)
  /-- `aes.KeySizeError(n)`. -/
  | aesKeySize (n : Nat)
  /-- "cipher: message authentication failed". -/
  | gcmOpen
  /-- `errors.New("ciphertext too short")`. -/
  | ciphertextShort
  /-- `hex.InvalidByteError(b)`. -/
  | hexInvalidByte (b : Nat)
  /-- `hex.ErrLength`. -/
  | hexErrLength
  /-- `ErrBadPrivateKeySize`. -/
  | ErrBadPrivateKeySize
  /-- `ErrBadPublicKeySize`. -/
  | ErrBadPublicKeySize
  /-- `ErrInvalidTokenFormat`. -/
  | ErrInvalidTokenFormat
  /-- `ErrInvalidSigningMethod`. -/
  | ErrInvalidSigningMethod
  /-- `ErrInvalidPublicKey`. -/
  | ErrInvalidPublicKey
  /-- `ErrTokenExpired`. -/
  | ErrTokenExpired
  /-- `ErrTokenNotValidYet`. -/
  | ErrTokenNotValidYet
  /-- `ErrInvalidSignature`. -/
  | ErrInvalidSignature
  /-- An error of the `jwt` package that is only a text. -/
  | jwtText (msg : String)
  /-- A `*jwt.ValidationError` with its `Errors` bit field and its `Inner`
  error (for one made by `NewValidationError`, its text). -/
  | jwtValidation (errors : Nat) (inner : Error)
  /-- The error of the rule `validation.In`: "must be a valid value". -/
  | validationIn
  /-- `errors.New(msg)`. -/
  | errorsNew (msg : String)
  /-- An error returned by an `io.Reader`. -/
  | readError (code : Nat)
  /-- An error of `encoding/json`, by its text. -/
  | jsonError (msg : String)
  deriving DecidableEq, Repr

deriving instance DecidableEq for Except

end Vuya

namespace Vuya

/-! ## encoding/base64 -/

namespace Base64

/-- The standard alphabet `encodeStd`. -/
def encodeStd : List Char :=
  "ABCDEFGHIJKLMNOPQRSTUVWXYZabcdefghijklmnopqrstuvwxyz0123456789+/".toList

/-- The table `enc.encode[v]`, for a 6-bit value. -/
def encodeChar (v : Nat) : Char := encodeStd.getD v 'A'

/-- The table `enc.decodeMap[c]`: the position of `c` in the alphabet, and
`none` for the entries left at `0xff`. -/
def decodeMap (c : Char) : Option Nat :=
  let i := encodeStd.indexOf c
  if i < 64 then some i else none

/-- `Encoding.Encode` followed by the conversion to a string
(`EncodeToString`); `pad` is `enc.padChar`, `none` being `NoPadding`. -/
def encodeToString (pad : Option Char) : List Byte → GoString
  | [] => []
  | [a] =>
    let val := a.val <<< 16
    [encodeChar (val >>> 18 &&& 0x3F), encodeChar (val >>> 12 &&& 0x3F)] ++
      (match pad with
       | some p => [p, p]
       | none => [])
  | [a, b] =>
    let val := a.val <<< 16 ||| b.val <<< 8
    [encodeChar (val >>> 18 &&& 0x3F), encodeChar (val >>> 12 &&& 0x3F),
     encodeChar (val >>> 6 &&& 0x3F)] ++
      (match pad with
       | some p => [p]
       | none => [])
  | a :: b :: c :: rest =>
    let val := a.val <<< 16 ||| b.val <<< 8 ||| c.val
    encodeChar (val >>> 18 &&& 0x3F) :: encodeChar (val >>> 12 &&& 0x3F) ::
      encodeChar (val >>> 6 &&& 0x3F) :: encodeChar (val &&& 0x3F) ::
      encodeToString pad rest

/-- The conversion of one quantum: `val` assembled from the sextets read
(missing ones are zero) and the first `dlen - 1` of its three bytes. -/
def quantumBytes (dbuf : List Nat) : List Byte :=
  let val := dbuf.getD 0 0 <<< 18 ||| dbuf.getD 1 0 <<< 12 |||
    dbuf.getD 2 0 <<< 6 ||| dbuf.getD 3 0
  ([Fin.ofNat (val >>> 16), Fin.ofNat (val >>> 8), Fin.ofNat (val >>> 0)] :
    List Byte).take (dbuf.length - 1)

/-- Skips `'\n'` and `'\r'`. -/
def skipNewlines : List Char → List Char
  | [] => []
  | c :: cs => if c = '\n' ∨ c = '\r' then skipNewlines cs else c :: cs

/-- The padding branch of `decodeQuantum`, entered after a first padding
character was read with `j` sextets in the buffer. -/
def decodePadding (p : Char) (dbuf : List Nat) (rest : List Char) :
    Except Error (List Byte) :=
  match dbuf.length with
  | 0 => .error .corruptInput
  | 1 => .error .corruptInput
  | 2 =>
    match skipNewlines rest with
    | [] => .error .corruptInput
    | c :: rest2 =>
      if c ≠ p then .error .corruptInput
      else
        match skipNewlines rest2 with
        | [] => .ok (quantumBytes dbuf)
        | _ :: _ => .error .corruptInput
  | _ =>
    match skipNewlines rest with
    | [] => .ok (quantumBytes dbuf)
    | _ :: _ => .error .corruptInput

/-- The loop of `Encoding.Decode` over `decodeQuantum` (non-strict mode):
`dbuf` holds the sextets of the quantum being read. The position carried by
`CorruptInputError` is not kept. -/
def decodeLoop (pad : Option Char) : List Char → List Nat → Except Error (List Byte)
  | [], dbuf =>
    match dbuf.length with
    | 0 => .ok []
    | 1 => .error .corruptInput
    | _ => if pad.isSome then .error .corruptInput else .ok (quantumBytes dbuf)
  | c :: rest, dbuf =>
    match decodeMap c with
    | some v =>
      if dbuf.length = 3 then
        (decodeLoop pad rest []).map (quantumBytes (dbuf ++ [v]) ++ ·)
      else decodeLoop pad rest (dbuf ++ [v])
    | none =>
      if c = '\n' ∨ c = '\r' then decodeLoop pad rest dbuf
      else if some c ≠ pad then .error .corruptInput
      else decodePadding c dbuf rest

/-- `Encoding.DecodeString`; on an error Go returns the bytes decoded so far
next to it, which no caller here reads. -/
def decodeString (pad : Option Char) (s : GoString) : Except Error (List Byte) :=
  decodeLoop pad s []

/-- `base64.StdEncoding`'s padding character. -/
def stdPadding : Option Char := some '='

/-- `base64.RawStdEncoding` has no padding. -/
def noPadding : Option Char := none

end Base64

end Vuya

namespace Vuya

/-! ## fmt: the verbs used by the password-hash codec -/

namespace Fmt

/-- `fmt.Sprintf("%d", n)` for a non-negative integer: its decimal digits. -/
def formatDecimal (n : Nat) : GoString := Nat.toDigits 10 n

/-- `isSpace` of `fmt/scan.go`: the table `space`. -/
def isSpace (r : Char) : Bool :=
  let x := r.toNat
  (0x0009 ≤ x && x ≤ 0x000d) || x == 0x0020 || x == 0x0085 || x == 0x00a0 ||
  x == 0x1680 || (0x2000 ≤ x && x ≤ 0x200a) || (0x2028 ≤ x && x ≤ 0x2029) ||
  x == 0x202f || x == 0x205f || x == 0x3000

/-- `(*ss).SkipSpace` with `nlIsSpace = false`, as `Sscanf` sets it: spaces are
consumed, a newline is an error. -/
def skipSpace : List Char → Except Error (List Char)
  | [] => .ok []
  | r :: rest =>
    if r = '\r' ∧ rest.head? = some '\n' then skipSpace rest
    else if r = '\n' then .error .scanNewline
    else if isSpace r then skipSpace rest
    else .ok (r :: rest)

/-- `(*ss).notEOF`. -/
def notEOF (input : List Char) : Except Error Unit :=
  if input.isEmpty then .error .scanEOF else .ok ()

/-- `strconv`'s reading of a run of decimal digits. -/
def parseDecimal (tok : List Char) : Nat :=
  tok.foldl (fun acc c => 10 * acc + (c.toNat - '0'.toNat)) 0

/-- `(*ss).scanNumber(decimalDigits, false)`: at least one digit, then every
digit that follows; returns the token and the rest of the input. -/
def scanNumber (input : List Char) : Except Error (List Char × List Char) := do
  notEOF input
  let (tok, rest) := input.span Char.isDigit
  if tok.isEmpty then .error .scanExpectedInteger else .ok (tok, rest)

/-- `(*ss).scanInt('d', bitSize)`: optional sign, digits, `strconv.ParseInt(tok,
10, 64)`, then the check that the value survives truncation to `bitSize` bits. -/
def scanInt (bitSize : Nat) (input : List Char) : Except Error (Int × List Char) := do
  let input ← skipSpace input
  notEOF input
  let (neg, input) :=
    match input with
    | '+' :: r => (false, r)
    | '-' :: r => (true, r)
    | _ => (false, input)
  let (tok, rest) ← scanNumber input
  let i : Int := if neg then -(parseDecimal tok : Int) else (parseDecimal tok : Int)
  if i < -(2 : Int) ^ 63 ∨ (2 : Int) ^ 63 ≤ i then .error .scanRange
  else
    let x : Int := (i + 2 ^ (bitSize - 1)) % 2 ^ bitSize - 2 ^ (bitSize - 1)
    if x ≠ i then .error .scanRange else .ok (i, rest)

/-- `(*ss).scanUint('d', bitSize)`: digits, `strconv.ParseUint(tok, 10, 64)`,
then the check that the value survives truncation to `bitSize` bits. -/
def scanUint (bitSize : Nat) (input : List Char) : Except Error (Nat × List Char) := do
  let input ← skipSpace input
  notEOF input
  let (tok, rest) ← scanNumber input
  let i := parseDecimal tok
  if 2 ^ 64 ≤ i then .error .scanRange
  else
    let x := i % 2 ^ bitSize
    if x ≠ i then .error .scanRange else .ok (i, rest)

/-- The operand a `%d` verb stores into. -/
inductive Operand where
  /-- A pointer to a signed integer of the given width (`*int` is 64). -/
  | int (bitSize : Nat)
  /-- A pointer to an unsigned integer of the given width. -/
  | uint (bitSize : Nat)
  deriving DecidableEq, Repr

/-- A format string without spaces, split into its literal characters and
its `%d` verbs, each verb with the operand it is given. -/
inductive Item where
  /-- A literal character of the format. -/
  | lit (c : Char)
  /-- The verb `%d`. -/
  | verbD (arg : Operand)
  deriving DecidableEq, Repr

/-- `(*ss).doScanf` as `Sscanf` runs it: a literal must be the next rune of
the input (`advance`), a verb skips spaces and scans one operand (`scanOne`);
the function returns when the format is used up, whatever the input still
holds. The result lists the values stored, in order. -/
def doScanf : List Item → List Char → Except Error (List Int)
  | [], _ => .ok []
  | .lit _ :: _, [] => .error .scanEOF
  | .lit f :: fmt, r :: input =>
    if f ≠ r then .error .scanMismatch else doScanf fmt input
  | .verbD (.int bits) :: fmt, input => do
    let input ← skipSpace input
    let (v, rest) ← scanInt bits input
    let vs ← doScanf fmt rest
    .ok (v :: vs)
  | .verbD (.uint bits) :: fmt, input => do
    let input ← skipSpace input
    let (v, rest) ← scanUint bits input
    let vs ← doScanf fmt rest
    .ok ((v : Int) :: vs)

end Fmt

/-! ## strings -/

namespace Strings

/-- `strings.Split(s, sep)` for a separator of one character. -/
def split (sep : Char) : GoString → List GoString
  | [] => [[]]
  | c :: cs =>
    if c = sep then [] :: split sep cs
    else
      match split sep cs with
      | [] => [[c]]
      | f :: fs => (c :: f) :: fs

end Strings

/-! ## crypto/subtle -/

namespace Subtle

/-- `int32(n)` of a length, kept as its 32-bit pattern. -/
def int32Bits (n : Nat) : Nat := n % 2 ^ 32

/-- `ConstantTimeEq(x, y int32) int`:
`int((uint64(uint32(x^y)) - 1) >> 63)`, on 32-bit patterns. -/
def constantTimeEq (x y : Nat) : Nat :=
  (((x ^^^ y) % 2 ^ 32 + 2 ^ 64 - 1) % 2 ^ 64) >>> 63

/-- `ConstantTimeByteEq(x, y uint8) int`: `int((uint32(x^y) - 1) >> 31)`. -/
def constantTimeByteEq (x y : Nat) : Nat :=
  (((x ^^^ y) % 2 ^ 8 + 2 ^ 32 - 1) % 2 ^ 32) >>> 31

/-- The loop `v |= x[i] ^ y[i]` of `ConstantTimeCompare`. -/
def xorFold : Nat → List Byte → List Byte → Nat
  | v, a :: x, b :: y => xorFold ((v ||| (a.val ^^^ b.val)) % 2 ^ 8) x y
  | v, _, _ => v

/-- `ConstantTimeCompare(x, y []byte) int`. -/
def constantTimeCompare (x y : List Byte) : Nat :=
  if x.length ≠ y.length then 0
  else constantTimeByteEq (xorFold 0 x y) 0

end Subtle

end Vuya

namespace Vuya

/-! ## src/crypto/hash.password.go -/

/-- The struct `ArgonParams`; `Memory`, `Iterations`, `SaltLength` and
`KeyLength` are `uint32`, `Parallelism` is `uint8`. -/
structure ArgonParams where
  /-- The amount of memory used by the algorithm (in kibibytes). -/
  Memory : Nat
  /-- The number of iterations over the memory. -/
  Iterations : Nat
  /-- The number of threads (or lanes) used by the algorithm. -/
  Parallelism : Nat
  /-- Length of the random salt. -/
  SaltLength : Nat
  /-- Length of the generated key. -/
  KeyLength : Nat
  deriving DecidableEq, Repr

/-- The values a Go `ArgonParams` can hold: every field within its type. -/
def ArgonParams.InRange (p : ArgonParams) : Prop :=
  p.Memory < 2 ^ 32 ∧ p.Iterations < 2 ^ 32 ∧ p.Parallelism < 2 ^ 8 ∧
  p.SaltLength < 2 ^ 32 ∧ p.KeyLength < 2 ^ 32

instance (p : ArgonParams) : Decidable p.InRange := by
  unfold ArgonParams.InRange
  infer_instance

/-- The package variable `defaultPasswordHashParams`. -/
def defaultPasswordHashParams : ArgonParams :=
  { Memory := 32 * 1024
    Iterations := 3
    Parallelism := 1
    SaltLength := 16
    KeyLength := 32 }

namespace Argon2

/-- The constant `argon2.Version`. -/
def Version : Nat := 0x13

/-- The memory-hard derivation of `golang.org/x/crypto/argon2`, which is not
part of this repository: a parameter of the development. Its arguments are
those of `argon2.IDKey` (password, salt, time, memory, threads, keyLen);
`none` stands for a panic inside the library. -/
abbrev Kdf := GoString → List Byte → Nat → Nat → Nat → Nat → Option (List Byte)

/-- What the library documents of the derivation: the key it returns has
`keyLen` bytes. -/
def Kdf.Lawful (kdf : Kdf) : Prop :=
  ∀ password salt time memory threads keyLen key,
    kdf password salt time memory threads keyLen = some key → key.length = keyLen

/-- `argon2.IDKey`: the two guards of `deriveKey`, which panic, then the
derivation. -/
def IDKey (kdf : Kdf) (password : GoString) (salt : List Byte)
    (time memory threads keyLen : Nat) : Option (List Byte) :=
  if time < 1 then none
  else if threads < 1 then none
  else kdf password salt time memory threads keyLen

end Argon2

/-- `crypto/rand.Read` into a buffer of `n` bytes: the next `n` bytes of the
entropy tape, or an error when the source cannot provide them. -/
def generateRandomBytes (entropy : List Byte) (n : Nat) : Except Error (List Byte) :=
  if entropy.length < n then .error .randRead else .ok (entropy.take n)

/-- The `fmt.Sprintf("$argon2id$v=%d$m=%d,t=%d,p=%d$%s$%s", ...)` of
`createPasswordHashArgon2id`. -/
def formatHash (version memory iterations parallelism : Nat) (b64Salt b64Key : GoString) :
    GoString :=
  "$argon2id$v=".toList ++ Fmt.formatDecimal version ++
  "$m=".toList ++ Fmt.formatDecimal memory ++
  ",t=".toList ++ Fmt.formatDecimal iterations ++
  ",p=".toList ++ Fmt.formatDecimal parallelism ++
  "$".toList ++ b64Salt ++ "$".toList ++ b64Key

/-- `createPasswordHashArgon2id(config, password)`. The salt is drawn with
`defaultPasswordHashParams.SaltLength`, as in the source. -/
def createPasswordHashArgon2id (entropy : List Byte) (kdf : Argon2.Kdf)
    (config : ArgonParams) (password : GoString) : Option (Except Error GoString) :=
  match generateRandomBytes entropy defaultPasswordHashParams.SaltLength with
  | .error err => some (.error err)
  | .ok salt =>
    match Argon2.IDKey kdf password salt config.Iterations config.Memory
        config.Parallelism config.KeyLength with
    | none => none
    | some key =>
      let b64Salt := Base64.encodeToString Base64.noPadding salt
      let b64Key := Base64.encodeToString Base64.noPadding key
      some (.ok (formatHash Argon2.Version config.Memory config.Iterations
        config.Parallelism b64Salt b64Key))

/-- The format `"v=%d"` with a `*int` operand. -/
def versionFormat : List Fmt.Item :=
  [.lit 'v', .lit '=', .verbD (.int 64)]

/-- The format `"m=%d,t=%d,p=%d"` with `*uint32`, `*uint32`, `*uint8`
operands. -/
def paramsFormat : List Fmt.Item :=
  [.lit 'm', .lit '=', .verbD (.uint 32), .lit ',', .lit 't', .lit '=', .verbD (.uint 32),
   .lit ',', .lit 'p', .lit '=', .verbD (.uint 8)]

/-- `decodeHash(hash)`: on an error the Go function returns nil parameters,
salt and key. -/
def decodeHash (hash : GoString) : Except Error (ArgonParams × List Byte × List Byte) :=
  let vals := Strings.split '$' hash
  if vals.length ≠ 6 then .error .ErrInvalidHash
  else
    match Fmt.doScanf versionFormat (vals.getD 2 []) with
    | .error err => .error err
    | .ok vs =>
      if vs.getD 0 0 ≠ (Argon2.Version : Int) then .error .ErrIncompatibleVersion
      else
        match Fmt.doScanf paramsFormat (vals.getD 3 []) with
        | .error err => .error err
        | .ok ps =>
          match Base64.decodeString Base64.noPadding (vals.getD 4 []) with
          | .error err => .error err
          | .ok salt =>
            match Base64.decodeString Base64.noPadding (vals.getD 5 []) with
            | .error err => .error err
            | .ok key =>
              .ok ({ Memory := (ps.getD 0 0).toNat
                     Iterations := (ps.getD 1 0).toNat
                     Parallelism := (ps.getD 2 0).toNat
                     SaltLength := salt.length % 2 ^ 32
                     KeyLength := key.length % 2 ^ 32 }, salt, key)

/-- `comparePasswordAndHashArgon2id(password, hash)`: `some (.ok ())` is the
nil error, `none` a panic of `argon2.IDKey`. -/
def comparePasswordAndHashArgon2id (kdf : Argon2.Kdf) (password hash : GoString) :
    Option (Except Error Unit) :=
  match decodeHash hash with
  | .error err => some (.error err)
  | .ok (params, salt, key) =>
    match Argon2.IDKey kdf password salt params.Iterations params.Memory
        params.Parallelism params.KeyLength with
    | none => none
    | some otherKey =>
      let keyLen := Subtle.int32Bits key.length
      let otherKeyLen := Subtle.int32Bits otherKey.length
      if Subtle.constantTimeEq keyLen otherKeyLen = 0 then some (.error .ErrInvalidPassword)
      else if Subtle.constantTimeCompare key otherKey = 1 then some (.ok ())
      else some (.error .ErrInvalidPassword)

/-- A sample derivation, standing for the library in concrete instances of the
theorems: `keyLen` bytes computed from every argument. -/
def sampleKdf : Argon2.Kdf := fun password salt time memory threads keyLen =>
  some ((List.range keyLen).map fun i =>
    Fin.ofNat ((password.map Char.toNat).sum + (salt.map Fin.val).sum + time + memory +
      threads + i))

end Vuya

namespace Vuya

/-! ## golang.org/x/crypto/chacha20poly1305 (XChaCha20-Poly1305)

The cipher is not code of this repository; it is embedded from its public
definition (RFC 8439 and the XChaCha construction) as the generic Go
implementation computes it, so that `EncryptBytes` and `DecryptBytes` are
stated over the cipher they call and not over an assumed one. -/

namespace ChaCha20

/-- Addition of `uint32` words. -/
def add32 (a b : Nat) : Nat := (a + b) % 2 ^ 32

/-- `bits.RotateLeft32`. -/
def rotl32 (x n : Nat) : Nat := (x <<< n ||| x >>> (32 - n)) % 2 ^ 32

/-- The ChaCha quarter round on four words. -/
def quarterRound (a b c d : Nat) : Nat × Nat × Nat × Nat :=
  let a := add32 a b
  let d := rotl32 (d ^^^ a) 16
  let c := add32 c d
  let b := rotl32 (b ^^^ c) 12
  let a := add32 a b
  let d := rotl32 (d ^^^ a) 8
  let c := add32 c d
  let b := rotl32 (b ^^^ c) 7
  (a, b, c, d)

/-- The quarter round applied to the words `i`, `j`, `k`, `l` of the state. -/
def quarterRoundAt (s : List Nat) (i j k l : Nat) : List Nat :=
  let r := quarterRound (s.getD i 0) (s.getD j 0) (s.getD k 0) (s.getD l 0)
  (((s.set i r.1).set j r.2.1).set k r.2.2.1).set l r.2.2.2

/-- A column round followed by a diagonal round. -/
def doubleRound (s : List Nat) : List Nat :=
  let s := quarterRoundAt s 0 4 8 12
  let s := quarterRoundAt s 1 5 9 13
  let s := quarterRoundAt s 2 6 10 14
  let s := quarterRoundAt s 3 7 11 15
  let s := quarterRoundAt s 0 5 10 15
  let s := quarterRoundAt s 1 6 11 12
  let s := quarterRoundAt s 2 7 8 13
  quarterRoundAt s 3 4 9 14

/-- `n` double rounds. -/
def rounds : Nat → List Nat → List Nat
  | 0, s => s
  | n + 1, s => rounds n (doubleRound s)

/-- `binary.LittleEndian.Uint32` of the four bytes at offset `4 * i`. -/
def word (bs : List Byte) (i : Nat) : Nat :=
  (bs.getD (4 * i) 0).val + (bs.getD (4 * i + 1) 0).val * 2 ^ 8 +
  (bs.getD (4 * i + 2) 0).val * 2 ^ 16 + (bs.getD (4 * i + 3) 0).val * 2 ^ 24

/-- The first `n` little-endian words of a byte sequence. -/
def words (bs : List Byte) (n : Nat) : List Nat :=
  (List.range n).map (word bs)

/-- `binary.LittleEndian.PutUint32`. -/
def wordBytes (w : Nat) : List Byte :=
  [Fin.ofNat w, Fin.ofNat (w >>> 8), Fin.ofNat (w >>> 16), Fin.ofNat (w >>> 24)]

/-- The constants "expand 32-byte k". -/
def sigma : List Nat := [0x61707865, 0x3320646e, 0x79622d32, 0x6b206574]

/-- The ChaCha20 block function: 64 bytes of key stream for a 32-byte key, a
block counter and a 12-byte nonce. -/
def block (key : List Byte) (counter : Nat) (nonce : List Byte) : List Byte :=
  let init := sigma ++ words key 8 ++ [counter % 2 ^ 32] ++ words nonce 3
  let final := rounds 10 init
  ((List.zipWith add32 final init).map wordBytes).flatten

/-- `chacha20.HChaCha20`: the sub-key derived from a key and a 16-byte nonce. -/
def hChaCha20 (key nonce : List Byte) : List Byte :=
  let init := sigma ++ words key 8 ++ words nonce 4
  let final := rounds 10 init
  ((final.take 4 ++ final.drop 12).map wordBytes).flatten

/-- The key stream of `n` consecutive blocks, from block `counter` on. -/
def keyStream (key nonce : List Byte) : Nat → Nat → List Byte
  | _, 0 => []
  | counter, n + 1 => block key counter nonce ++ keyStream key nonce (counter + 1) n

/-- Byte-wise XOR of a buffer with a key stream at least as long. -/
def xorBytes (src ks : List Byte) : List Byte :=
  List.zipWith (fun b k => Fin.ofNat (b.val ^^^ k.val)) src ks

/-- `XORKeyStream` after `SetCounter(counter)`: the blocks covering `src`
are generated and XORed onto it. -/
def xorKeyStream (key nonce : List Byte) (counter : Nat) (src : List Byte) : List Byte :=
  xorBytes src (keyStream key nonce counter ((src.length + 63) / 64))

end ChaCha20

namespace Poly1305

/-- The prime `2^130 - 5`. -/
def p : Nat := 2 ^ 130 - 5

/-- The little-endian number held by a byte sequence. -/
def leNat : List Byte → Nat
  | [] => 0
  | b :: bs => b.val + 256 * leNat bs

/-- The `n` low bytes of a number, little-endian. -/
def leBytes : Nat → Nat → List Byte
  | 0, _ => []
  | n + 1, v => Fin.ofNat v :: leBytes n (v / 256)

/-- The accumulation over the message, 16 bytes at a time: `blk` and `len`
are the value and length of the block being read. -/
def update (r : Nat) : Nat → Nat → Nat → List Byte → Nat
  | acc, blk, len, [] =>
    if len = 0 then acc else (acc + blk + 2 ^ (8 * len)) * r % p
  | acc, blk, len, b :: bs =>
    let blk := blk + b.val * 2 ^ (8 * len)
    if len + 1 = 16 then update r ((acc + blk + 2 ^ 128) * r % p) 0 0 bs
    else update r acc blk (len + 1) bs

/-- The 16-byte tag of `msg` under the one-time 32-byte `key`. -/
def sum (key msg : List Byte) : List Byte :=
  let r := leNat (key.take 16) &&& 0x0ffffffc0ffffffc0ffffffc0fffffff
  let s := leNat ((key.drop 16).take 16)
  leBytes 16 ((update r 0 0 0 msg + s) % 2 ^ 128)

end Poly1305

namespace ChaCha20Poly1305

/-- `KeySize` of the package. -/
def KeySize : Nat := 32

/-- `NonceSizeX`. -/
def NonceSizeX : Nat := 24

/-- `Overhead`, the size of the tag. -/
def Overhead : Nat := 16

/-- The value held by the `cipher.AEAD` that `NewX` returns. -/
structure XAead where
  /-- The 32-byte key. -/
  key : List Byte
  deriving DecidableEq, Repr

/-- `chacha20poly1305.NewX(key)`. -/
def NewX (key : List Byte) : Except Error XAead :=
  if key.length ≠ KeySize then .error .badKeyLength else .ok ⟨key⟩

/-- `writeWithPadding`: the data, then zeros up to a multiple of 16 bytes. -/
def padded (data : List Byte) : List Byte :=
  data ++ List.replicate ((16 - data.length % 16) % 16) 0

/-- What the authenticator is fed: padded additional data, padded
ciphertext, and the two lengths as 64-bit little-endian numbers. -/
def macData (additionalData ciphertext : List Byte) : List Byte :=
  padded additionalData ++ padded ciphertext ++
    Poly1305.leBytes 8 additionalData.length ++ Poly1305.leBytes 8 ciphertext.length

/-- The tag of a ciphertext: Poly1305 keyed by the first 32 bytes of the key
stream of block 0. -/
def tagOf (key nonce additionalData ciphertext : List Byte) : List Byte :=
  let polyKey := ChaCha20.xorKeyStream key nonce 0 (List.replicate 32 0)
  Poly1305.sum polyKey (macData additionalData ciphertext)

/-- `sealGeneric`: the ciphertext (key stream from block 1) and its tag,
appended to `dst`. -/
def sealGeneric (key dst nonce plaintext additionalData : List Byte) : List Byte :=
  let ciphertext := ChaCha20.xorKeyStream key nonce 1 plaintext
  dst ++ ciphertext ++ tagOf key nonce additionalData ciphertext

/-- `openGeneric`, called with at least 16 bytes: the tag is verified in
constant time before anything is decrypted. -/
def openGeneric (key nonce ciphertext additionalData : List Byte) :
    Except Error (List Byte) :=
  let tag := ciphertext.drop (ciphertext.length - 16)
  let ciphertext := ciphertext.take (ciphertext.length - 16)
  if Subtle.constantTimeCompare (tagOf key nonce additionalData ciphertext) tag ≠ 1 then
    .error .errOpen
  else .ok (ChaCha20.xorKeyStream key nonce 1 ciphertext)

/-- The ChaCha20 key and 12-byte nonce that XChaCha20 derives from a 24-byte
nonce. -/
def subKey (a : XAead) (nonce : List Byte) : List Byte × List Byte :=
  (ChaCha20.hChaCha20 a.key (nonce.take 16),
   List.replicate 4 0 ++ (nonce.drop 16).take 8)

/-- `(*xchacha20poly1305).Seal(dst, nonce, plaintext, additionalData)`;
`none` is one of its panics (bad nonce length, plaintext too large). -/
def XAead.Seal (a : XAead) (dst nonce plaintext additionalData : List Byte) :
    Option (List Byte) :=
  if nonce.length ≠ NonceSizeX then none
  else if plaintext.length > 2 ^ 38 - 64 then none
  else
    let k := subKey a nonce
    some (sealGeneric k.1 dst k.2 plaintext additionalData)

/-- `(*xchacha20poly1305).Open(nil, nonce, ciphertext, additionalData)`;
`none` is one of its panics (bad nonce length, ciphertext too large). -/
def XAead.Open (a : XAead) (nonce ciphertext additionalData : List Byte) :
    Option (Except Error (List Byte)) :=
  if nonce.length ≠ NonceSizeX then none
  else if ciphertext.length < 16 then some (.error .errOpen)
  else if ciphertext.length > 2 ^ 38 - 48 then none
  else
    let k := subKey a nonce
    some (openGeneric k.1 k.2 ciphertext additionalData)

end ChaCha20Poly1305

/-! ## src/crypto/crypto.go -/

open ChaCha20Poly1305 in
/-- `EncryptBytes(key, plainData)`: the pair the Go function returns, `none`
when `Seal` panics. -/
def EncryptBytes (entropy key plainData : List Byte) : Option (List Byte × Option Error) :=
  match NewX key with
  | .error err => some ([], some (.wrap "failed to create encryption AEAD" err))
  | .ok aead =>
    match generateRandomBytes entropy NonceSizeX with
    | .error err => some ([], some (.wrap "failed to generate nonce" err))
    | .ok nonce =>
      match aead.Seal nonce nonce plainData [] with
      | none => none
      | some encryptedMsg => some (encryptedMsg, none)

open ChaCha20Poly1305 in
/-- `DecryptBytes(key, encryptedData)`: the pair the Go function returns,
`none` when `Open` panics. -/
def DecryptBytes (key encryptedData : List Byte) : Option (List Byte × Option Error) :=
  match NewX key with
  | .error err => some ([], some (.wrap "failed to create decryption AEAD" err))
  | .ok aead =>
    if encryptedData.length < NonceSizeX then
      some ([], some (.ciphertextTooShort encryptedData.length NonceSizeX))
    else
      let nonce := encryptedData.take NonceSizeX
      let ciphertext := encryptedData.drop NonceSizeX
      match aead.Open nonce ciphertext [] with
      | none => none
      | some (.error err) =>
        some ([], some (.wrap "failed to decrypt or authenticate data" err))
      | some (.ok plainData) => some (plainData, none)

/-- What `EncryptBytes` returns for the byte 0 under the all-zero key, when
the nonce drawn is all zero: the nonce, one byte of ciphertext, the tag. -/
def sampleSealedZero : List Byte :=
  List.replicate 24 0 ++
    [120, 13, 230, 63, 5, 254, 100, 225, 168, 62, 142, 155, 227, 84, 206, 96, 105]

/-- The same for the byte 1. -/
def sampleSealedOne : List Byte :=
  List.replicate 24 0 ++
    [121, 79, 151, 206, 189, 139, 196, 15, 94, 175, 29, 127, 163, 193, 76, 215, 94]

/-- `sampleSealedZero` with the last byte of its tag changed. -/
def sampleTampered : List Byte :=
  List.replicate 24 0 ++
    [120, 13, 230, 63, 5, 254, 100, 225, 168, 62, 142, 155, 227, 84, 206, 96, 0]

end Vuya

namespace Vuya

/-! ## src/crypto/crypto.envelope.go: the data-key registry

The service is run sequentially: its mutex is not modelled. The key service
(AWS KMS) and the clock are outside the repository; they are parameters of
the development (`Env`), and what was asked of them is kept in a `World`. -/

/-- A Go `map[string]V`, as the list of its entries; every key occurs once. -/
abbrev GoMap (V : Type) := List (GoString × V)

namespace GoMap

/-- The value `m[k]`, when present. -/
def get {V : Type} : GoMap V → GoString → Option V
  | [], _ => none
  | (k', v) :: m, k => if k' = k then some v else get m k

/-- The assignment `m[k] = v`. -/
def set {V : Type} : GoMap V → GoString → V → GoMap V
  | [], k, v => [(k, v)]
  | (k', v') :: m, k, v => if k' = k then (k, v) :: m else (k', v') :: set m k v

/-- The statement `delete(m, k)`. -/
def delete {V : Type} : GoMap V → GoString → GoMap V
  | [], _ => []
  | (k', v) :: m, k => if k' = k then delete m k else (k', v) :: delete m k

end GoMap

/-- The struct `DataKeyInfo`. Times are seconds since the epoch, in UTC;
`EncryptionContext` is a map, `none` being the nil map. -/
structure DataKeyInfo where
  /-- The tenant. -/
  OrganizationID : GoString
  /-- The wrapped key, in padded base64. -/
  EncryptedDataKey : GoString
  /-- When the record was created. -/
  CreatedAt : Nat
  /-- When the key was last rotated. -/
  LastRotatedAt : Nat
  /-- The context the wrapped key is bound to. -/
  EncryptionContext : Option (GoMap GoString)
  deriving DecidableEq, Repr

/-- A request sent to the key service. -/
inductive KmsCall where
  /-- `GenerateDataKey` with its `KeyId`, `EncryptionContext` and `KeySpec`. -/
  | generateDataKey (keyId : GoString) (context : Option (GoMap GoString))
      (keySpec : GoString)
  /-- `Decrypt` with its `CiphertextBlob`, `EncryptionContext` and `KeyId`. -/
  | decrypt (ciphertextBlob : List Byte) (context : Option (GoMap GoString))
      (keyId : GoString)
  deriving DecidableEq, Repr

/-- The fields of `kms.GenerateDataKeyOutput` that the service reads. -/
structure GenerateDataKeyOutput where
  /-- The plaintext data key. -/
  Plaintext : List Byte
  /-- The data key wrapped under the master key. -/
  CiphertextBlob : List Byte
  deriving DecidableEq, Repr

/-- The collaborators of the service. The key service answers a request as a
function of the requests made before it, so that it may fail, time out or be
cancelled at any call; the clock is read by the number of readings made. -/
structure Env where
  /-- `kmsClient.GenerateDataKey`: history, `KeyId`, context. -/
  generateDataKey : List KmsCall → GoString → Option (GoMap GoString) →
    Except Error GenerateDataKeyOutput
  /-- `kmsClient.Decrypt`: history, blob, context, `KeyId`; the plaintext. -/
  decrypt : List KmsCall → List Byte → Option (GoMap GoString) → GoString →
    Except Error (List Byte)
  /-- `time.Now().UTC()` at the n-th reading. -/
  clock : Nat → Nat
  /-- `Format(time.RFC3339)`. -/
  rfc3339 : Nat → GoString

/-- What has happened outside the service: the requests sent to the key
service, oldest first, and the number of clock readings. -/
structure World where
  /-- The requests sent so far. -/
  kmsCalls : List KmsCall
  /-- The number of times the clock was read. -/
  ticks : Nat
  deriving DecidableEq, Repr

/-- The struct `EnvelopeService`, without its client and its mutex. The field
`dataKeyStore` is a map that `DeserializeDataKeyStore` can set to nil: `none`
is the nil map. The field `cache` is made by `NewEnvelopeService` and never
assigned again. -/
structure EnvelopeService where
  /-- The master key the data keys are wrapped under. -/
  masterKeyID : GoString
  /-- The records, by tenant; `none` is the nil map. -/
  dataKeyStore : Option (GoMap DataKeyInfo)
  /-- The plaintext data keys, by tenant. -/
  cache : GoMap (List Byte)
  deriving DecidableEq, Repr

/-- `NewEnvelopeService`, once the client is built: both maps are made,
empty. -/
def NewEnvelopeService (masterKeyID : GoString) : EnvelopeService :=
  { masterKeyID := masterKeyID, dataKeyStore := some [], cache := [] }

/-- The read `s.dataKeyStore[orgID]`: a nil map reads as an empty one. -/
def EnvelopeService.record (s : EnvelopeService) (orgID : GoString) : Option DataKeyInfo :=
  match s.dataKeyStore with
  | none => none
  | some store => store.get orgID

/-- The world after one more request. -/
def World.call (w : World) (c : KmsCall) : World :=
  { w with kmsCalls := w.kmsCalls ++ [c] }

/-- The world after one more reading of the clock. -/
def World.tick (w : World) : World :=
  { w with ticks := w.ticks + 1 }

/-- The context built by `CreateDataKey`. -/
def createContext (env : Env) (w : World) (orgID : GoString) : Option (GoMap GoString) :=
  some ((GoMap.set [] "organization_id".toList orgID).set "created_at".toList
    (env.rfc3339 (env.clock w.ticks)))

/-- `(*EnvelopeService).CreateDataKey(ctx, orgID)`: what it returns, and the
world and the service after the call; `none` is the panic of the assignment
`s.dataKeyStore[orgID] = dataKeyInfo` on a nil map, which comes after the
request to the key service was sent and answered. -/
def CreateDataKey (env : Env) (w : World) (s : EnvelopeService) (orgID : GoString) :
    Option (Except Error DataKeyInfo × World × EnvelopeService) :=
  match s.record orgID with
  | some _ => some (.error .dataKeyExists, w, s)
  | none =>
    let encryptionContext := createContext env w orgID
    let w := w.tick
    let request := KmsCall.generateDataKey s.masterKeyID encryptionContext "AES_256".toList
    match env.generateDataKey w.kmsCalls s.masterKeyID encryptionContext with
    | .error err => some (.error (.wrap "failed to generate data key" err), w.call request, s)
    | .ok dataKeyOutput =>
      let w := w.call request
      let encryptedDataKeyBase64 :=
        Base64.encodeToString Base64.stdPadding dataKeyOutput.CiphertextBlob
      let now := env.clock w.ticks
      let w := w.tick
      let dataKeyInfo : DataKeyInfo :=
        { OrganizationID := orgID
          EncryptedDataKey := encryptedDataKeyBase64
          CreatedAt := now
          LastRotatedAt := now
          EncryptionContext := encryptionContext }
      match s.dataKeyStore with
      | none => none
      | some store =>
        some (.ok dataKeyInfo, w,
          { s with dataKeyStore := some (store.set orgID dataKeyInfo) })

/-- `(*EnvelopeService).FetchDataKey(ctx, orgID)`. -/
def FetchDataKey (env : Env) (w : World) (s : EnvelopeService) (orgID : GoString) :
    Except Error (List Byte) × World × EnvelopeService :=
  match s.cache.get orgID with
  | some plaintextKey => (.ok plaintextKey, w, s)
  | none =>
    match s.record orgID with
    | none => (.error (.noDataKey orgID), w, s)
    | some dataKeyInfo =>
      match Base64.decodeString Base64.stdPadding dataKeyInfo.EncryptedDataKey with
      | .error err => (.error (.wrap "failed to decode encrypted data key" err), w, s)
      | .ok encryptedDataKey =>
        let request :=
          KmsCall.decrypt encryptedDataKey dataKeyInfo.EncryptionContext s.masterKeyID
        match env.decrypt w.kmsCalls encryptedDataKey dataKeyInfo.EncryptionContext
            s.masterKeyID with
        | .error err => (.error (.wrap "failed to decrypt data key" err), w.call request, s)
        | .ok plaintext =>
          (.ok plaintext, w.call request, { s with cache := s.cache.set orgID plaintext })

/-- `(*EnvelopeService).RotateDataKey(ctx, orgID)`; `none` is the panic of an
assignment to a nil map, here the context of the record. The local
`encryptionContext` is the map of the stored record, not a copy: the entry
`rotated_at` is in the store from the assignment on, before the key service is
called. A nil store holds no record; the store that holds one is written
to. -/
def RotateDataKey (env : Env) (w : World) (s : EnvelopeService) (orgID : GoString) :
    Option (Except Error DataKeyInfo × World × EnvelopeService) :=
  match s.dataKeyStore with
  | none => some (.error (.noDataKey orgID), w, s)
  | some store =>
    match store.get orgID with
    | none => some (.error (.noDataKey orgID), w, s)
    | some dataKeyInfo =>
      match dataKeyInfo.EncryptionContext with
      | none => none
      | some context =>
        let encryptionContext :=
          some (context.set "rotated_at".toList (env.rfc3339 (env.clock w.ticks)))
        let dataKeyInfo := { dataKeyInfo with EncryptionContext := encryptionContext }
        let store := store.set orgID dataKeyInfo
        let s := { s with dataKeyStore := some store }
        let w := w.tick
        let request :=
          KmsCall.generateDataKey s.masterKeyID encryptionContext "AES_256".toList
        match env.generateDataKey w.kmsCalls s.masterKeyID encryptionContext with
        | .error err =>
          some (.error (.wrap "failed to generate new data key" err), w.call request, s)
        | .ok dataKeyOutput =>
          let w := w.call request
          let encryptedDataKeyBase64 :=
            Base64.encodeToString Base64.stdPadding dataKeyOutput.CiphertextBlob
          let dataKeyInfo :=
            { dataKeyInfo with
              EncryptedDataKey := encryptedDataKeyBase64
              LastRotatedAt := env.clock w.ticks
              EncryptionContext := encryptionContext }
          let w := w.tick
          some (.ok dataKeyInfo, w,
            { s with
              dataKeyStore := some (store.set orgID dataKeyInfo)
              cache := s.cache.delete orgID })

/-- `(*EnvelopeService).DeleteDataKey(orgID)`: `delete` on a nil map does
nothing. -/
def DeleteDataKey (s : EnvelopeService) (orgID : GoString) : EnvelopeService :=
  { s with
    dataKeyStore := s.dataKeyStore.map fun store => store.delete orgID
    cache := s.cache.delete orgID }

/-- A sample environment. The request number `n` to the key service, when it
is a `GenerateDataKey`, is answered with a key made of the byte `n`, wrapped
as the bytes `[200, n]`, except the request number `failAt`, which fails.
`Decrypt` of `[200, n]` gives that key back when request `n` was the
`GenerateDataKey` made under the same master key and the same context, and
fails otherwise, as the key service does on a context that is not the one the
key was wrapped under. The clock advances one second per reading. -/
def sampleEnv (failAt : Nat) : Env :=
  { generateDataKey := fun history _ _ =>
      if history.length = failAt then .error (.kms 1)
      else .ok { Plaintext := List.replicate 32 (Fin.ofNat history.length),
                 CiphertextBlob := [200, Fin.ofNat history.length] }
    decrypt := fun history blob context keyId =>
      match blob with
      | [200, n] =>
        if history.get? n.val = some (.generateDataKey keyId context "AES_256".toList) then
          .ok (List.replicate 32 n)
        else .error (.kms 2)
      | _ => .error (.kms 3)
    clock := fun n => 1700000000 + n
    rfc3339 := fun t => "t".toList ++ Nat.toDigits 10 t }

/-- The world and the service after `CreateDataKey("org1")` on a new service,
in the sample environment whose second request fails. -/
def sampleRegistry : World × EnvelopeService :=
  ((CreateDataKey (sampleEnv 1) ⟨[], 0⟩ (NewEnvelopeService "mk".toList) "org1".toList).map
    fun x => x.2).getD (⟨[], 0⟩, NewEnvelopeService "mk".toList)

/-- The record that `sampleRegistry` holds for `org1`. -/
def sampleRecord : DataKeyInfo :=
  { OrganizationID := "org1".toList
    EncryptedDataKey := "yAA=".toList
    CreatedAt := 1700000001
    LastRotatedAt := 1700000001
    EncryptionContext := some [("organization_id".toList, "org1".toList),
      ("created_at".toList, "t1700000000".toList)] }

/-- The world and the service after `RotateDataKey("org1")` on
`sampleRegistry`, when the key service fails the request. -/
def sampleAfterFailure : World × EnvelopeService :=
  ((RotateDataKey (sampleEnv 1) sampleRegistry.1 sampleRegistry.2 "org1".toList).map
    fun x => x.2).getD sampleRegistry

/-- The world and the service after `FetchDataKey("org1")` on
`sampleRegistry`, when the key service answers every request. -/
def sampleFetched : World × EnvelopeService :=
  (FetchDataKey (sampleEnv 9) sampleRegistry.1 sampleRegistry.2 "org1".toList).2

/-- The world and the service after `RotateDataKey("org1")` on
`sampleFetched`. -/
def sampleRotated : World × EnvelopeService :=
  ((RotateDataKey (sampleEnv 9) sampleFetched.1 sampleFetched.2 "org1".toList).map
    fun x => x.2).getD sampleFetched

/-- The record that `sampleRotated` holds for `org1`. -/
def sampleRotatedRecord : DataKeyInfo :=
  { OrganizationID := "org1".toList
    EncryptedDataKey := "yAI=".toList
    CreatedAt := 1700000001
    LastRotatedAt := 1700000003
    EncryptionContext := some [("organization_id".toList, "org1".toList),
      ("created_at".toList, "t1700000000".toList),
      ("rotated_at".toList, "t1700000002".toList)] }

end Vuya

namespace Vuya

/-! ## src/crypto/crypto.envelope.go: the registry as a state machine -/

/-- What `json.Unmarshal` finds in the text given to
`DeserializeDataKeyStore`, whose target is a `map[string]*DataKeyInfo`. -/
inductive StoreDocument where
  /-- The JSON text `null`. -/
  | null
  /-- A JSON object whose members are JSON objects decoding into `DataKeyInfo`
  without error: the members, in the order of the text, each decoded into a new
  `DataKeyInfo`. -/
  | object (members : List (GoString × DataKeyInfo))
  /-- A text that is not valid JSON, or a JSON value that is neither `null` nor
  an object (an array, a string, a number, a boolean), with the error that
  `json.Unmarshal` returns for it. -/
  | invalid (err : Error)
  deriving DecidableEq, Repr

/-- `(*EnvelopeService).DeserializeDataKeyStore(data)`, which is
`json.Unmarshal(data, &s.dataKeyStore)`: the error returned, `none` being nil,
and the service after the call. On the text `null` the store is set to the
nil map. On an object, a store that is not nil is reused, keeping its entries,
a nil store is replaced by a new map, and the members of the document are
stored into it one after the other. On a text that is refused the store is
left as it is. The cache is not touched. -/
def DeserializeDataKeyStore (s : EnvelopeService) (doc : StoreDocument) :
    Option Error × EnvelopeService :=
  match doc with
  | .null => (none, { s with dataKeyStore := none })
  | .object members =>
    (none,
      { s with
        dataKeyStore :=
          some (members.foldl (fun m e => m.set e.1 e.2) (s.dataKeyStore.getD [])) })
  | .invalid err => (some err, s)

/-- `(*EnvelopeService).SerializeDataKeyStore()`, as the document that
`json.Marshal` writes for the store: `null` for the nil map, and otherwise an
object with one member per entry. (The text lists them sorted by key.) -/
def SerializeDataKeyStore (s : EnvelopeService) : StoreDocument :=
  match s.dataKeyStore with
  | none => .null
  | some store => .object store

/-- One call on the registry. -/
inductive Op where
  /-- `CreateDataKey(ctx, orgID)`. -/
  | create (orgID : GoString)
  /-- `FetchDataKey(ctx, orgID)`. -/
  | fetch (orgID : GoString)
  /-- `RotateDataKey(ctx, orgID)`. -/
  | rotate (orgID : GoString)
  /-- `DeleteDataKey(orgID)`. -/
  | delete (orgID : GoString)
  /-- `DeserializeDataKeyStore(data)`, by what the text holds. -/
  | deserialize (doc : StoreDocument)
  deriving DecidableEq, Repr

/-- The world and the service after one call; `none` when the call panics. -/
def Op.apply (env : Env) : Op → World × EnvelopeService → Option (World × EnvelopeService)
  | .create orgID, (w, s) => (CreateDataKey env w s orgID).map fun r => r.2
  | .fetch orgID, (w, s) => some (FetchDataKey env w s orgID).2
  | .rotate orgID, (w, s) => (RotateDataKey env w s orgID).map fun r => r.2
  | .delete orgID, (w, s) => some (w, DeleteDataKey s orgID)
  | .deserialize doc, (w, s) => some (w, (DeserializeDataKeyStore s doc).2)

/-- A sequential run of calls. -/
def run (env : Env) : List Op → World × EnvelopeService → Option (World × EnvelopeService)
  | [], st => some st
  | op :: ops, st => (op.apply env st).bind (run env ops)

/-- The calls that are neither a rotation, nor a deletion, nor an import. -/
def Op.isQuiet : Op → Bool
  | .create _ => true
  | .fetch _ => true
  | _ => false

/-- The state of a tenant in the registry, as the spec names it: `Absent`
(no record; a deleted tenant is in this state, the registry keeps no trace of
a deletion), `Active` (a record never rotated) and `Rotated` (a record whose
context carries `rotated_at`). -/
inductive TenantState where
  /-- No record. -/
  | absent
  /-- A record as `CreateDataKey` made it. -/
  | active
  /-- A record that `RotateDataKey` touched. -/
  | rotated
  deriving DecidableEq, Repr

/-- The state of tenant `t` in the service `s`. -/
def tenantState (s : EnvelopeService) (t : GoString) : TenantState :=
  match s.record t with
  | none => .absent
  | some info =>
    match info.EncryptionContext with
    | none => .active
    | some context =>
      match context.get "rotated_at".toList with
      | none => .active
      | some _ => .rotated

/-- The service after `CreateDataKey("org1")` then `DeleteDataKey("org1")` on
a new service, in the sample environment. -/
def sampleDeleted : World × EnvelopeService :=
  (sampleRegistry.1, DeleteDataKey sampleRegistry.2 "org1".toList)

/-- The record that a `CreateDataKey("org1")` on `sampleDeleted` installs. -/
def sampleRecreatedRecord : DataKeyInfo :=
  { OrganizationID := "org1".toList
    EncryptedDataKey := "yAE=".toList
    CreatedAt := 1700000003
    LastRotatedAt := 1700000003
    EncryptionContext := some [("organization_id".toList, "org1".toList),
      ("created_at".toList, "t1700000002".toList)] }

/-- A run that restores an earlier snapshot: `org1`'s key is created, the
store is exported (`sampleRegistry` is the registry at that point), the key is
rotated and fetched, and the snapshot is imported. -/
def sampleRestoreRun : List Op :=
  [.create "org1".toList, .rotate "org1".toList, .fetch "org1".toList,
   .deserialize (SerializeDataKeyStore sampleRegistry.2)]

/-- The world and the service after `sampleRestoreRun` on a new service, when
the key service answers every request. -/
def sampleRestored : World × EnvelopeService :=
  (run (sampleEnv 9) sampleRestoreRun (⟨[], 0⟩, NewEnvelopeService "mk".toList)).getD
    (⟨[], 0⟩, NewEnvelopeService "mk".toList)

/-- The members of a snapshot that names `org2` only. -/
def sampleSnapshot : List (GoString × DataKeyInfo) :=
  [("org2".toList,
    { OrganizationID := "org2".toList
      EncryptedDataKey := "yAU=".toList
      CreatedAt := 1600000000
      LastRotatedAt := 1600000000
      EncryptionContext := some [("organization_id".toList, "org2".toList),
        ("created_at".toList, "t1600000000".toList)] })]

/-- The service after `DeserializeDataKeyStore` of the JSON text `null` on a
new service: its store is the nil map. -/
def sampleNilStore : EnvelopeService :=
  (DeserializeDataKeyStore (NewEnvelopeService "mk".toList) .null).2

end Vuya

namespace Vuya

/-! ## crypto/aes and crypto/cipher (GCM), as `EnvelopeService` uses them

The block cipher is the function of FIPS 197 and the mode that of NIST SP
800-38D with a 12-byte nonce and a 16-byte tag, which is what the Go packages
compute. Bytes inside the cipher are natural numbers below 256. -/

namespace AES

/-- Multiplication by `x` in GF(2^8) modulo `x^8 + x^4 + x^3 + x + 1`. -/
def xtime (a : Nat) : Nat :=
  if a &&& 0x80 = 0 then (a <<< 1) &&& 0xff else ((a <<< 1) ^^^ 0x1b) &&& 0xff

/-- The product of `a` and the low `n` bits of `b` in GF(2^8). -/
def gmulAux : Nat → Nat → Nat → Nat
  | 0, _, _ => 0
  | n + 1, a, b => (if b &&& 1 = 1 then a else 0) ^^^ gmulAux n (xtime a) (b >>> 1)

/-- Multiplication in GF(2^8). -/
def gmul (a b : Nat) : Nat := gmulAux 8 a b

/-- The power `a^n` in GF(2^8). -/
def gpow (a : Nat) : Nat → Nat
  | 0 => 1
  | n + 1 => gmul a (gpow a n)

/-- The table `sbox0` of `crypto/aes`: the S-box of FIPS 197. -/
def sbox0 : List Nat :=
  [0x63, 0x7c, 0x77, 0x7b, 0xf2, 0x6b, 0x6f, 0xc5, 0x30, 0x01, 0x67, 0x2b, 0xfe, 0xd7, 0xab, 0x76,
   0xca, 0x82, 0xc9, 0x7d, 0xfa, 0x59, 0x47, 0xf0, 0xad, 0xd4, 0xa2, 0xaf, 0x9c, 0xa4, 0x72, 0xc0,
   0xb7, 0xfd, 0x93, 0x26, 0x36, 0x3f, 0xf7, 0xcc, 0x34, 0xa5, 0xe5, 0xf1, 0x71, 0xd8, 0x31, 0x15,
   0x04, 0xc7, 0x23, 0xc3, 0x18, 0x96, 0x05, 0x9a, 0x07, 0x12, 0x80, 0xe2, 0xeb, 0x27, 0xb2, 0x75,
   0x09, 0x83, 0x2c, 0x1a, 0x1b, 0x6e, 0x5a, 0xa0, 0x52, 0x3b, 0xd6, 0xb3, 0x29, 0xe3, 0x2f, 0x84,
   0x53, 0xd1, 0x00, 0xed, 0x20, 0xfc, 0xb1, 0x5b, 0x6a, 0xcb, 0xbe, 0x39, 0x4a, 0x4c, 0x58, 0xcf,
   0xd0, 0xef, 0xaa, 0xfb, 0x43, 0x4d, 0x33, 0x85, 0x45, 0xf9, 0x02, 0x7f, 0x50, 0x3c, 0x9f, 0xa8,
   0x51, 0xa3, 0x40, 0x8f, 0x92, 0x9d, 0x38, 0xf5, 0xbc, 0xb6, 0xda, 0x21, 0x10, 0xff, 0xf3, 0xd2,
   0xcd, 0x0c, 0x13, 0xec, 0x5f, 0x97, 0x44, 0x17, 0xc4, 0xa7, 0x7e, 0x3d, 0x64, 0x5d, 0x19, 0x73,
   0x60, 0x81, 0x4f, 0xdc, 0x22, 0x2a, 0x90, 0x88, 0x46, 0xee, 0xb8, 0x14, 0xde, 0x5e, 0x0b, 0xdb,
   0xe0, 0x32, 0x3a, 0x0a, 0x49, 0x06, 0x24, 0x5c, 0xc2, 0xd3, 0xac, 0x62, 0x91, 0x95, 0xe4, 0x79,
   0xe7, 0xc8, 0x37, 0x6d, 0x8d, 0xd5, 0x4e, 0xa9, 0x6c, 0x56, 0xf4, 0xea, 0x65, 0x7a, 0xae, 0x08,
   0xba, 0x78, 0x25, 0x2e, 0x1c, 0xa6, 0xb4, 0xc6, 0xe8, 0xdd, 0x74, 0x1f, 0x4b, 0xbd, 0x8b, 0x8a,
   0x70, 0x3e, 0xb5, 0x66, 0x48, 0x03, 0xf6, 0x0e, 0x61, 0x35, 0x57, 0xb9, 0x86, 0xc1, 0x1d, 0x9e,
   0xe1, 0xf8, 0x98, 0x11, 0x69, 0xd9, 0x8e, 0x94, 0x9b, 0x1e, 0x87, 0xe9, 0xce, 0x55, 0x28, 0xdf,
   0x8c, 0xa1, 0x89, 0x0d, 0xbf, 0xe6, 0x42, 0x68, 0x41, 0x99, 0x2d, 0x0f, 0xb0, 0x54, 0xbb, 0x16]

/-- `SubBytes` on one byte. -/
def sbox (a : Nat) : Nat := sbox0.getD a 0

/-- The number of 32-bit words of a key of `n` bytes. -/
def nk (keyLen : Nat) : Nat := keyLen / 4

/-- The number of rounds for a key of `n` bytes: 10, 12 or 14. -/
def nr (keyLen : Nat) : Nat := keyLen / 4 + 6

/-- The round constant `x^(j-1)`, for `j ≥ 1`. -/
def rcon (j : Nat) : Nat := gpow 2 (j - 1)

/-- The four bytes of word `i` of the key schedule built so far. -/
def wordAt (w : List Nat) (i : Nat) : List Nat :=
  [w.getD (4 * i) 0, w.getD (4 * i + 1) 0, w.getD (4 * i + 2) 0, w.getD (4 * i + 3) 0]

/-- The word that `KeyExpansion` appends as word number `i`. -/
def nextWord (n : Nat) (w : List Nat) (i : Nat) : List Nat :=
  let prev := wordAt w (i - 1)
  let temp :=
    if i % n = 0 then
      -- SubWord(RotWord(temp)) xor Rcon[i / Nk]
      [sbox (prev.getD 1 0) ^^^ rcon (i / n), sbox (prev.getD 2 0), sbox (prev.getD 3 0),
       sbox (prev.getD 0 0)]
    else if n > 6 ∧ i % n = 4 then prev.map sbox
    else prev
  List.zipWith (· ^^^ ·) (wordAt w (i - n)) temp

/-- The loop of `KeyExpansion`: `count` more words from word `i` on. -/
def expandLoop (n : Nat) : Nat → Nat → List Nat → List Nat
  | 0, _, w => w
  | count + 1, i, w => expandLoop n count (i + 1) (w ++ nextWord n w i)

/-- `KeyExpansion`: the `16 * (Nr + 1)` bytes of the round keys. -/
def expandKey (key : List Nat) : List Nat :=
  expandLoop (nk key.length) (4 * (nr key.length + 1) - nk key.length) (nk key.length) key

/-- `AddRoundKey` with round key number `r`. The state holds its 16 bytes
column after column, as the input block is read. -/
def addRoundKey (w : List Nat) (r : Nat) (st : List Nat) : List Nat :=
  (List.range 16).map fun i => st.getD i 0 ^^^ w.getD (16 * r + i) 0

/-- `SubBytes`. -/
def subBytes (st : List Nat) : List Nat := st.map sbox

/-- `ShiftRows`: row `r` is rotated by `r` columns. -/
def shiftRows (st : List Nat) : List Nat :=
  (List.range 16).map fun i => st.getD (i % 4 + 4 * ((i / 4 + i % 4) % 4)) 0

/-- `MixColumns`. -/
def mixColumns (st : List Nat) : List Nat :=
  (List.range 16).map fun i =>
    let c := 4 * (i / 4)
    let r := i % 4
    gmul 2 (st.getD (c + r) 0) ^^^ gmul 3 (st.getD (c + (r + 1) % 4) 0) ^^^
      st.getD (c + (r + 2) % 4) 0 ^^^ st.getD (c + (r + 3) % 4) 0

/-- The rounds `r`, `r + 1`, ... of the cipher that have all four steps. -/
def middleRounds (w : List Nat) : Nat → Nat → List Nat → List Nat
  | 0, _, st => st
  | count + 1, r, st =>
    middleRounds w count (r + 1) (addRoundKey w r (mixColumns (shiftRows (subBytes st))))

/-- `Cipher`: the encryption of one block under an expanded key of `rounds`
rounds. -/
def cipher (w : List Nat) (rounds : Nat) (block : List Nat) : List Nat :=
  let st := addRoundKey w 0 block
  let st := middleRounds w (rounds - 1) 1 st
  addRoundKey w rounds (shiftRows (subBytes st))

/-- A `cipher.Block` made by `aes.NewCipher`: the key. -/
structure Block where
  /-- The key, of 16, 24 or 32 bytes. -/
  key : List Byte
  deriving DecidableEq, Repr

/-- `aes.NewCipher(key)`. -/
def NewCipher (key : List Byte) : Except Error Block :=
  if key.length = 16 ∨ key.length = 24 ∨ key.length = 32 then .ok ⟨key⟩
  else .error (.aesKeySize key.length)

/-- `(cipher.Block).Encrypt` on one block of 16 bytes. -/
def Block.Encrypt (b : Block) (src : List Byte) : List Byte :=
  (cipher (expandKey (b.key.map Fin.val)) (nr b.key.length) (src.map Fin.val)).map Fin.ofNat

end AES

namespace GCM

/-- `gcmStandardNonceSize`. -/
def NonceSize : Nat := 12

/-- `gcmTagSize`. -/
def TagSize : Nat := 16

/-- The largest plaintext `Seal` accepts: `((1 << 32) - 2) * BlockSize`. -/
def maxPlaintext : Nat := (2 ^ 32 - 2) * 16

/-- The number whose big-endian bytes are the list. -/
def beNat (bs : List Byte) : Nat := bs.foldl (fun acc b => acc * 256 + b.val) 0

/-- The `n` big-endian bytes of a number. -/
def beBytes : Nat → Nat → List Byte
  | 0, _ => []
  | n + 1, v => beBytes n (v / 256) ++ [Fin.ofNat v]

/-- The loop of the multiplication in GF(2^128) of SP 800-38D: the bits of
`x` are read from the leftmost on, `i` counting the bits left. -/
def mulLoop (x : Nat) : Nat → Nat → Nat → Nat
  | 0, z, _ => z
  | i + 1, z, v =>
    mulLoop x i (if x.testBit i then z ^^^ v else z)
      (if v &&& 1 = 0 then v >>> 1 else (v >>> 1) ^^^ (0xe1 <<< 120))

/-- The product of two blocks in GF(2^128). -/
def mul (x y : Nat) : Nat := mulLoop x 128 0 y

/-- The blocks of 16 bytes of a buffer, the last one filled with zeros. -/
def blocks : Nat → List Byte → List Nat
  | 0, _ => []
  | n + 1, bs => beNat (bs.take 16 ++ List.replicate (16 - (bs.take 16).length) 0) ::
      blocks n (bs.drop 16)

/-- `GHASH` under the hash key `h` of a list of blocks. -/
def ghash (h : Nat) (xs : List Nat) : Nat :=
  xs.foldl (fun y x => mul (y ^^^ x) h) 0

/-- The counter block: the nonce followed by a 32-bit counter. -/
def counterBlock (nonce : List Byte) (counter : Nat) : List Byte :=
  nonce ++ beBytes 4 (counter % 2 ^ 32)

/-- The key stream of `counterCrypt`: `n` blocks from the counter on. -/
def keyStream (b : AES.Block) (nonce : List Byte) : Nat → Nat → List Byte
  | _, 0 => []
  | counter, n + 1 =>
    b.Encrypt (counterBlock nonce counter) ++ keyStream b nonce (counter + 1) n

/-- `counterCrypt` from the counter value 2 on, over `src`. -/
def counterCrypt (b : AES.Block) (nonce src : List Byte) : List Byte :=
  ChaCha20.xorBytes src (keyStream b nonce 2 ((src.length + 15) / 16))

/-- `auth`: the tag of a ciphertext and additional data under a nonce. -/
def auth (b : AES.Block) (nonce ciphertext data : List Byte) : List Byte :=
  let h := beNat (b.Encrypt (List.replicate 16 0))
  let lens := (data.length * 8 % 2 ^ 64) * 2 ^ 64 + ciphertext.length * 8 % 2 ^ 64
  let y := ghash h (blocks ((data.length + 15) / 16) data ++
    blocks ((ciphertext.length + 15) / 16) ciphertext ++ [lens])
  ChaCha20.xorBytes (beBytes 16 y) (b.Encrypt (counterBlock nonce 1))

/-- `(cipher.AEAD).Seal(dst, nonce, plaintext, data)` of the GCM made by
`cipher.NewGCM`; `none` is a panic (nonce of the wrong length, message too
large). -/
def Seal (b : AES.Block) (dst nonce plaintext data : List Byte) : Option (List Byte) :=
  if nonce.length ≠ NonceSize then none
  else if plaintext.length > maxPlaintext then none
  else
    let out := counterCrypt b nonce plaintext
    some (dst ++ out ++ auth b nonce out data)

/-- `(cipher.AEAD).Open(nil, nonce, ciphertext, data)`; `none` is the panic on
a nonce of the wrong length. -/
def Open (b : AES.Block) (nonce ciphertext data : List Byte) :
    Option (Except Error (List Byte)) :=
  if nonce.length ≠ NonceSize then none
  else if ciphertext.length < TagSize then some (.error .gcmOpen)
  else if ciphertext.length > maxPlaintext + TagSize then some (.error .gcmOpen)
  else
    let tag := ciphertext.drop (ciphertext.length - TagSize)
    let ct := ciphertext.take (ciphertext.length - TagSize)
    if Subtle.constantTimeCompare (auth b nonce ct data) tag ≠ 1 then some (.error .gcmOpen)
    else some (.ok (counterCrypt b nonce ct))

end GCM

/-! ## src/crypto/crypto.envelope.go: `Encrypt` and `Decrypt` -/

/-- `(*EnvelopeService).Encrypt(ctx, orgID, plaintext)`: the token or the
error, and the world and the service after the call; `none` is the panic of
`Seal` on a plaintext too large. `cipher.NewGCM` cannot fail on an AES block.
`entropy` is what `rand.Reader` holds. -/
def Encrypt (env : Env) (entropy : List Byte) (w : World) (s : EnvelopeService)
    (orgID : GoString) (plaintext : List Byte) :
    Option (Except Error GoString × World × EnvelopeService) :=
  match FetchDataKey env w s orgID with
  | (.error err, w, s) => some (.error (.wrap "failed to fetch data key" err), w, s)
  | (.ok dataKey, w, s) =>
    match AES.NewCipher dataKey with
    | .error err => some (.error (.wrap "failed to create AES cipher" err), w, s)
    | .ok block =>
      match generateRandomBytes entropy GCM.NonceSize with
      | .error err => some (.error (.wrap "failed to generate nonce" err), w, s)
      | .ok nonce =>
        match GCM.Seal block nonce nonce plaintext [] with
        | none => none
        | some ciphertext =>
          some (.ok (Base64.encodeToString Base64.stdPadding ciphertext), w, s)

/-- `(*EnvelopeService).Decrypt(ctx, orgID, ciphertextBase64)`. The nonce
given to `Open` has the length `Open` requires, so that it cannot panic; the
`Option` of `GCM.Open` is kept as it is. -/
def Decrypt (env : Env) (w : World) (s : EnvelopeService) (orgID : GoString)
    (ciphertextBase64 : GoString) :
    Option (Except Error (List Byte) × World × EnvelopeService) :=
  match FetchDataKey env w s orgID with
  | (.error err, w, s) => some (.error (.wrap "failed to fetch data key" err), w, s)
  | (.ok dataKey, w, s) =>
    match Base64.decodeString Base64.stdPadding ciphertextBase64 with
    | .error err => some (.error (.wrap "failed to decode ciphertext" err), w, s)
    | .ok ciphertext =>
      match AES.NewCipher dataKey with
      | .error err => some (.error (.wrap "failed to create AES cipher" err), w, s)
      | .ok block =>
        if ciphertext.length < GCM.NonceSize then some (.error .ciphertextShort, w, s)
        else
          match GCM.Open block (ciphertext.take GCM.NonceSize)
              (ciphertext.drop GCM.NonceSize) [] with
          | none => none
          | some (.error err) =>
            some (.error (.wrap "failed to decrypt ciphertext" err), w, s)
          | some (.ok plaintext) => some (.ok plaintext, w, s)

/-- What the random source holds in the sample calls: the bytes 0, 1, ... -/
def sampleEntropy : List Byte := (List.range 40).map Fin.ofNat

end Vuya

namespace Vuya

/-! ## encoding/hex -/

namespace Hex

/-- The table `reverseHexTable`, on a byte: `none` for the entries `0xff`. -/
def fromHexChar (b : Nat) : Option Nat :=
  if 48 ≤ b ∧ b ≤ 57 then some (b - 48)
  else if 97 ≤ b ∧ b ≤ 102 then some (b - 97 + 10)
  else if 65 ≤ b ∧ b ≤ 70 then some (b - 65 + 10)
  else none

/-- `hex.Decode` over the bytes of the source. -/
def decode : List Nat → Except Error (List Byte)
  | [] => .ok []
  | [p] =>
    match fromHexChar p with
    | none => .error (.hexInvalidByte p)
    | some _ => .error .hexErrLength
  | p :: q :: rest =>
    match fromHexChar p with
    | none => .error (.hexInvalidByte p)
    | some a =>
      match fromHexChar q with
      | none => .error (.hexInvalidByte q)
      | some b => (decode rest).map (Fin.ofNat (a * 16 + b) :: ·)

/-- The bytes of a Go string: its UTF-8 encoding. -/
def bytesOf (s : GoString) : List Nat :=
  s.flatMap fun c => (String.utf8EncodeChar c).map UInt8.toNat

/-- `hex.DecodeString`; on an error Go returns the bytes decoded so far next
to it, which no caller here reads. -/
def DecodeString (s : GoString) : Except Error (List Byte) := decode (bytesOf s)

end Hex

/-! ## crypto/ed25519

The signature scheme is outside the repository: the derivation of the public
key from a seed and the verification of a signature are parameters. What is
embedded is the length discipline of the package. -/

namespace Ed25519

/-- `ed25519.PublicKeySize`. -/
def PublicKeySize : Nat := 32

/-- `ed25519.SeedSize`. -/
def SeedSize : Nat := 32

/-- `ed25519.PrivateKeySize`. -/
def PrivateKeySize : Nat := 64

/-- `ed25519.SignatureSize`. -/
def SignatureSize : Nat := 64

/-- The arithmetic of the scheme. -/
structure Scheme where
  /-- The 32 bytes of the public key of a seed. -/
  publicOf : List Byte → List Byte
  /-- The verification equation, on a public key of 32 bytes and a signature
  of 64 bytes. -/
  verifies : List Byte → List Byte → List Byte → Bool

/-- What the package documents of the derivation: a public key has 32
bytes. -/
def Scheme.Lawful (e : Scheme) : Prop := ∀ seed, (e.publicOf seed).length = PublicKeySize

/-- `ed25519.NewKeyFromSeed(seed)`: it panics (`none`) when `len(seed)` is not
`SeedSize`; the private key is the seed followed by the public key. -/
def NewKeyFromSeed (e : Scheme) (seed : List Byte) : Option (List Byte) :=
  if seed.length ≠ SeedSize then none else some (seed ++ e.publicOf seed)

/-- `ed25519.Verify(publicKey, message, sig)`: it panics (`none`) when
`len(publicKey)` is not `PublicKeySize`, and refuses a signature that has not
64 bytes. -/
def Verify (e : Scheme) (publicKey message sig : List Byte) : Option Bool :=
  if publicKey.length ≠ PublicKeySize then none
  else if sig.length ≠ SignatureSize then some false
  else some (e.verifies publicKey message sig)

end Ed25519

/-! ## src/crypto/jwt.ed25519.go: the keys -/

/-- The struct `JwtSignerEd25519`: two pointers, `none` being nil. -/
structure JwtSignerEd25519 where
  /-- `*ed25519.PublicKey`. -/
  publicKey : Option (List Byte)
  /-- `*ed25519.PrivateKey`. -/
  privateKey : Option (List Byte)
  deriving DecidableEq, Repr

/-- `newEd25519PrivateKey(privateKeyBytes)`; `none` is a panic. On an error
the Go function returns a pointer to an empty key next to it, which its caller
drops. -/
def newEd25519PrivateKey (e : Ed25519.Scheme) (privateKeyBytes : List Byte) :
    Option (Except Error (List Byte)) :=
  if privateKeyBytes.length ≠ 32 ∧ privateKeyBytes.length ≠ 64 then
    some (.error .ErrBadPrivateKeySize)
  else
    match Ed25519.NewKeyFromSeed e privateKeyBytes with
    | none => none
    | some privateKey => some (.ok privateKey)

/-- `newEd25519PublicKey(publicKeyBytes)`: the error of a bad size is
`ErrBadPrivateKeySize`, as in the source. -/
def newEd25519PublicKey (publicKeyBytes : List Byte) : Except Error (List Byte) :=
  if publicKeyBytes.length ≠ Ed25519.PublicKeySize then .error .ErrBadPrivateKeySize
  else .ok publicKeyBytes

/-- `decodePrivateKeyEd25519FromString(privateKeyString)`. -/
def decodePrivateKeyEd25519FromString (e : Ed25519.Scheme) (privateKeyString : GoString) :
    Option (Except Error (List Byte)) :=
  match Hex.DecodeString privateKeyString with
  | .error err => some (.error err)
  | .ok decodedPrivateKey =>
    match newEd25519PrivateKey e decodedPrivateKey with
    | none => none
    | some (.error err) => some (.error err)
    | some (.ok key) => some (.ok key)

/-- `decodePublicKeyEd25519(publicKeyString)`. -/
def decodePublicKeyEd25519 (publicKeyString : GoString) : Except Error (List Byte) :=
  match Hex.DecodeString publicKeyString with
  | .error err => .error err
  | .ok decodedPublicKey =>
    match newEd25519PublicKey decodedPublicKey with
    | .error err => .error err
    | .ok publicKey => .ok publicKey

/-- `BuildJwtSignerEd25519(ed25519PrivateKey, ed25519PublicKey)`; `none` is a
panic. -/
def BuildJwtSignerEd25519 (e : Ed25519.Scheme) (ed25519PrivateKey ed25519PublicKey : GoString) :
    Option (Except Error JwtSignerEd25519) :=
  match decodePrivateKeyEd25519FromString e ed25519PrivateKey with
  | none => none
  | some (.error err) => some (.error err)
  | some (.ok privateKeyInstance) =>
    match decodePublicKeyEd25519 ed25519PublicKey with
    | .error err => some (.error err)
    | .ok publicKeyInstance =>
      some (.ok { privateKey := some privateKeyInstance, publicKey := some publicKeyInstance })

/-! ## github.com/golang-jwt/jwt/v4: `Parse`

The package is outside the repository. Its control flow is embedded; the
codecs of the segments (base64url, JSON), the clock and the signature scheme
are parameters (`Lib`). -/

namespace Jwt

/-- `ValidationErrorMalformed`. -/
def ValidationErrorMalformed : Nat := 1 <<< 0

/-- `ValidationErrorUnverifiable`. -/
def ValidationErrorUnverifiable : Nat := 1 <<< 1

/-- `ValidationErrorSignatureInvalid`. -/
def ValidationErrorSignatureInvalid : Nat := 1 <<< 2

/-- `ValidationErrorExpired`. -/
def ValidationErrorExpired : Nat := 1 <<< 4

/-- `ValidationErrorIssuedAt`. -/
def ValidationErrorIssuedAt : Nat := 1 <<< 5

/-- `ValidationErrorNotValidYet`. -/
def ValidationErrorNotValidYet : Nat := 1 <<< 7

/-- A registered claim that holds a date, as `MapClaims` reads it. -/
inductive NumericClaim where
  /-- The claim is not in the map. -/
  | absent
  /-- The number 0, which the package reads as if the claim were absent. -/
  | zero
  /-- Another number, whose `NumericDate` is `seconds` since the epoch. -/
  | date (seconds : Int)
  /-- A value that is not a number. -/
  | mistyped
  deriving DecidableEq, Repr

/-- The decoded claims: the three dates that `MapClaims.Valid` reads, and the
JSON text, which carries the other claims. -/
structure MapClaims where
  /-- The claim `exp`. -/
  exp : NumericClaim
  /-- The claim `iat`. -/
  iat : NumericClaim
  /-- The claim `nbf`. -/
  nbf : NumericClaim
  /-- The JSON object the claims were decoded from. -/
  text : List Byte
  deriving DecidableEq, Repr

/-- The decoded header: `alg` is `token.Header["alg"].(string)`, `none` when
the entry is missing or is not a string. -/
structure Header where
  /-- The algorithm the token declares. -/
  alg : Option GoString
  /-- The JSON object the header was decoded from. -/
  text : List Byte
  deriving DecidableEq, Repr

/-- The registered signing methods: `*SigningMethodEd25519`, and the others
by their name. -/
inductive SigningMethod where
  /-- `SigningMethodEdDSA`. -/
  | ed25519
  /-- One of the HMAC, RSA, RSA-PSS, ECDSA and `none` methods. -/
  | other (alg : GoString)
  deriving DecidableEq, Repr

/-- `GetSigningMethod(alg)`. -/
def GetSigningMethod (alg : GoString) : Option SigningMethod :=
  if alg = "EdDSA".toList then some .ed25519
  else if alg ∈ ["HS256", "HS384", "HS512", "RS256", "RS384", "RS512", "PS256", "PS384",
      "PS512", "ES256", "ES384", "ES512", "none"].map String.toList then some (.other alg)
  else none

/-- The struct `Token`. -/
structure Token where
  /-- The token string. -/
  Raw : GoString
  /-- The signing method. -/
  Method : SigningMethod
  /-- The first segment. -/
  Header : Header
  /-- The second segment. -/
  Claims : MapClaims
  /-- The third segment. -/
  Signature : GoString
  /-- Whether the token was verified. -/
  Valid : Bool
  deriving DecidableEq, Repr

/-- The collaborators of `Parse`. -/
structure Lib where
  /-- `DecodeSegment`: `base64.RawURLEncoding.DecodeString`. -/
  decodeSegment : GoString → Except Error (List Byte)
  /-- `json.Unmarshal(headerBytes, &token.Header)`. -/
  unmarshalHeader : List Byte → Except Error Header
  /-- The JSON decoding of the claims into a `MapClaims`. -/
  unmarshalClaims : List Byte → Except Error MapClaims
  /-- `TimeFunc().Unix()`. -/
  now : Int
  /-- The signature scheme. -/
  scheme : Ed25519.Scheme

/-- The two behaviours of `ParseWithClaims` in the releases of `jwt/v4`: up to
v4.5.0 the claims are validated, then the signature, and the flags of both are
joined in one `ValidationError`; from v4.5.1 on the signature is verified
first and a bad signature is returned at once. -/
inductive Release where
  /-- v4.0.0 to v4.5.0. -/
  | joined
  /-- v4.5.1 and later. -/
  | signatureFirst
  deriving DecidableEq, Repr

/-- A `ValidationError` made by `NewValidationError(text, flags)`. -/
def newValidationError (text : String) (flags : Nat) : Error :=
  .jwtValidation flags (.jwtText text)

/-- `strings.HasPrefix(strings.ToLower(tokenString), "bearer ")`. -/
def hasBearerPrefix (tokenString : GoString) : Bool :=
  "bearer ".toList.isPrefixOf (tokenString.map Char.toLower)

/-- `(*Parser).ParseUnverified`: the token and its three segments. On an
error Go returns the token parsed so far next to it, which `Parse` passes on
and the caller here drops. -/
def ParseUnverified (lib : Lib) (tokenString : GoString) :
    Except Error (Token × List GoString) :=
  let parts := Strings.split '.' tokenString
  if parts.length ≠ 3 then
    .error (newValidationError "token contains an invalid number of segments"
      ValidationErrorMalformed)
  else
    match lib.decodeSegment (parts.getD 0 []) with
    | .error err =>
      if hasBearerPrefix tokenString then
        .error (newValidationError "tokenstring should not contain \x27bearer \x27"
          ValidationErrorMalformed)
      else .error (.jwtValidation ValidationErrorMalformed err)
    | .ok headerBytes =>
      match lib.unmarshalHeader headerBytes with
      | .error err => .error (.jwtValidation ValidationErrorMalformed err)
      | .ok header =>
        match lib.decodeSegment (parts.getD 1 []) with
        | .error err => .error (.jwtValidation ValidationErrorMalformed err)
        | .ok claimBytes =>
          match lib.unmarshalClaims claimBytes with
          | .error err => .error (.jwtValidation ValidationErrorMalformed err)
          | .ok claims =>
            match header.alg with
            | none =>
              .error (newValidationError "signing method (alg) is unspecified."
                ValidationErrorUnverifiable)
            | some alg =>
              match GetSigningMethod alg with
              | none =>
                .error (newValidationError "signing method (alg) is unavailable."
                  ValidationErrorUnverifiable)
              | some method =>
                .ok ({ Raw := tokenString, Method := method, Header := header,
                       Claims := claims, Signature := [], Valid := false }, parts)

/-- Whether a token string is malformed: it has not three segments, or its
header or its claims segment does not decode. (A signature segment that does
not decode is left to the verification of the signature.) -/
def isMalformed (lib : Lib) (tokenString : GoString) : Bool :=
  let parts := Strings.split '.' tokenString
  if parts.length ≠ 3 then true
  else
    match lib.decodeSegment (parts.getD 0 []) with
    | .error _ => true
    | .ok headerBytes =>
      match lib.unmarshalHeader headerBytes with
      | .error _ => true
      | .ok _ =>
        match lib.decodeSegment (parts.getD 1 []) with
        | .error _ => true
        | .ok claimBytes =>
          match lib.unmarshalClaims claimBytes with
          | .error _ => true
          | .ok _ => false

/-- `verifyExp` on the claim `exp`, not required: the date must be after
now. -/
def verifyExp (lib : Lib) : NumericClaim → Bool
  | .absent => true
  | .zero => true
  | .date seconds => decide (lib.now < seconds)
  | .mistyped => false

/-- `verifyIat` and `verifyNbf`, not required: the date must not be after
now. -/
def verifyNotAfterNow (lib : Lib) : NumericClaim → Bool
  | .absent => true
  | .zero => true
  | .date seconds => decide (seconds ≤ lib.now)
  | .mistyped => false

/-- `MapClaims.Valid()`: the flags and the `Inner` error of the
`ValidationError` it returns, `none` being nil. -/
def claimsValid (lib : Lib) (c : MapClaims) : Option (Nat × Error) :=
  let v0 : Nat × Error := (0, .jwtText "")
  let v1 := if verifyExp lib c.exp then v0
    else (v0.1 ||| ValidationErrorExpired, .jwtText "Token is expired")
  let v2 := if verifyNotAfterNow lib c.iat then v1
    else (v1.1 ||| ValidationErrorIssuedAt, .jwtText "Token used before issued")
  let v3 := if verifyNotAfterNow lib c.nbf then v2
    else (v2.1 ||| ValidationErrorNotValidYet, .jwtText "Token is not valid yet")
  if v3.1 = 0 then none else some v3

/-- `(SigningMethod).Verify(signingString, signature, key)` with a key of type
`ed25519.PublicKey`, which the other methods refuse; `none` is nil. -/
def SigningMethod.Verify (lib : Lib) (m : SigningMethod) (signingString signature : GoString)
    (key : List Byte) : Option Error :=
  match m with
  | .other _ => some (.jwtText "key is of invalid type")
  | .ed25519 =>
    if key.length ≠ Ed25519.PublicKeySize then some (.jwtText "key is invalid")
    else
      match lib.decodeSegment signature with
      | .error err => some err
      | .ok sig =>
        match Ed25519.Verify lib.scheme key ((Hex.bytesOf signingString).map Fin.ofNat)
            sig with
        | some true => none
        | _ => some (.jwtText "ed25519: verification error")

/-- `Parse(tokenString, keyFunc)`, which is `ParseWithClaims` with a
`MapClaims`, in the release `rel`. The key function here returns a plain
error or a key of type `ed25519.PublicKey`. -/
def Parse (lib : Lib) (rel : Release) (tokenString : GoString)
    (keyFunc : Token → Except Error (List Byte)) : Except Error Token :=
  match ParseUnverified lib tokenString with
  | .error err => .error err
  | .ok (token, parts) =>
    match keyFunc token with
    | .error err => .error (.jwtValidation ValidationErrorUnverifiable err)
    | .ok key =>
      let signingString := parts.getD 0 [] ++ ".".toList ++ parts.getD 1 []
      let token := { token with Signature := parts.getD 2 [] }
      let sigErr := token.Method.Verify lib signingString token.Signature key
      match rel with
      | .joined =>
        let vErr : Nat × Error := (claimsValid lib token.Claims).getD (0, .jwtText "")
        let vErr :=
          match sigErr with
          | some err => (vErr.1 ||| ValidationErrorSignatureInvalid, err)
          | none => vErr
        if vErr.1 = 0 then .ok { token with Valid := true }
        else .error (.jwtValidation vErr.1 vErr.2)
      | .signatureFirst =>
        match sigErr with
        | some err => .error (.jwtValidation ValidationErrorSignatureInvalid err)
        | none =>
          match claimsValid lib token.Claims with
          | some vErr => .error (.jwtValidation vErr.1 vErr.2)
          | none => .ok { token with Valid := true }

end Jwt

/-! ## src/crypto/jwt.ed25519.go: verification -/

/-- The key function that `verifySignatureJwtTokenEd25519` gives to
`jwt.Parse`. -/
def verifyKeyFunc (publicKey : Option (List Byte)) (t : Jwt.Token) : Except Error (List Byte) :=
  if t.Method ≠ .ed25519 then .error .ErrInvalidSigningMethod
  else
    match publicKey with
    | none => .error .ErrInvalidPublicKey
    | some key => .ok key

/-- `verifySignatureJwtTokenEd25519(token, publicKey)`: on every error the
token returned is nil. -/
def verifySignatureJwtTokenEd25519 (lib : Jwt.Lib) (rel : Jwt.Release) (token : GoString)
    (publicKey : Option (List Byte)) : Except Error Jwt.Token :=
  if token = [] then .error .ErrInvalidTokenFormat
  else
    match Jwt.Parse lib rel token (verifyKeyFunc publicKey) with
    | .ok parsedToken => .ok parsedToken
    | .error err =>
      match err with
      | .jwtValidation errors _ =>
        if errors &&& Jwt.ValidationErrorExpired ≠ 0 then .error .ErrTokenExpired
        else if errors &&& Jwt.ValidationErrorNotValidYet ≠ 0 then .error .ErrTokenNotValidYet
        else if errors &&& Jwt.ValidationErrorSignatureInvalid ≠ 0 then
          .error .ErrInvalidSignature
        else .error (.wrap "token validation error" err)
      | _ => .error (.wrap "failed to parse token" err)

/-! ## Sample collaborators -/

/-- A sample scheme, standing for Ed25519 in concrete instances: the public
key of a seed is the seed reversed, and the signature of a message under a
public key is the key followed by 32 bytes that hold the sum of the bytes of
the message. -/
def sampleScheme : Ed25519.Scheme :=
  { publicOf := fun seed => seed.reverse
    verifies := fun publicKey message sig =>
      decide (sig = publicKey ++ List.replicate 32 (Fin.ofNat (message.map Fin.val).sum)) }

/-- `base64.RawURLEncoding.DecodeString`, through the decoder of the standard
alphabet: `-` and `_` stand for `+` and `/`, which are not in the alphabet. -/
def sampleDecodeSegment (seg : GoString) : Except Error (List Byte) :=
  if '+' ∈ seg ∨ '/' ∈ seg then .error .corruptInput
  else Base64.decodeString Base64.noPadding
    (seg.map fun c => if c = '-' then '+' else if c = '_' then '/' else c)

/-- The bytes of the JSON text `{"alg":"EdDSA","typ":"JWT"}`. -/
def sampleHeaderBytes : List Byte :=
  [123, 34, 97, 108, 103, 34, 58, 34, 69, 100, 68, 83, 65, 34, 44, 34, 116, 121, 112, 34, 58,
   34, 74, 87, 84, 34, 125]

/-- The bytes of the JSON text `{"exp":1000}`. -/
def sampleExpiredBytes : List Byte := [123, 34, 101, 120, 112, 34, 58, 49, 48, 48, 48, 125]

/-- The bytes of the JSON text `{"exp":9000}`. -/
def sampleLiveBytes : List Byte := [123, 34, 101, 120, 112, 34, 58, 57, 48, 48, 48, 125]

/-- A sample library: the clock reads 2000; the JSON decoders know the header
`{"alg":"EdDSA","typ":"JWT"}` and the claims `{"exp":1000}` and
`{"exp":9000}`, and answer as `encoding/json` does on them. -/
def sampleLib : Jwt.Lib :=
  { decodeSegment := sampleDecodeSegment
    unmarshalHeader := fun bs =>
      if bs = sampleHeaderBytes then .ok { alg := some "EdDSA".toList, text := bs }
      else .error (.jwtText "json: unknown sample")
    unmarshalClaims := fun bs =>
      if bs = sampleExpiredBytes then
        .ok { exp := .date 1000, iat := .absent, nbf := .absent, text := bs }
      else if bs = sampleLiveBytes then
        .ok { exp := .date 9000, iat := .absent, nbf := .absent, text := bs }
      else .error (.jwtText "json: unknown sample")
    now := 2000
    scheme := sampleScheme }

/-- The public key of the sample verifier: 32 bytes. -/
def samplePublicKey : List Byte := List.replicate 32 7

/-- A well-formed EdDSA token with the claims `{"exp":1000}`, expired at the
sample clock, and a signature segment (`AAAA`, three bytes) that is no
signature. -/
def sampleExpiredForged : GoString :=
  "eyJhbGciOiJFZERTQSIsInR5cCI6IkpXVCJ9.eyJleHAiOjEwMDB9.AAAA".toList

/-- What `ParseUnverified` decodes from `sampleExpiredForged`. -/
def sampleExpiredToken : Jwt.Token :=
  { Raw := sampleExpiredForged
    Method := .ed25519
    Header := { alg := some "EdDSA".toList, text := sampleHeaderBytes }
    Claims := { exp := .date 1000, iat := .absent, nbf := .absent, text := sampleExpiredBytes }
    Signature := []
    Valid := false }

/-- The three segments of `sampleExpiredForged`. -/
def sampleExpiredParts : List GoString :=
  ["eyJhbGciOiJFZERTQSIsInR5cCI6IkpXVCJ9".toList, "eyJleHAiOjEwMDB9".toList, "AAAA".toList]

/-- A well-formed EdDSA token with the claims `{"exp":9000}`, not expired at
the sample clock, and the same signature segment. -/
def sampleForged : GoString :=
  "eyJhbGciOiJFZERTQSIsInR5cCI6IkpXVCJ9.eyJleHAiOjkwMDB9.AAAA".toList

end Vuya

namespace Vuya

/-! ## strings.ToLower and strings.ToUpper

The two functions map every character by `unicode.ToLower` and
`unicode.ToUpper`. Inside ASCII the mapping is that of the letters. Outside
ASCII the case tables of Unicode are not embedded: the characters whose image
is an ASCII letter are mapped as the tables say (the Kelvin sign and the
dotted capital I have the lower cases `k` and `i`, the long s and the dotless
i have the upper cases `S` and `I`), and every other character, whose image is
outside ASCII, is left as it is. The code compares the results with ASCII
words only. -/

namespace Unicode

/-- `unicode.ToLower`. -/
def ToLower (r : Char) : Char :=
  if 65 ≤ r.toNat ∧ r.toNat ≤ 90 then Char.ofNat (r.toNat + 32)
  else if r.toNat = 0x212A then 'k'
  else if r.toNat = 0x0130 then 'i'
  else r

/-- `unicode.ToUpper`. -/
def ToUpper (r : Char) : Char :=
  if 97 ≤ r.toNat ∧ r.toNat ≤ 122 then Char.ofNat (r.toNat - 32)
  else if r.toNat = 0x017F then 'S'
  else if r.toNat = 0x0131 then 'I'
  else r

end Unicode

namespace Strings

/-- `strings.ToLower`. -/
def ToLower (s : GoString) : GoString := s.map Unicode.ToLower

/-- `strings.ToUpper`. -/
def ToUpper (s : GoString) : GoString := s.map Unicode.ToUpper

end Strings

/-! ## github.com/go-ozzo/ozzo-validation/v4, as `Validate` uses it -/

namespace Validation

/-- A `validation.Errors`: the failing fields, by their JSON names. -/
abbrev Errors := List (String × Error)

/-- `validation.Validate(value, rules...)` on a value of a kind that is not
validated further (a string, an integer): the error of the first rule that
fails; `none` is nil. -/
def Validate {α : Type} (value : α) (rules : List (α → Option Error)) : Option Error :=
  match rules with
  | [] => none
  | rule :: rest =>
    match rule value with
    | some err => some err
    | none => Validate value rest

/-- The rule `validation.In(elements...)` on a string: an empty value is
valid, whatever the elements. -/
def In (elements : List GoString) (value : GoString) : Option Error :=
  if value = [] then none
  else if value ∈ elements then none
  else some .validationIn

/-- `validation.ValidateStruct`, by the name and the outcome of each field:
the failing fields are gathered in a `validation.Errors`, and the result is
nil when there is none. -/
def ValidateStruct (fields : List (String × Option Error)) : Option Errors :=
  let errs := fields.filterMap fun f => f.2.map fun err => (f.1, err)
  if errs.length > 0 then some errs else none

end Validation

/-! ## src/paginate/request.go -/

/-- The struct `AgPaginateOptionsRequest`; `LimitItems` and `Page` are
`uint64`. -/
structure AgPaginateOptionsRequest where
  /-- The cursor. -/
  Cursor : GoString
  /-- The size of a page. -/
  LimitItems : Nat
  /-- The page. -/
  Page : Nat
  /-- The order: asc, desc. -/
  Order : GoString
  deriving DecidableEq, Repr

/-- The values a Go `AgPaginateOptionsRequest` can hold. -/
def AgPaginateOptionsRequest.InRange (a : AgPaginateOptionsRequest) : Prop :=
  a.LimitItems < 2 ^ 64 ∧ a.Page < 2 ^ 64

/-- `ValidatePaginateOrder(value)`, on the string it is given. -/
def ValidatePaginateOrder (value : GoString) : Option Error :=
  Validation.Validate (Strings.ToUpper value)
    [Validation.In ["".toList, "ASC".toList, "DESC".toList]]

/-- `ValidatePaginateLimitItems(value)`, on the `uint64` it is given. No
function of the package calls it. -/
def ValidatePaginateLimitItems (value : Nat) : Option Error :=
  if value > 200 then some (.errorsNew "Invalid limitItems") else none

/-- `(AgPaginateOptionsRequest).Validate()`: the fields `Cursor` and `Page`
are given no rule, the field `LimitItems` is not listed (its line is a
comment in the source), the field `Order` is given `ValidatePaginateOrder`. -/
def AgPaginateOptionsRequest.Validate (a : AgPaginateOptionsRequest) :
    Option Validation.Errors :=
  Validation.ValidateStruct
    [("cursor", Validation.Validate a.Cursor []),
     ("page", Validation.Validate a.Page []),
     ("order", Validation.Validate a.Order [ValidatePaginateOrder])]

/-- `(*AgPaginateOptionsRequest).GetCursor()`. -/
def AgPaginateOptionsRequest.GetCursor (a : AgPaginateOptionsRequest) : GoString := a.Cursor

/-- `(*AgPaginateOptionsRequest).GetOrder()`. -/
def AgPaginateOptionsRequest.GetOrder (a : AgPaginateOptionsRequest) : GoString :=
  if a.Order = "".toList ∨ Strings.ToLower a.Order = "desc".toList then "DESC".toList
  else if Strings.ToLower a.Order = "asc".toList then "ASC".toList
  else "DESC".toList

/-- `(*AgPaginateOptionsRequest).GetLimitItems()`. -/
def AgPaginateOptionsRequest.GetLimitItems (a : AgPaginateOptionsRequest) : Nat :=
  if a.LimitItems = 0 then 20
  else if a.LimitItems > 200 then 200
  else a.LimitItems

/-- The spellings of a word of ASCII letters in every letter case. -/
def caseVariants : GoString → List GoString
  | [] => [[]]
  | c :: cs =>
    (caseVariants cs).flatMap fun rest =>
      if c.toLower = c.toUpper then [c :: rest] else [c.toLower :: rest, c.toUpper :: rest]

/-- The cases of `TestAgPaginateOptionsRequestModel`: the request and whether
`Validate` is expected to return an error. -/
def paginateTestCases : List (AgPaginateOptionsRequest × Bool) :=
  [(⟨"".toList, 0, 0, "".toList⟩, false),
   (⟨"".toList, 0, 0, "asc".toList⟩, false),
   (⟨"".toList, 0, 0, "desc".toList⟩, false),
   (⟨"".toList, 200, 0, "desc".toList⟩, false),
   (⟨"dat-65ab0d000000000000000000".toList, 100, 0, "desc".toList⟩, false),
   (⟨"dat-65ab0d000000000000000000".toList, 100, 0, "descdelete".toList⟩, true),
   (⟨"selectfromtable".toList, 0, 0, "".toList⟩, true),
   (⟨"".toList, 250, 0, "desc".toList⟩, true)]

end Vuya

namespace Vuya

/-! ## src/json/index.go -/

/-- An `io.Reader`, by what `io.ReadAll` gets from it: the bytes it delivers,
and the error, other than `io.EOF`, on which it stops, when it fails. -/
structure Reader where
  /-- The bytes read. -/
  content : List Byte
  /-- The error of the reader, `none` when the stream ends. -/
  failure : Option Error
  deriving DecidableEq, Repr

/-- `io.ReadAll(r)`: the bytes read, and the error of the reader. -/
def ReadAll (r : Reader) : List Byte × Option Error := (r.content, r.failure)

/-- `json.Unmarshal(body, d)`, a parameter: the destination after the call
and the error, `none` being nil. -/
abbrev Unmarshal (D : Type) := List Byte → D → D × Option Error

/-- `DecodeJSONBody(r, d)`: the error returned and the destination after the
call. When the parsing fails the function returns `err`, the error of
`io.ReadAll`, as the source does. -/
def DecodeJSONBody {D : Type} (unmarshal : Unmarshal D) (r : Reader) (d : D) :
    Option Error × D :=
  let (body, err) := ReadAll r
  if err ≠ none then (err, d)
  else
    let (d, errParse) := unmarshal body d
    if errParse ≠ none then (err, d)
    else (none, d)

/-- `ConvertJSONStringToStruct(jsonString, data)`. -/
def ConvertJSONStringToStruct {D : Type} (unmarshal : Unmarshal D) (jsonString : GoString)
    (data : D) : Option Error × D :=
  let (data, err) := unmarshal ((Hex.bytesOf jsonString).map Fin.ofNat) data
  (err, data)

/-- A sample decoder, standing for `json.Unmarshal` into a `bool`: it knows
the texts `true` and `false`, and refuses every other text, as
`json.Unmarshal` refuses the text `nope`. -/
def sampleUnmarshal : Unmarshal Bool := fun body d =>
  if body = [116, 114, 117, 101] then (true, none)
  else if body = [102, 97, 108, 115, 101] then (false, none)
  else (d, some (.jsonError "invalid character"))

/-! ## src/crypto/jwt.ed25519.go: issuing -/

/-- The struct `AgKeyValue`, whose declaration is not among the sources: the
code reads its fields `Key`, used as a key of `jwt.MapClaims`, and `Value`,
whose type is a parameter. -/
structure AgKeyValue (V : Type) where
  /-- The name of the claim. -/
  Key : GoString
  /-- The value of the claim. -/
  Value : V
  deriving DecidableEq, Repr

/-- A value of `jwt.MapClaims`, as the function stores it. -/
inductive ClaimValue (V : Type) where
  /-- A string. -/
  | text (s : GoString)
  /-- An `int64`. -/
  | int64 (n : Int)
  /-- A value given by the caller. -/
  | caller (v : V)
  deriving DecidableEq, Repr

/-- The collaborators of `generateAndSignEd25519JwtToken`. -/
structure Issuer (V : Type) where
  /-- `xid.New().String()`. -/
  xid : GoString
  /-- `time.Now().Unix()`. -/
  now : Int
  /-- `jwt.NewWithClaims(jwt.SigningMethodEdDSA, claims).SignedString(key)`. -/
  signedString : GoMap (ClaimValue V) → List Byte → Except Error GoString

/-- The claims that `generateAndSignEd25519JwtToken` signs: the three entries
of the service, then the entries of the caller, each stored under its key.
`expire` is `expire.Unix()`. -/
def tokenClaims {V : Type} (iss : Issuer V) (data : List (AgKeyValue V)) (expire : Int) :
    GoMap (ClaimValue V) :=
  let claims : GoMap (ClaimValue V) := []
  let nounce := iss.xid
  let claims := claims.set "nounce".toList (.text nounce)
  let claims := claims.set "exp".toList (.int64 expire)
  let claims := claims.set "stsession".toList (.int64 iss.now)
  data.foldl (fun claims itemData => claims.set itemData.Key (.caller itemData.Value)) claims

/-- `generateAndSignEd25519JwtToken(data, expire, privateKey)`; `none` is the
panic of `*privateKey` on a nil pointer. -/
def generateAndSignEd25519JwtToken {V : Type} (iss : Issuer V) (data : List (AgKeyValue V))
    (expire : Int) (privateKey : Option (List Byte)) : Option (Except Error GoString) :=
  match privateKey with
  | none => none
  | some key =>
    match iss.signedString (tokenClaims iss data expire) key with
    | .error err => some (.error err)
    | .ok token => some (.ok token)

/-- The value that the caller gives for the key `k`: that of the last entry
of `data` with this key. -/
def callerValue {V : Type} : List (AgKeyValue V) → GoString → Option V
  | [], _ => none
  | e :: rest, k =>
    match callerValue rest k with
    | some v => some v
    | none => if e.Key = k then some e.Value else none

/-- A sample issuer: the identifier and the clock are fixed, and the token is
the list of the keys of the claims. -/
def sampleIssuer : Issuer Int :=
  { xid := "9m4e2mr0ui3e8a215n4g".toList
    now := 1700000000
    signedString := fun claims _ => .ok ((claims.map fun e => e.1).intersperse ['.']).flatten }

end Vuya

namespace Vuya

/-! ## The text of the fields that `decodeHash` scans -/

namespace Fmt

/-- A decimal integer as it is written: a run of decimal digits that is not
empty (leading zeros are digits like the others). Its value is
`parseDecimal`. -/
def IsNumeral (d : List Char) : Prop := d ≠ [] ∧ ∀ c ∈ d, c.isDigit = true

/-- A text that does not begin with a decimal digit: what can follow a
numeral without being part of it. -/
def EndsNumber (x : List Char) : Prop := ∀ c, x.head? = some c → c.isDigit = false

/-- A text that does not begin an integer for the verb `%d`: it is empty, or
it begins with a character that is neither a digit, nor a space, nor a
sign. -/
def BeginsNoInteger (x : List Char) : Prop :=
  ∀ c, x.head? = some c → c.isDigit = false ∧ isSpace c = false ∧ c ≠ '+' ∧ c ≠ '-'

instance (d : List Char) : Decidable (IsNumeral d) := by
  unfold IsNumeral
  infer_instance

instance (x : List Char) : Decidable (EndsNumber x) :=
  match x with
  | [] => isTrue (fun _ h => absurd h (by simp))
  | c :: _ =>
    if h : c.isDigit = false then
      isTrue (fun c2 hc => by
        simp only [List.head?_cons, Option.some.injEq] at hc
        rw [← hc]
        exact h)
    else isFalse (fun hf => h (hf c rfl))

instance (x : List Char) : Decidable (BeginsNoInteger x) :=
  match x with
  | [] => isTrue (fun _ h => absurd h (by simp))
  | c :: _ =>
    if h : c.isDigit = false ∧ isSpace c = false ∧ c ≠ '+' ∧ c ≠ '-' then
      isTrue (fun c2 hc => by
        simp only [List.head?_cons, Option.some.injEq] at hc
        rw [← hc]
        exact h)
    else isFalse (fun hf => h (hf c rfl))

end Fmt

end Vuya

namespace Vuya

/-! ## src/array/index.go

A slice is the list of its elements: the nil slice and the empty slice are
both the empty list. The type `int` is that of a 64-bit platform, a sum wraps
around as the Go specification says, and a slice expression whose bounds are
out of range panics. -/

/-- The value of type `int` that a mathematical integer wraps to. -/
def wrapInt (z : Int) : Int := (z + 2 ^ 63) % 2 ^ 64 - 2 ^ 63

/-- The slice expression `items[lo:hi]`; `none` is the run-time panic on
bounds out of range. The capacity of `items` is taken as its length. -/
def sliceExpr {T : Type} (items : List T) (lo hi : Int) : Option (List T) :=
  if 0 ≤ lo ∧ lo ≤ hi ∧ hi ≤ (items.length : Int) then
    some ((items.drop lo.toNat).take (hi.toNat - lo.toNat))
  else none

/-- `ArrayStringContains(s, str)`. -/
def ArrayStringContains (s : List GoString) (str : GoString) : Bool :=
  match s with
  | [] => false
  | v :: rest => if v = str then true else ArrayStringContains rest str

/-- The loop of `ArrayChunk`, from the index `i` on, `chunks` being the
chunks appended so far. One turn of the loop uses one unit of fuel. -/
def ArrayChunk.loop {T : Type} (items : List T) (chunkSize : Int) :
    Nat → Int → List (List T) → Option (List (List T))
  | 0, _, chunks => some chunks
  | fuel + 1, i, chunks =>
    if i < (items.length : Int) then
      let end0 := wrapInt (i + chunkSize)
      let end1 := if end0 > (items.length : Int) then (items.length : Int) else end0
      match sliceExpr items i end1 with
      | none => none
      | some chunk => ArrayChunk.loop items chunkSize fuel (wrapInt (i + chunkSize)) (chunks ++ [chunk])
    else some chunks

/-- `ArrayChunk(items, chunkSize)`; `none` is a panic. A turn of the loop
that does not panic takes a chunk of one element at least, so that the loop
makes `len(items)` turns at most and the fuel is never used up. -/
def ArrayChunk {T : Type} (items : List T) (chunkSize : Int) : Option (List (List T)) :=
  if chunkSize ≤ 0 then some []
  else ArrayChunk.loop items chunkSize (items.length + 1) 0 []

/-- The chunking of the list `l` by `c`, in the words of the specification:
the chunks concatenated give `l`, every chunk but the last has `c`
elements, the last chunk has between one and `c` elements, and the number of
chunks is the ceiling of `len(l) / c`. -/
def IsChunking {T : Type} (c : Nat) (l : List T) (chunks : List (List T)) : Prop :=
  chunks.flatten = l ∧
  (∀ ch ∈ chunks.dropLast, ch.length = c) ∧
  (∀ ch ∈ chunks.getLast?, 1 ≤ ch.length ∧ ch.length ≤ c) ∧
  chunks.length = (l.length + c - 1) / c

end Vuya

namespace Vuya

/-! ## math/big, as src/math/uint256 uses it

A `*big.Int` is the integer it holds: the package keeps its sign and its
absolute value, the latter as the words of a natural number, the least
significant first and without a leading zero word. -/

namespace Big

/-- The length in bits of a natural number: zero for zero, and one more than
that of its half otherwise. The fuel bounds the halvings. -/
def bitLen : Nat → Nat → Nat
  | 0, _ => 0
  | fuel + 1, v => if v = 0 then 0 else bitLen fuel (v / 2) + 1

/-- `(*Int).BitLen()`: the length in bits of the absolute value; that of
zero is zero. -/
def BitLen (x : Int) : Nat := bitLen x.natAbs x.natAbs

/-- The operation `x &^ y` on natural numbers: the bits of `x` that are not
bits of `y`, which are those of `x` without those of `x & y`. -/
def andNot (x y : Nat) : Nat := x ^^^ (x &&& y)

/-- `(*Int).Bytes()`: the absolute value in big-endian bytes, without a
leading zero byte. -/
def Bytes (x : Int) : List Byte := GCM.beBytes ((BitLen x + 7) / 8) x.natAbs

/-- `(*Int).SetBytes(buf)`: the unsigned integer that the big-endian bytes
hold. -/
def SetBytes (buf : List Byte) : Int := (GCM.beNat buf : Nat)

/-- The `n` low words of `wordBits` bits of a natural number, the least
significant first. -/
def words (wordBits : Nat) : Nat → Nat → List Nat
  | 0, _ => []
  | n + 1, v => v % 2 ^ wordBits :: words wordBits n (v / 2 ^ wordBits)

/-- `(*Int).Bits()`: the words of the absolute value, the least significant
first, as many as its length in bits asks for. -/
def Bits (wordBits : Nat) (x : Int) : List Nat :=
  words wordBits ((BitLen x + wordBits - 1) / wordBits) x.natAbs

/-- `(*Int).And(x, y)`, by the cases of the package on the signs: for two
negative numbers `-(((|x|-1) | (|y|-1)) + 1)`, for two numbers that are not
negative `|x| & |y|`, and for one of each, the negative one being taken as
`y`, `|x| &^ (|y|-1)`. -/
def And (x y : Int) : Int :=
  if decide (x < 0) = decide (y < 0) then
    if x < 0 then -(((x.natAbs - 1) ||| (y.natAbs - 1)) + 1 : Nat)
    else ((x.natAbs &&& y.natAbs : Nat) : Int)
  else
    let xy : Int × Int := if x < 0 then (y, x) else (x, y)
    ((andNot xy.1.natAbs (xy.2.natAbs - 1) : Nat) : Int)

end Big

/-! ## src/math/uint256/index.go

The constant `wordBytes` is the number of bytes of a `big.Word`, four or
eight by the platform: it is a parameter. -/

namespace Uint256

/-- The variable `tt256m1`: `2^256 - 1`. -/
def tt256m1 : Int := 2 ^ 256 - 1

/-- `u256(x)`. -/
def u256 (x : Int) : Int := Big.And x tt256m1

/-- The inner loop of `readBits` on the word `d`, `k` being the turns that
`j < wordBytes` leaves; the state is the index `i` and the buffer. -/
def readBits.word : Nat → Nat → Nat × List Byte → Nat × List Byte
  | 0, _, st => st
  | k + 1, d, (i, buf) =>
    if i > 0 then readBits.word k (d >>> 8) (i - 1, buf.set (i - 1) (Fin.ofNat d))
    else (i, buf)

/-- `readBits(bigint, buf)`: the buffer after the call. -/
def readBits (wordBytes : Nat) (bigint : Int) (buf : List Byte) : List Byte :=
  ((Big.Bits (8 * wordBytes) bigint).foldl (fun st d => readBits.word wordBytes d st)
    (buf.length, buf)).2

/-- `paddedBigBytes(bigint, n)`. The buffer is made only when
`bigint.BitLen()/8 < n`, so that `n` is above zero there. -/
def paddedBigBytes (wordBytes : Nat) (bigint : Int) (n : Int) : List Byte :=
  if ((Big.BitLen bigint / 8 : Nat) : Int) ≥ n then Big.Bytes bigint
  else readBits wordBytes bigint (List.replicate n.toNat 0)

/-- `BigIntToUint256(n)`: the bytes returned. -/
def BigIntToUint256 (wordBytes : Nat) (n : Int) : List Byte :=
  paddedBigBytes wordBytes (u256 n) 32

/-- `Uint256ToBigInt(data)`. -/
def Uint256ToBigInt (data : List Byte) : Int :=
  if data.length = 0 then 0 else Big.SetBytes data

/-- One turn of the inner loop of `readBits` on the state, for the byte `b`
that `byte(d)` gives: nothing is written once `i` is zero. -/
def readBits.store (st : Nat × List Byte) (b : Byte) : Nat × List Byte :=
  if st.1 > 0 then (st.1 - 1, st.2.set (st.1 - 1) b) else st

end Uint256

end Vuya

/-! ## Lemmas on encoding/base64 -/

namespace Vuya
namespace Base64

theorem shl_or_eq_add (a b k : Nat) (h : b < 2 ^ k) : a <<< k ||| b = a * 2 ^ k + b := by
  rw [Nat.shiftLeft_eq, Nat.mul_comm, ← Nat.mul_add_lt_is_or h]

theorem octets_val (a b c : Nat) (hb : b < 256) (hc : c < 256) :
    a <<< 16 ||| b <<< 8 ||| c = a * 65536 + b * 256 + c := by
  have h1 : a <<< 16 ||| b <<< 8 = (a * 256 + b) <<< 8 := by
    rw [shl_or_eq_add a (b <<< 8) 16 (by rw [Nat.shiftLeft_eq]; omega)]
    simp only [Nat.shiftLeft_eq]
    omega
  rw [h1, shl_or_eq_add _ c 8 (by omega)]
  omega

theorem sextets_val (s0 s1 s2 s3 : Nat) (h1 : s1 < 64) (h2 : s2 < 64) (h3 : s3 < 64) :
    s0 <<< 18 ||| s1 <<< 12 ||| s2 <<< 6 ||| s3 =
      s0 * 262144 + s1 * 4096 + s2 * 64 + s3 := by
  have e1 : s0 <<< 18 ||| s1 <<< 12 = (s0 * 64 + s1) <<< 12 := by
    rw [shl_or_eq_add s0 (s1 <<< 12) 18 (by rw [Nat.shiftLeft_eq]; omega)]
    simp only [Nat.shiftLeft_eq]
    omega
  have e2 : (s0 * 64 + s1) <<< 12 ||| s2 <<< 6 = ((s0 * 64 + s1) * 64 + s2) <<< 6 := by
    rw [shl_or_eq_add _ (s2 <<< 6) 12 (by rw [Nat.shiftLeft_eq]; omega)]
    simp only [Nat.shiftLeft_eq]
    omega
  rw [e1, e2, shl_or_eq_add _ s3 6 (by omega)]
  omega

theorem and_63 (x : Nat) : x &&& 0x3F = x % 64 :=
  Nat.and_pow_two_sub_one_eq_mod x 6

theorem decodeMap_encodeChar : ∀ v : Fin 64, decodeMap (encodeChar v.val) = some v.val := by
  decide

theorem decodeMap_encodeChar_mod (x : Nat) : decodeMap (encodeChar (x % 64)) = some (x % 64) :=
  decodeMap_encodeChar ⟨x % 64, Nat.mod_lt _ (by decide)⟩


theorem byte_ofNat_eq (a : Byte) (n : Nat) (h : n % 256 = a.val) : (Fin.ofNat n : Byte) = a := by
  apply Fin.ext
  simpa [Fin.ofNat] using h

theorem quantumBytes_three (a b c : Byte) :
    quantumBytes
      [(a.val <<< 16 ||| b.val <<< 8 ||| c.val) >>> 18 &&& 0x3F,
       (a.val <<< 16 ||| b.val <<< 8 ||| c.val) >>> 12 &&& 0x3F,
       (a.val <<< 16 ||| b.val <<< 8 ||| c.val) >>> 6 &&& 0x3F,
       (a.val <<< 16 ||| b.val <<< 8 ||| c.val) &&& 0x3F] = [a, b, c] := by
  have ha := a.isLt
  have hb := b.isLt
  have hc := c.isLt
  simp only [quantumBytes, and_63, octets_val _ _ _ hb hc, Nat.shiftRight_eq_div_pow,
    List.getD_cons_zero, List.getD_cons_succ, List.length_cons, List.length_nil]
  rw [sextets_val _ _ _ _ (Nat.mod_lt _ (by decide)) (Nat.mod_lt _ (by decide))
    (Nat.mod_lt _ (by decide))]
  simp only [List.take, Nat.reduceAdd, Nat.reduceSub]
  congr 1
  · exact byte_ofNat_eq _ _ (by omega)
  · congr 1
    · exact byte_ofNat_eq _ _ (by omega)
    · congr 1
      exact byte_ofNat_eq _ _ (by omega)

theorem quantumBytes_two (a b : Byte) :
    quantumBytes
      [(a.val <<< 16 ||| b.val <<< 8) >>> 18 &&& 0x3F,
       (a.val <<< 16 ||| b.val <<< 8) >>> 12 &&& 0x3F,
       (a.val <<< 16 ||| b.val <<< 8) >>> 6 &&& 0x3F] = [a, b] := by
  have ha := a.isLt
  have hb := b.isLt
  have hv : a.val <<< 16 ||| b.val <<< 8 = a.val * 65536 + b.val * 256 := by
    have := octets_val a.val b.val 0 hb (by decide)
    simpa using this
  simp only [quantumBytes, and_63, hv, Nat.shiftRight_eq_div_pow,
    List.getD_cons_zero, List.getD_cons_succ, List.length_cons, List.length_nil,
    List.getD_nil]
  rw [sextets_val _ _ _ _ (Nat.mod_lt _ (by decide)) (Nat.mod_lt _ (by decide))
    (by decide)]
  simp only [List.take, Nat.reduceAdd, Nat.reduceSub]
  congr 1
  · exact byte_ofNat_eq _ _ (by omega)
  · congr 1
    exact byte_ofNat_eq _ _ (by omega)

theorem quantumBytes_one (a : Byte) :
    quantumBytes [(a.val <<< 16) >>> 18 &&& 0x3F, (a.val <<< 16) >>> 12 &&& 0x3F] = [a] := by
  have ha := a.isLt
  simp only [quantumBytes, and_63, Nat.shiftLeft_eq, Nat.shiftRight_eq_div_pow,
    List.getD_cons_zero, List.getD_cons_succ, List.length_cons, List.length_nil,
    List.getD_nil]
  have := sextets_val (a.val * 2 ^ 16 / 2 ^ 18 % 64) (a.val * 2 ^ 16 / 2 ^ 12 % 64) 0 0
    (Nat.mod_lt _ (by decide)) (by decide) (by decide)
  simp only [Nat.shiftLeft_eq] at this
  rw [this]
  simp only [List.take, Nat.reduceAdd, Nat.reduceSub]
  congr 1
  exact byte_ofNat_eq _ _ (by omega)

/-- Four alphabet characters read with an empty buffer make one quantum. -/
theorem decodeLoop_quad (pad : Option Char) (c0 c1 c2 c3 : Char) (s0 s1 s2 s3 : Nat)
    (rest : List Char)
    (h0 : decodeMap c0 = some s0) (h1 : decodeMap c1 = some s1)
    (h2 : decodeMap c2 = some s2) (h3 : decodeMap c3 = some s3) :
    decodeLoop pad (c0 :: c1 :: c2 :: c3 :: rest) [] =
      (decodeLoop pad rest []).map (quantumBytes [s0, s1, s2, s3] ++ ·) := by
  simp [decodeLoop, h0, h1, h2, h3]

theorem decodeString_encodeToString_raw (bs : List Byte) :
    decodeString noPadding (encodeToString noPadding bs) = .ok bs := by
  unfold decodeString noPadding
  induction bs using encodeToString.induct none with
  | case1 => simp [encodeToString, decodeLoop]
  | case2 a =>
    simp only [encodeToString, and_63, List.append_nil]
    simp only [decodeLoop, decodeMap_encodeChar_mod]
    simp
    have := quantumBytes_one a
    simp only [and_63] at this
    exact this
  | case3 a b =>
    simp only [encodeToString, and_63, List.append_nil]
    simp only [decodeLoop, decodeMap_encodeChar_mod]
    simp
    have := quantumBytes_two a b
    simp only [and_63] at this
    exact this
  | case4 a b c rest ih =>
    simp only [encodeToString, and_63]
    rw [decodeLoop_quad none _ _ _ _ _ _ _ _ _ (decodeMap_encodeChar_mod _)
      (decodeMap_encodeChar_mod _) (decodeMap_encodeChar_mod _) (decodeMap_encodeChar_mod _)]
    rw [ih]
    have := quantumBytes_three a b c
    simp only [and_63] at this
    simp [Except.map, this]

theorem decodeString_encodeToString_std (bs : List Byte) :
    decodeString stdPadding (encodeToString stdPadding bs) = .ok bs := by
  unfold decodeString stdPadding
  induction bs using encodeToString.induct (some '=') with
  | case1 => simp [encodeToString, decodeLoop]
  | case2 a =>
    have hp : decodeMap '=' = none := by decide
    simp only [encodeToString, and_63]
    simp only [decodeLoop, decodeMap_encodeChar_mod, List.cons_append, List.nil_append, hp]
    simp [decodePadding, skipNewlines]
    have := quantumBytes_one a
    simp only [and_63] at this
    exact this
  | case3 a b =>
    have hp : decodeMap '=' = none := by decide
    simp only [encodeToString, and_63]
    simp only [decodeLoop, decodeMap_encodeChar_mod, List.cons_append, List.nil_append, hp]
    simp [decodePadding, skipNewlines]
    have := quantumBytes_two a b
    simp only [and_63] at this
    exact this
  | case4 a b c rest ih =>
    simp only [encodeToString, and_63]
    rw [decodeLoop_quad (some '=') _ _ _ _ _ _ _ _ _ (decodeMap_encodeChar_mod _)
      (decodeMap_encodeChar_mod _) (decodeMap_encodeChar_mod _) (decodeMap_encodeChar_mod _)]
    rw [ih]
    have := quantumBytes_three a b c
    simp only [and_63] at this
    simp [Except.map, this]

theorem encodeChar_mem (v : Nat) : encodeChar v ∈ encodeStd := by
  unfold encodeChar
  by_cases h : v < encodeStd.length
  · rw [List.getD_eq_getElem _ _ h]
    exact List.getElem_mem h
  · rw [List.getD_eq_default _ _ (Nat.le_of_not_lt h)]
    decide

/-- Every character of an unpadded encoding is a character of the alphabet. -/
theorem encodeToString_raw_mem (bs : List Byte) :
    ∀ c ∈ encodeToString noPadding bs, c ∈ encodeStd := by
  unfold noPadding
  induction bs using encodeToString.induct none with
  | case1 => simp [encodeToString]
  | case2 a =>
    intro c hc
    simp only [encodeToString, List.append_nil, List.mem_cons, List.mem_singleton,
      List.not_mem_nil, or_false] at hc
    rcases hc with h | h <;> subst h <;> exact encodeChar_mem _
  | case3 a b =>
    intro c hc
    simp only [encodeToString, List.append_nil, List.mem_cons, List.mem_singleton,
      List.not_mem_nil, or_false] at hc
    rcases hc with h | h | h <;> subst h <;> exact encodeChar_mem _
  | case4 a b c rest ih =>
    intro x hx
    simp only [encodeToString, List.mem_cons] at hx
    rcases hx with h | h | h | h | h
    · subst h; exact encodeChar_mem _
    · subst h; exact encodeChar_mem _
    · subst h; exact encodeChar_mem _
    · subst h; exact encodeChar_mem _
    · exact ih x h

end Base64
end Vuya

/-! ## Lemmas on fmt, strings and crypto/subtle -/

namespace Vuya
namespace Fmt

theorem digitChar_isDigit : ∀ d : Fin 10, (Nat.digitChar d.val).isDigit = true := by
  decide

theorem digitChar_value : ∀ d : Fin 10, (Nat.digitChar d.val).toNat - '0'.toNat = d.val := by
  decide

theorem digitChar_mod_isDigit (n : Nat) : (Nat.digitChar (n % 10)).isDigit = true :=
  digitChar_isDigit ⟨n % 10, Nat.mod_lt _ (by decide)⟩

theorem digitChar_mod_value (n : Nat) : (Nat.digitChar (n % 10)).toNat - '0'.toNat = n % 10 :=
  digitChar_value ⟨n % 10, Nat.mod_lt _ (by decide)⟩

/-- The digits written by `toDigitsCore` are decimal digits. -/
theorem toDigitsCore_isDigit (fuel : Nat) :
    ∀ (n : Nat) (ds : List Char), (∀ c ∈ ds, c.isDigit = true) →
      ∀ c ∈ Nat.toDigitsCore 10 fuel n ds, c.isDigit = true := by
  induction fuel with
  | zero => intro n ds h; simpa [Nat.toDigitsCore] using h
  | succ fuel ih =>
    intro n ds h
    have hd : ∀ c ∈ Nat.digitChar (n % 10) :: ds, c.isDigit = true := by
      intro c hc
      rcases List.mem_cons.mp hc with rfl | hc
      · exact digitChar_mod_isDigit n
      · exact h c hc
    simp only [Nat.toDigitsCore]
    split
    · exact hd
    · exact ih _ _ hd

theorem toDigitsCore_length_le (fuel : Nat) :
    ∀ (n : Nat) (ds : List Char), ds.length ≤ (Nat.toDigitsCore 10 fuel n ds).length := by
  induction fuel with
  | zero => intro n ds; simp [Nat.toDigitsCore]
  | succ fuel ih =>
    intro n ds
    simp only [Nat.toDigitsCore]
    split
    · simp
    · exact Nat.le_trans (by simp) (ih _ _)

/-- Reading back what `toDigitsCore` wrote. -/
theorem parse_toDigitsCore (fuel : Nat) :
    ∀ (n : Nat) (ds : List Char), n < fuel →
      (Nat.toDigitsCore 10 fuel n ds).foldl
          (fun acc c => 10 * acc + (c.toNat - '0'.toNat)) 0 =
        ds.foldl (fun acc c => 10 * acc + (c.toNat - '0'.toNat)) n := by
  induction fuel with
  | zero => intro n ds h; omega
  | succ fuel ih =>
    intro n ds h
    simp only [Nat.toDigitsCore]
    split
    · rename_i h0
      simp only [List.foldl_cons, digitChar_mod_value]
      congr 1
      omega
    · rename_i h0
      rw [ih (n / 10) _ (by omega)]
      simp only [List.foldl_cons, digitChar_mod_value]
      congr 1
      omega

theorem formatDecimal_isDigit (n : Nat) : ∀ c ∈ formatDecimal n, c.isDigit = true :=
  toDigitsCore_isDigit _ _ _ (by simp)

theorem formatDecimal_ne_nil (n : Nat) : formatDecimal n ≠ [] := by
  intro h
  have := toDigitsCore_length_le n (n / 10) [Nat.digitChar (n % 10)]
  unfold formatDecimal Nat.toDigits at h
  simp only [Nat.toDigitsCore] at h
  split at h
  · simp at h
  · rw [h] at this
    simp at this

theorem parseDecimal_formatDecimal (n : Nat) : parseDecimal (formatDecimal n) = n := by
  unfold parseDecimal formatDecimal Nat.toDigits
  rw [parse_toDigitsCore (n + 1) n [] (by omega)]
  rfl

/-- A run of digits followed by something that is not a digit is read whole. -/
theorem span_isDigit_append (l rest : List Char) (hl : ∀ c ∈ l, c.isDigit = true)
    (hr : ∀ c, rest.head? = some c → c.isDigit = false) :
    (l ++ rest).span Char.isDigit = (l, rest) := by
  rw [List.span_eq_take_drop]
  induction l with
  | nil =>
    cases rest with
    | nil => rfl
    | cons c cs =>
      have := hr c rfl
      simp [List.takeWhile_cons, List.dropWhile_cons, this]
  | cons a l ih =>
    have ha := hl a (List.mem_cons_self _ _)
    have := ih (fun c hc => hl c (List.mem_cons_of_mem _ hc))
    simp only [Prod.mk.injEq] at this
    simp [List.takeWhile_cons, List.dropWhile_cons, ha, this]

theorem isDigit_not_space (c : Char) (h : c.isDigit = true) :
    c ≠ '\r' ∧ c ≠ '\n' ∧ isSpace c = false ∧ c ≠ '+' ∧ c ≠ '-' ∧ c ≠ '$' ∧ c ≠ ',' := by
  have h1 : 48 ≤ c.toNat ∧ c.toNat ≤ 57 := by
    simp only [Char.isDigit, Bool.and_eq_true, decide_eq_true_eq] at h
    have a : (48 : UInt32) ≤ c.val := h.1
    have b : c.val ≤ (57 : UInt32) := h.2
    rw [UInt32.le_def] at a b
    rw [BitVec.le_def] at a b
    exact ⟨a, b⟩
  have hne : ∀ d : Char, (d.toNat < 48 ∨ 57 < d.toNat) → c ≠ d := by
    intro d hd hcd
    subst hcd
    omega
  refine ⟨hne _ (by decide), hne _ (by decide), ?_, hne _ (by decide), hne _ (by decide),
    hne _ (by decide), hne _ (by decide)⟩
  simp only [isSpace, Bool.or_eq_false_iff, Bool.and_eq_false_iff, decide_eq_false_iff_not,
    beq_eq_false_iff_ne]
  omega

theorem ok_bind {α β : Type} (a : α) (f : α → Except Error β) :
    (Except.ok a >>= f) = f a := rfl

theorem notEOF_formatDecimal (n : Nat) (rest : List Char) :
    notEOF (formatDecimal n ++ rest) = .ok () := by
  have := formatDecimal_ne_nil n
  cases h : formatDecimal n with
  | nil => exact absurd h this
  | cons d ds => rfl

theorem skipSpace_formatDecimal (n : Nat) (rest : List Char) :
    skipSpace (formatDecimal n ++ rest) = .ok (formatDecimal n ++ rest) := by
  have hne := formatDecimal_ne_nil n
  have hd := formatDecimal_isDigit n
  cases h : formatDecimal n with
  | nil => exact absurd h hne
  | cons d ds =>
    have := isDigit_not_space d (hd d (by rw [h]; exact List.mem_cons_self _ _))
    obtain ⟨h1, h2, h3, -⟩ := this
    simp [skipSpace, h1, h2, h3]

theorem scanNumber_formatDecimal (n : Nat) (rest : List Char)
    (hr : ∀ c, rest.head? = some c → c.isDigit = false) :
    scanNumber (formatDecimal n ++ rest) = .ok (formatDecimal n, rest) := by
  have hne := formatDecimal_ne_nil n
  unfold scanNumber notEOF
  rw [span_isDigit_append _ _ (formatDecimal_isDigit n) hr]
  cases h : formatDecimal n with
  | nil => exact absurd h hne
  | cons d ds => rfl

/-- Scanning an unsigned `%d` reads back the number `Sprintf` wrote. -/
theorem scanUint_formatDecimal (bits n : Nat) (rest : List Char) (hb : bits ≤ 64)
    (hn : n < 2 ^ bits) (hr : ∀ c, rest.head? = some c → c.isDigit = false) :
    scanUint bits (formatDecimal n ++ rest) = .ok (n, rest) := by
  have h64 : n < 2 ^ 64 := Nat.lt_of_lt_of_le hn (Nat.pow_le_pow_right (by decide) hb)
  unfold scanUint
  rw [skipSpace_formatDecimal]
  simp only [ok_bind, notEOF_formatDecimal, scanNumber_formatDecimal n rest hr,
    parseDecimal_formatDecimal, Nat.mod_eq_of_lt hn]
  simp only [Nat.reducePow] at h64
  simp [h64]

/-- The parameter field written by `Sprintf` is read back by `Sscanf`. -/
theorem doScanf_paramsFormat (m t p : Nat) (hm : m < 2 ^ 32) (ht : t < 2 ^ 32)
    (hp : p < 2 ^ 8) :
    doScanf [.lit 'm', .lit '=', .verbD (.uint 32), .lit ',', .lit 't', .lit '=',
        .verbD (.uint 32), .lit ',', .lit 'p', .lit '=', .verbD (.uint 8)]
      ("m=".toList ++ formatDecimal m ++ ",t=".toList ++ formatDecimal t ++
        ",p=".toList ++ formatDecimal p) = .ok [(m : Int), (t : Int), (p : Int)] := by
  have e : "m=".toList ++ formatDecimal m ++ ",t=".toList ++ formatDecimal t ++
      ",p=".toList ++ formatDecimal p =
      'm' :: '=' :: (formatDecimal m ++ (',' :: 't' :: '=' :: (formatDecimal t ++
        (',' :: 'p' :: '=' :: (formatDecimal p ++ []))))) := by
    simp
  rw [e]
  have hcomma : ∀ (r : List Char) (c : Char), (',' :: r).head? = some c → c.isDigit = false := by
    intro r c hc
    simp only [List.head?_cons, Option.some.injEq] at hc
    subst hc
    decide
  have hnil : ∀ c : Char, ([] : List Char).head? = some c → c.isDigit = false := by
    intro c hc
    simp at hc
  simp only [doScanf, ne_eq, not_true_eq_false, if_false, skipSpace_formatDecimal, ok_bind,
    scanUint_formatDecimal 32 m _ (by decide) hm (hcomma _),
    scanUint_formatDecimal 32 t _ (by decide) ht (hcomma _),
    scanUint_formatDecimal 8 p _ (by decide) hp hnil]

end Fmt

namespace Strings

theorem split_ne_nil (sep : Char) (s : GoString) : split sep s ≠ [] := by
  induction s with
  | nil => simp [split]
  | cons c cs ih =>
    simp only [split]
    split
    · simp
    · split <;> simp

/-- A string without the separator is a single field. -/
theorem split_of_not_mem (sep : Char) (s : GoString) (h : sep ∉ s) : split sep s = [s] := by
  induction s with
  | nil => rfl
  | cons c cs ih =>
    have hc : c ≠ sep := fun e => h (e ▸ List.mem_cons_self _ _)
    have := ih (fun hm => h (List.mem_cons_of_mem _ hm))
    simp [split, hc, this]

/-- The first field ends at the first separator. -/
theorem split_append_sep (sep : Char) (a b : GoString) (h : sep ∉ a) :
    split sep (a ++ sep :: b) = a :: split sep b := by
  induction a with
  | nil => simp [split]
  | cons c cs ih =>
    have hc : c ≠ sep := fun e => h (e ▸ List.mem_cons_self _ _)
    have := ih (fun hm => h (List.mem_cons_of_mem _ hm))
    simp [split, hc, this]

end Strings

namespace Subtle

theorem or_eq_zero (a b : Nat) (h : a ||| b = 0) : a = 0 ∧ b = 0 := by
  have hbit : ∀ i, a.testBit i = false ∧ b.testBit i = false := by
    intro i
    have := congrArg (fun n => Nat.testBit n i) h
    simpa using this
  exact ⟨Nat.zero_of_testBit_eq_false (fun i => (hbit i).1),
    Nat.zero_of_testBit_eq_false (fun i => (hbit i).2)⟩

theorem constantTimeEq_eq_one_iff (x y : Nat) (hx : x < 2 ^ 32) (hy : y < 2 ^ 32) :
    constantTimeEq x y = 1 ↔ x = y := by
  have hxy : x ^^^ y < 2 ^ 32 := Nat.xor_lt_two_pow hx hy
  unfold constantTimeEq
  rw [Nat.mod_eq_of_lt hxy, Nat.shiftRight_eq_div_pow]
  constructor
  · intro h
    by_contra hne
    have h0 : x ^^^ y ≠ 0 := fun h0 => hne (Nat.xor_eq_zero.mp h0)
    have : ((x ^^^ y) + 2 ^ 64 - 1) % 2 ^ 64 = (x ^^^ y) - 1 := by omega
    rw [this] at h
    omega
  · intro h
    subst h
    simp

theorem constantTimeEq_eq_zero_iff (x y : Nat) (hx : x < 2 ^ 32) (hy : y < 2 ^ 32) :
    constantTimeEq x y = 0 ↔ x ≠ y := by
  have hxy : x ^^^ y < 2 ^ 32 := Nat.xor_lt_two_pow hx hy
  have h1 := constantTimeEq_eq_one_iff x y hx hy
  have hle : constantTimeEq x y ≤ 1 := by
    unfold constantTimeEq
    rw [Nat.shiftRight_eq_div_pow]
    omega
  constructor
  · intro h heq
    have := h1.mpr heq
    omega
  · intro hne
    have : constantTimeEq x y ≠ 1 := fun h => hne (h1.mp h)
    omega

theorem constantTimeByteEq_zero (v : Nat) (hv : v < 2 ^ 8) :
    constantTimeByteEq v 0 = 1 ↔ v = 0 := by
  unfold constantTimeByteEq
  rw [Nat.xor_zero, Nat.mod_eq_of_lt hv, Nat.shiftRight_eq_div_pow]
  omega

theorem xorFold_lt (x : List Byte) : ∀ (v : Nat) (y : List Byte), v < 2 ^ 8 →
    xorFold v x y < 2 ^ 8 := by
  induction x with
  | nil => intro v y hv; simpa [xorFold] using hv
  | cons a x ih =>
    intro v y hv
    cases y with
    | nil => simpa [xorFold] using hv
    | cons b y =>
      simp only [xorFold]
      exact ih _ _ (Nat.mod_lt _ (by decide))

/-- The accumulated OR of the XORs is zero exactly when nothing differs. -/
theorem xorFold_eq_zero_iff (x : List Byte) : ∀ (v : Nat) (y : List Byte), v < 2 ^ 8 →
    x.length = y.length → (xorFold v x y = 0 ↔ v = 0 ∧ x = y) := by
  induction x with
  | nil =>
    intro v y hv hl
    cases y with
    | nil => simp [xorFold]
    | cons b y => simp at hl
  | cons a x ih =>
    intro v y hv hl
    cases y with
    | nil => simp at hl
    | cons b y =>
      simp only [List.length_cons, Nat.add_right_cancel_iff] at hl
      have hab : a.val ^^^ b.val < 2 ^ 8 := Nat.xor_lt_two_pow a.isLt b.isLt
      have hor : v ||| (a.val ^^^ b.val) < 2 ^ 8 := Nat.or_lt_two_pow hv hab
      simp only [xorFold, Nat.mod_eq_of_lt hor]
      rw [ih _ y hor hl]
      simp only [List.cons.injEq]
      constructor
      · rintro ⟨h0, hxy⟩
        have h1 : v = 0 ∧ a.val ^^^ b.val = 0 := or_eq_zero _ _ h0
        exact ⟨h1.1, Fin.ext (Nat.xor_eq_zero.mp h1.2), hxy⟩
      · rintro ⟨hv0, hab', hxy⟩
        subst hv0 hab'
        exact ⟨by simp, hxy⟩

/-- `ConstantTimeCompare` answers 1 exactly on equal slices. -/
theorem constantTimeCompare_eq_one_iff (x y : List Byte) :
    constantTimeCompare x y = 1 ↔ x = y := by
  unfold constantTimeCompare
  by_cases hl : x.length = y.length
  · simp only [hl, ne_eq, not_true_eq_false, if_false]
    rw [constantTimeByteEq_zero _ (xorFold_lt x 0 y (by decide)),
      xorFold_eq_zero_iff x 0 y (by decide) hl]
    simp
  · simp only [ne_eq, hl, not_false_eq_true, if_true]
    constructor
    · intro h; omega
    · intro h; exact absurd (congrArg List.length h) hl

end Subtle
end Vuya

/-! ## The password-hash codec -/

namespace Vuya

theorem sampleKdf_lawful : Argon2.Kdf.Lawful sampleKdf := by
  intro password salt time memory threads keyLen key h
  simp only [sampleKdf, Option.some.injEq] at h
  subst h
  simp

theorem dollar_not_mem_encodeToString (bs : List Byte) :
    '$' ∉ Base64.encodeToString Base64.noPadding bs := fun h =>
  absurd (Base64.encodeToString_raw_mem bs _ h) (by decide)

theorem equals_not_mem_encodeToString (bs : List Byte) :
    '=' ∉ Base64.encodeToString Base64.noPadding bs := fun h =>
  absurd (Base64.encodeToString_raw_mem bs _ h) (by decide)

theorem dollar_not_mem_formatDecimal (n : Nat) : '$' ∉ Fmt.formatDecimal n := fun h =>
  absurd (Fmt.formatDecimal_isDigit n _ h) (by decide)

/-- The six fields of a formatted hash. -/
theorem split_formatHash (v m t p : Nat) (s k : GoString) (hs : '$' ∉ s) (hk : '$' ∉ k) :
    Strings.split '$' (formatHash v m t p s k) =
      [[], "argon2id".toList, "v=".toList ++ Fmt.formatDecimal v,
       "m=".toList ++ Fmt.formatDecimal m ++ ",t=".toList ++ Fmt.formatDecimal t ++
         ",p=".toList ++ Fmt.formatDecimal p, s, k] := by
  have e : formatHash v m t p s k =
      [] ++ '$' :: ("argon2id".toList ++ '$' :: (("v=".toList ++ Fmt.formatDecimal v) ++ '$' ::
        (("m=".toList ++ Fmt.formatDecimal m ++ ",t=".toList ++ Fmt.formatDecimal t ++
          ",p=".toList ++ Fmt.formatDecimal p) ++ '$' :: (s ++ '$' :: k)))) := by
    simp [formatHash]
  have h1 : '$' ∉ "argon2id".toList := by decide
  have h2 : '$' ∉ "v=".toList ++ Fmt.formatDecimal v := by
    simp [dollar_not_mem_formatDecimal]
  have h3 : '$' ∉ "m=".toList ++ Fmt.formatDecimal m ++ ",t=".toList ++ Fmt.formatDecimal t ++
      ",p=".toList ++ Fmt.formatDecimal p := by
    simp [dollar_not_mem_formatDecimal]
  rw [e, Strings.split_append_sep _ _ _ (by simp), Strings.split_append_sep _ _ _ h1,
    Strings.split_append_sep _ _ _ h2, Strings.split_append_sep _ _ _ h3,
    Strings.split_append_sep _ _ _ hs, Strings.split_of_not_mem _ _ hk]

theorem doScanf_version :
    Fmt.doScanf versionFormat ("v=".toList ++ Fmt.formatDecimal Argon2.Version) =
      .ok [(Argon2.Version : Int)] := by
  decide

/-- Decoding a formatted hash gives back what was formatted. -/
theorem decodeHash_formatHash (m t p : Nat) (salt key : List Byte)
    (hm : m < 2 ^ 32) (ht : t < 2 ^ 32) (hp : p < 2 ^ 8) :
    decodeHash (formatHash Argon2.Version m t p
        (Base64.encodeToString Base64.noPadding salt)
        (Base64.encodeToString Base64.noPadding key)) =
      .ok ({ Memory := m, Iterations := t, Parallelism := p,
             SaltLength := salt.length % 2 ^ 32,
             KeyLength := key.length % 2 ^ 32 }, salt, key) := by
  unfold decodeHash
  rw [split_formatHash _ _ _ _ _ _ (dollar_not_mem_encodeToString salt)
    (dollar_not_mem_encodeToString key)]
  simp only [List.length_cons, List.length_nil, List.getD_cons_succ, List.getD_cons_zero,
    doScanf_version, paramsFormat, Fmt.doScanf_paramsFormat m t p hm ht hp,
    Base64.decodeString_encodeToString_raw]
  simp

/-- What `createPasswordHashArgon2id` returned, when it returned a hash. -/
theorem create_eq_ok (entropy : List Byte) (kdf : Argon2.Kdf) (config : ArgonParams)
    (password h : GoString)
    (hcreate : createPasswordHashArgon2id entropy kdf config password = some (.ok h)) :
    ∃ salt key,
      generateRandomBytes entropy defaultPasswordHashParams.SaltLength = .ok salt ∧
      Argon2.IDKey kdf password salt config.Iterations config.Memory config.Parallelism
        config.KeyLength = some key ∧
      h = formatHash Argon2.Version config.Memory config.Iterations config.Parallelism
        (Base64.encodeToString Base64.noPadding salt)
        (Base64.encodeToString Base64.noPadding key) := by
  unfold createPasswordHashArgon2id at hcreate
  cases hs : generateRandomBytes entropy defaultPasswordHashParams.SaltLength with
  | error err => simp [hs] at hcreate
  | ok salt =>
    cases hk : Argon2.IDKey kdf password salt config.Iterations config.Memory
        config.Parallelism config.KeyLength with
    | none => simp [hs, hk] at hcreate
    | some key =>
      simp only [hs, hk, Option.some.injEq, Except.ok.injEq] at hcreate
      exact ⟨salt, key, rfl, hk, hcreate.symm⟩

theorem IDKey_length (kdf : Argon2.Kdf) (hkdf : kdf.Lawful) (password : GoString)
    (salt : List Byte) (time memory threads keyLen : Nat) (key : List Byte)
    (h : Argon2.IDKey kdf password salt time memory threads keyLen = some key) :
    key.length = keyLen := by
  unfold Argon2.IDKey at h
  split at h
  · simp at h
  · split at h
    · simp at h
    · exact hkdf _ _ _ _ _ _ _ h

/-- What `comparePasswordAndHashArgon2id` answers once the hash is decoded and
the key derived. -/
theorem compare_of_decoded (kdf : Argon2.Kdf) (password h : GoString)
    (params : ArgonParams) (salt key otherKey : List Byte)
    (hdec : decodeHash h = .ok (params, salt, key))
    (hkey : Argon2.IDKey kdf password salt params.Iterations params.Memory
      params.Parallelism params.KeyLength = some otherKey) :
    comparePasswordAndHashArgon2id kdf password h =
      some (if otherKey = key then .ok () else .error .ErrInvalidPassword) := by
  unfold comparePasswordAndHashArgon2id
  simp only [hdec, hkey]
  by_cases heq : otherKey = key
  · subst heq
    have h1 : Subtle.constantTimeEq (Subtle.int32Bits otherKey.length)
        (Subtle.int32Bits otherKey.length) ≠ 0 := by
      unfold Subtle.int32Bits
      rw [(Subtle.constantTimeEq_eq_one_iff _ _ (Nat.mod_lt _ (by decide))
        (Nat.mod_lt _ (by decide))).mpr rfl]
      decide
    have h2 : Subtle.constantTimeCompare otherKey otherKey = 1 :=
      (Subtle.constantTimeCompare_eq_one_iff _ _).mpr rfl
    simp [h1, h2]
  · have h2 : Subtle.constantTimeCompare key otherKey ≠ 1 := fun h =>
      heq ((Subtle.constantTimeCompare_eq_one_iff _ _).mp h).symm
    simp only [heq, if_false, h2]
    split <;> rfl

/-- C2: for every password and every configuration within its types with
`Iterations ≥ 1` and `Parallelism ≥ 1`, a hash returned by
`createPasswordHashArgon2id` verifies against the password it was made from:
`comparePasswordAndHashArgon2id` returns nil. -/
theorem create_then_compare_succeeds (kdf : Argon2.Kdf) (entropy : List Byte)
    (config : ArgonParams) (password h : GoString)
    (hkdf : kdf.Lawful) (hrange : config.InRange)
    (_hit : 1 ≤ config.Iterations) (_hpar : 1 ≤ config.Parallelism)
    (hcreate : createPasswordHashArgon2id entropy kdf config password = some (.ok h)) :
    comparePasswordAndHashArgon2id kdf password h = some (.ok ()) := by
  obtain ⟨salt, key, -, hk, rfl⟩ := create_eq_ok entropy kdf config password h hcreate
  obtain ⟨hm, ht, hp, -, hkl⟩ := hrange
  have hlen := IDKey_length kdf hkdf _ _ _ _ _ _ _ hk
  have hdec := decodeHash_formatHash config.Memory config.Iterations config.Parallelism
    salt key hm ht hp
  have hk2 : Argon2.IDKey kdf password salt config.Iterations config.Memory
      config.Parallelism (key.length % 2 ^ 32) = some key := by
    rw [hlen, Nat.mod_eq_of_lt hkl]
    exact hk
  rw [compare_of_decoded kdf password _ _ salt key key hdec hk2]
  simp

/-- C2, at the default parameters with the sample derivation. -/
theorem create_then_compare_succeeds_witness :
    Argon2.Kdf.Lawful sampleKdf ∧ defaultPasswordHashParams.InRange ∧
    1 ≤ defaultPasswordHashParams.Iterations ∧ 1 ≤ defaultPasswordHashParams.Parallelism ∧
    createPasswordHashArgon2id (List.replicate 16 7) sampleKdf defaultPasswordHashParams
        "0x82738128ddidjaxxx77317881".toList =
      some (.ok ("$argon2id$v=19$m=32768,t=3,p=1$BwcHBwcHBwcHBwcHBwcHBw$" ++
        "NTY3ODk6Ozw9Pj9AQUJDREVGR0hJSktMTU5PUFFSU1Q").toList) ∧
    comparePasswordAndHashArgon2id sampleKdf "0x82738128ddidjaxxx77317881".toList
        ("$argon2id$v=19$m=32768,t=3,p=1$BwcHBwcHBwcHBwcHBwcHBw$" ++
          "NTY3ODk6Ozw9Pj9AQUJDREVGR0hJSktMTU5PUFFSU1Q").toList = some (.ok ()) :=
  ⟨sampleKdf_lawful, by decide, by decide, by decide, by decide,
    create_then_compare_succeeds sampleKdf (List.replicate 16 7) defaultPasswordHashParams
      "0x82738128ddidjaxxx77317881".toList _ sampleKdf_lawful (by decide) (by decide)
      (by decide) (by decide)⟩

/-- C3, as amended: for every hash that `decodeHash` accepts and every
candidate password for which `argon2.IDKey` returns a key under the embedded
parameters, `comparePasswordAndHashArgon2id` returns nil exactly when the
re-derived key equals the embedded key, and `ErrInvalidPassword` otherwise. -/
theorem compare_nil_iff_keys_equal (kdf : Argon2.Kdf) (password h : GoString)
    (params : ArgonParams) (salt key otherKey : List Byte)
    (hdec : decodeHash h = .ok (params, salt, key))
    (hkey : Argon2.IDKey kdf password salt params.Iterations params.Memory
      params.Parallelism params.KeyLength = some otherKey) :
    (comparePasswordAndHashArgon2id kdf password h = some (.ok ()) ↔ otherKey = key) ∧
    (otherKey ≠ key →
      comparePasswordAndHashArgon2id kdf password h = some (.error .ErrInvalidPassword)) := by
  rw [compare_of_decoded kdf password h params salt key otherKey hdec hkey]
  by_cases heq : otherKey = key
  · simp [heq]
  · simp [heq]

/-- C3 as amended, on a wrong password for a hash of the default parameters. -/
theorem compare_nil_iff_keys_equal_witness :
    decodeHash "$argon2id$v=19$m=8,t=1,p=1$BwcHBwcHBwcHBwcHBwcHBw$YWJjZA".toList =
      .ok (⟨8, 1, 1, 16, 4⟩, List.replicate 16 7, [97, 98, 99, 100]) ∧
    Argon2.IDKey sampleKdf "pwd".toList (List.replicate 16 7) 1 8 1 4 =
      some [197, 198, 199, 200] ∧
    (comparePasswordAndHashArgon2id sampleKdf "pwd".toList
        "$argon2id$v=19$m=8,t=1,p=1$BwcHBwcHBwcHBwcHBwcHBw$YWJjZA".toList = some (.ok ()) ↔
      ([197, 198, 199, 200] : List Byte) = [97, 98, 99, 100]) ∧
    (([197, 198, 199, 200] : List Byte) ≠ [97, 98, 99, 100] →
      comparePasswordAndHashArgon2id sampleKdf "pwd".toList
        "$argon2id$v=19$m=8,t=1,p=1$BwcHBwcHBwcHBwcHBwcHBw$YWJjZA".toList =
          some (.error .ErrInvalidPassword)) :=
  ⟨by decide, by decide,
    compare_nil_iff_keys_equal sampleKdf "pwd".toList
      "$argon2id$v=19$m=8,t=1,p=1$BwcHBwcHBwcHBwcHBwcHBw$YWJjZA".toList
      ⟨8, 1, 1, 16, 4⟩ (List.replicate 16 7) [97, 98, 99, 100] [197, 198, 199, 200]
      (by decide) (by decide)⟩

/-- C3 fails as stated: `decodeHash` accepts a hash whose iteration count is
0, and on it `comparePasswordAndHashArgon2id` returns neither nil nor
`ErrInvalidPassword`: `argon2.IDKey` panics. -/
theorem compare_panics_on_zero_iterations :
    decodeHash "$argon2id$v=19$m=8,t=0,p=1$AAAA$AAAA".toList =
      .ok (⟨8, 0, 1, 3, 3⟩, [0, 0, 0], [0, 0, 0]) ∧
    comparePasswordAndHashArgon2id sampleKdf "pw".toList
      "$argon2id$v=19$m=8,t=0,p=1$AAAA$AAAA".toList = none := by
  decide

/-- C4: for `uint32` values `m` and `t`, a `uint8` value `p`, and salt and key
bytes of `uint32` lengths, `decodeHash` applied to
`$argon2id$v=19$m=<m>,t=<t>,p=<p>$<unpadded base64 salt>$<unpadded base64 key>`
succeeds and returns `Memory = m`, `Iterations = t`, `Parallelism = p`,
`SaltLength = len(salt)`, `KeyLength = len(key)`, the same salt and the same
key. -/
theorem decodeHash_roundtrip (m t p : Nat) (salt key : List Byte)
    (hm : m < 2 ^ 32) (ht : t < 2 ^ 32) (hp : p < 2 ^ 8)
    (hsalt : salt.length < 2 ^ 32) (hkey : key.length < 2 ^ 32) :
    decodeHash (formatHash Argon2.Version m t p
        (Base64.encodeToString Base64.noPadding salt)
        (Base64.encodeToString Base64.noPadding key)) =
      .ok ({ Memory := m, Iterations := t, Parallelism := p,
             SaltLength := salt.length, KeyLength := key.length }, salt, key) := by
  rw [decodeHash_formatHash m t p salt key hm ht hp, Nat.mod_eq_of_lt hsalt,
    Nat.mod_eq_of_lt hkey]

/-- C4, at the largest parameters of each type. -/
theorem decodeHash_roundtrip_witness :
    (4294967295 < 2 ^ 32 ∧ 3 < 2 ^ 32 ∧ 255 < 2 ^ 8 ∧
      ([1, 2, 3, 4] : List Byte).length < 2 ^ 32 ∧ ([250, 251] : List Byte).length < 2 ^ 32) ∧
    decodeHash (formatHash Argon2.Version 4294967295 3 255
        (Base64.encodeToString Base64.noPadding [1, 2, 3, 4])
        (Base64.encodeToString Base64.noPadding [250, 251])) =
      .ok ({ Memory := 4294967295, Iterations := 3, Parallelism := 255,
             SaltLength := ([1, 2, 3, 4] : List Byte).length,
             KeyLength := ([250, 251] : List Byte).length }, [1, 2, 3, 4], [250, 251]) :=
  ⟨by decide,
    decodeHash_roundtrip 4294967295 3 255 [1, 2, 3, 4] [250, 251] (by decide) (by decide)
      (by decide) (by decide) (by decide)⟩

/-- C5: a string returned by `createPasswordHashArgon2id` splits on `'$'` into
exactly 6 fields: an empty one, `argon2id`, `v=19`, the field
`m=<Memory>,t=<Iterations>,p=<Parallelism>` in decimal, the unpadded base64 of
the salt and the unpadded base64 of the derived key; neither base64 field
contains `'$'` or `'='`. -/
theorem create_output_fields (kdf : Argon2.Kdf) (entropy : List Byte)
    (config : ArgonParams) (password h : GoString)
    (hcreate : createPasswordHashArgon2id entropy kdf config password = some (.ok h)) :
    ∃ salt key,
      generateRandomBytes entropy defaultPasswordHashParams.SaltLength = .ok salt ∧
      Argon2.IDKey kdf password salt config.Iterations config.Memory config.Parallelism
        config.KeyLength = some key ∧
      Strings.split '$' h =
        [[], "argon2id".toList, "v=19".toList,
         "m=".toList ++ Fmt.formatDecimal config.Memory ++
           ",t=".toList ++ Fmt.formatDecimal config.Iterations ++
           ",p=".toList ++ Fmt.formatDecimal config.Parallelism,
         Base64.encodeToString Base64.noPadding salt,
         Base64.encodeToString Base64.noPadding key] ∧
      (Strings.split '$' h).length = 6 ∧
      '$' ∉ Base64.encodeToString Base64.noPadding salt ∧
      '=' ∉ Base64.encodeToString Base64.noPadding salt ∧
      '$' ∉ Base64.encodeToString Base64.noPadding key ∧
      '=' ∉ Base64.encodeToString Base64.noPadding key := by
  obtain ⟨salt, key, hs, hk, rfl⟩ := create_eq_ok entropy kdf config password h hcreate
  have hsplit := split_formatHash Argon2.Version config.Memory config.Iterations
    config.Parallelism _ _ (dollar_not_mem_encodeToString salt)
    (dollar_not_mem_encodeToString key)
  have hv : "v=".toList ++ Fmt.formatDecimal Argon2.Version = "v=19".toList := by decide
  rw [hv] at hsplit
  refine ⟨salt, key, hs, hk, hsplit, ?_, dollar_not_mem_encodeToString salt,
    equals_not_mem_encodeToString salt, dollar_not_mem_encodeToString key,
    equals_not_mem_encodeToString key⟩
  rw [hsplit]
  rfl

/-- C5, at the default parameters with the sample derivation. -/
theorem create_output_fields_witness :
    createPasswordHashArgon2id (List.replicate 16 7) sampleKdf defaultPasswordHashParams
        "pw".toList =
      some (.ok ("$argon2id$v=19$m=32768,t=3,p=1$BwcHBwcHBwcHBwcHBwcHBw$" ++
        "W1xdXl9gYWJjZGVmZ2hpamtsbW5vcHFyc3R1dnd4eXo").toList) ∧
    ∃ salt key,
      generateRandomBytes (List.replicate 16 7) defaultPasswordHashParams.SaltLength =
        .ok salt ∧
      Argon2.IDKey sampleKdf "pw".toList salt defaultPasswordHashParams.Iterations
        defaultPasswordHashParams.Memory defaultPasswordHashParams.Parallelism
        defaultPasswordHashParams.KeyLength = some key ∧
      Strings.split '$' ("$argon2id$v=19$m=32768,t=3,p=1$BwcHBwcHBwcHBwcHBwcHBw$" ++
          "W1xdXl9gYWJjZGVmZ2hpamtsbW5vcHFyc3R1dnd4eXo").toList =
        [[], "argon2id".toList, "v=19".toList,
         "m=".toList ++ Fmt.formatDecimal defaultPasswordHashParams.Memory ++
           ",t=".toList ++ Fmt.formatDecimal defaultPasswordHashParams.Iterations ++
           ",p=".toList ++ Fmt.formatDecimal defaultPasswordHashParams.Parallelism,
         Base64.encodeToString Base64.noPadding salt,
         Base64.encodeToString Base64.noPadding key] ∧
      (Strings.split '$' ("$argon2id$v=19$m=32768,t=3,p=1$BwcHBwcHBwcHBwcHBwcHBw$" ++
          "W1xdXl9gYWJjZGVmZ2hpamtsbW5vcHFyc3R1dnd4eXo").toList).length = 6 ∧
      '$' ∉ Base64.encodeToString Base64.noPadding salt ∧
      '=' ∉ Base64.encodeToString Base64.noPadding salt ∧
      '$' ∉ Base64.encodeToString Base64.noPadding key ∧
      '=' ∉ Base64.encodeToString Base64.noPadding key :=
  ⟨by decide,
    create_output_fields sampleKdf (List.replicate 16 7) defaultPasswordHashParams
      "pw".toList _ (by decide)⟩

/-- C6 fails on the code: called with a configuration whose `SaltLength` is 8,
`createPasswordHashArgon2id` embeds a salt of 16 bytes, the `SaltLength` of
`defaultPasswordHashParams`. -/
theorem create_salt_length_ignores_config :
    (⟨8, 1, 1, 8, 4⟩ : ArgonParams).SaltLength = 8 ∧
    createPasswordHashArgon2id (List.replicate 16 7) sampleKdf ⟨8, 1, 1, 8, 4⟩ "pw".toList =
      some (.ok "$argon2id$v=19$m=8,t=1,p=1$BwcHBwcHBwcHBwcHBwcHBw$YWJjZA".toList) ∧
    decodeHash "$argon2id$v=19$m=8,t=1,p=1$BwcHBwcHBwcHBwcHBwcHBw$YWJjZA".toList =
      .ok (⟨8, 1, 1, 16, 4⟩, List.replicate 16 7, [97, 98, 99, 100]) ∧
    (List.replicate 16 7 : List Byte).length = 16 := by
  decide

end Vuya

/-! ## The AEAD codec -/

namespace Vuya
namespace ChaCha20

theorem quarterRoundAt_length (s : List Nat) (i j k l : Nat) :
    (quarterRoundAt s i j k l).length = s.length := by
  simp [quarterRoundAt]

theorem doubleRound_length (s : List Nat) : (doubleRound s).length = s.length := by
  simp [doubleRound, quarterRoundAt_length]

theorem rounds_length (n : Nat) : ∀ s : List Nat, (rounds n s).length = s.length := by
  induction n with
  | zero => intro s; rfl
  | succ n ih => intro s; simp [rounds, ih, doubleRound_length]

theorem flatten_wordBytes_length (ws : List Nat) :
    ((ws.map wordBytes).flatten).length = 4 * ws.length := by
  induction ws with
  | nil => rfl
  | cons w ws ih =>
    simp only [List.map_cons, List.flatten_cons, List.length_append, ih, List.length_cons]
    simp only [wordBytes, List.length_cons, List.length_nil]
    omega

theorem block_length (key : List Byte) (counter : Nat) (nonce : List Byte) :
    (block key counter nonce).length = 64 := by
  unfold block
  simp only [flatten_wordBytes_length, List.length_zipWith, rounds_length, List.length_append,
    words, List.length_map, List.length_range, sigma, List.length_cons, List.length_nil]
  rfl

theorem keyStream_length (key nonce : List Byte) (n : Nat) :
    ∀ counter, (keyStream key nonce counter n).length = 64 * n := by
  induction n with
  | zero => intro counter; rfl
  | succ n ih =>
    intro counter
    simp only [keyStream, List.length_append, block_length, ih]
    omega

theorem xorBytes_length (src ks : List Byte) (h : src.length ≤ ks.length) :
    (xorBytes src ks).length = src.length := by
  simp [xorBytes, h]

theorem xor_byte_cancel (b k : Byte) :
    (Fin.ofNat ((Fin.ofNat (b.val ^^^ k.val) : Byte).val ^^^ k.val) : Byte) = b := by
  have hb := b.isLt
  have hk := k.isLt
  have hx : b.val ^^^ k.val < 256 := Nat.xor_lt_two_pow (n := 8) hb hk
  apply Fin.ext
  simp only [Fin.ofNat, Nat.reduceAdd]
  rw [Nat.mod_eq_of_lt hx, Nat.xor_cancel_right, Nat.mod_eq_of_lt hb]

/-- XORing the same key stream twice gives the buffer back. -/
theorem xorBytes_xorBytes (src : List Byte) :
    ∀ ks : List Byte, src.length ≤ ks.length → xorBytes (xorBytes src ks) ks = src := by
  induction src with
  | nil => intro ks _; simp [xorBytes]
  | cons b src ih =>
    intro ks h
    cases ks with
    | nil => simp at h
    | cons k ks =>
      have h' : src.length ≤ ks.length := by simpa using h
      have := ih ks h'
      simp only [xorBytes] at this ⊢
      simp only [List.zipWith_cons_cons, List.cons.injEq]
      exact ⟨xor_byte_cancel b k, this⟩

theorem length_le_keyStream (key nonce : List Byte) (counter : Nat) (src : List Byte) :
    src.length ≤ (keyStream key nonce counter ((src.length + 63) / 64)).length := by
  rw [keyStream_length]
  omega

theorem xorKeyStream_length (key nonce : List Byte) (counter : Nat) (src : List Byte) :
    (xorKeyStream key nonce counter src).length = src.length :=
  xorBytes_length _ _ (length_le_keyStream key nonce counter src)

theorem xorKeyStream_xorKeyStream (key nonce : List Byte) (counter : Nat) (src : List Byte) :
    xorKeyStream key nonce counter (xorKeyStream key nonce counter src) = src := by
  have hl := xorKeyStream_length key nonce counter src
  unfold xorKeyStream at hl ⊢
  rw [hl]
  exact xorBytes_xorBytes src _ (length_le_keyStream key nonce counter src)

end ChaCha20

namespace Poly1305

theorem leBytes_length (n : Nat) : ∀ v, (leBytes n v).length = n := by
  induction n with
  | zero => intro v; rfl
  | succ n ih => intro v; simp [leBytes, ih]

theorem sum_length (key msg : List Byte) : (sum key msg).length = 16 := by
  simp [sum, leBytes_length]

end Poly1305

namespace ChaCha20Poly1305

theorem tagOf_length (key nonce ad ct : List Byte) : (tagOf key nonce ad ct).length = 16 :=
  Poly1305.sum_length _ _

/-- What `openGeneric` answers, by the tag its input carries. -/
theorem openGeneric_eq (key nonce c ad : List Byte) :
    openGeneric key nonce c ad =
      if tagOf key nonce ad (c.take (c.length - 16)) = c.drop (c.length - 16) then
        .ok (ChaCha20.xorKeyStream key nonce 1 (c.take (c.length - 16)))
      else .error .errOpen := by
  unfold openGeneric
  by_cases h : tagOf key nonce ad (c.take (c.length - 16)) = c.drop (c.length - 16)
  · have := (Subtle.constantTimeCompare_eq_one_iff _ _).mpr h
    simp only [this, ne_eq, not_true_eq_false, if_false]
    rw [if_pos h]
  · have : Subtle.constantTimeCompare (tagOf key nonce ad (c.take (c.length - 16)))
        (c.drop (c.length - 16)) ≠ 1 := fun e =>
      h ((Subtle.constantTimeCompare_eq_one_iff _ _).mp e)
    simp [h, this]

/-- Opening what was sealed gives the plaintext. -/
theorem openGeneric_sealGeneric (key nonce pt ad : List Byte) :
    openGeneric key nonce (sealGeneric key [] nonce pt ad) ad = .ok pt := by
  have hl : (ChaCha20.xorKeyStream key nonce 1 pt ++
      tagOf key nonce ad (ChaCha20.xorKeyStream key nonce 1 pt)).length - 16 =
      (ChaCha20.xorKeyStream key nonce 1 pt).length := by
    simp [tagOf_length]
  rw [openGeneric_eq]
  simp only [sealGeneric, List.nil_append, hl, List.take_left', List.drop_left',
    if_true, ChaCha20.xorKeyStream_xorKeyStream]

/-- What `openGeneric` accepts is the sealing of what it returns. -/
theorem sealGeneric_of_openGeneric (key nonce c ad pt : List Byte)
    (h : openGeneric key nonce c ad = .ok pt) :
    sealGeneric key [] nonce pt ad = c ∧ pt.length = c.length - 16 := by
  rw [openGeneric_eq] at h
  split at h
  · rename_i htag
    simp only [Except.ok.injEq] at h
    subst h
    refine ⟨?_, ?_⟩
    · simp only [sealGeneric, List.nil_append, ChaCha20.xorKeyStream_xorKeyStream, htag,
        List.take_append_drop]
    · simp [ChaCha20.xorKeyStream_length]
  · simp at h

theorem openGeneric_error (key nonce c ad : List Byte) (err : Error)
    (h : openGeneric key nonce c ad = .error err) : err = .errOpen := by
  rw [openGeneric_eq] at h
  split at h
  · simp at h
  · simpa using h.symm

end ChaCha20Poly1305

open ChaCha20Poly1305

theorem generateRandomBytes_length (entropy : List Byte) (n : Nat) (bs : List Byte)
    (h : generateRandomBytes entropy n = .ok bs) : bs.length = n := by
  unfold generateRandomBytes at h
  split at h
  · simp at h
  · simp only [Except.ok.injEq] at h
    subst h
    simp
    omega

/-- What `EncryptBytes` returned, when it returned without error. -/
theorem encryptBytes_eq_ok (entropy key plainData sealed : List Byte)
    (henc : EncryptBytes entropy key plainData = some (sealed, none)) :
    key.length = 32 ∧ plainData.length ≤ 2 ^ 38 - 64 ∧
    ∃ nonce, nonce.length = 24 ∧ generateRandomBytes entropy 24 = .ok nonce ∧
      sealed = nonce ++ sealGeneric (subKey ⟨key⟩ nonce).1 [] (subKey ⟨key⟩ nonce).2
        plainData [] := by
  unfold EncryptBytes NewX at henc
  by_cases hk : key.length = KeySize
  · simp only [hk, ne_eq, not_true_eq_false, if_false] at henc
    cases hr : generateRandomBytes entropy NonceSizeX with
    | error err => simp [hr] at henc
    | ok nonce =>
      have hn := generateRandomBytes_length _ _ _ hr
      simp only [hr, XAead.Seal, hn, ne_eq, not_true_eq_false, if_false] at henc
      have h38 : (2 : Nat) ^ 38 - 64 = 274877906880 := by norm_num
      rw [h38] at henc ⊢
      by_cases hp : plainData.length > 274877906880
      · simp [hp] at henc
      · simp only [hp, if_false, Option.some.injEq, Prod.mk.injEq, and_true] at henc
        refine ⟨hk, Nat.le_of_not_lt hp, nonce, hn, hr, ?_⟩
        rw [← henc]
        simp [sealGeneric, List.append_assoc]
  · simp [hk] at henc

/-- What `DecryptBytes` does on an input of at least 40 bytes and at most
`24 + 2^38 - 48`, under a 32-byte key. -/
theorem decryptBytes_eq (key data : List Byte) (hk : key.length = 32)
    (h1 : 40 ≤ data.length) (h2 : data.length ≤ 24 + (2 ^ 38 - 48)) :
    DecryptBytes key data =
      match openGeneric (subKey ⟨key⟩ (data.take 24)).1 (subKey ⟨key⟩ (data.take 24)).2
          (data.drop 24) [] with
      | .error err => some ([], some (.wrap "failed to decrypt or authenticate data" err))
      | .ok plainData => some (plainData, none) := by
  have hn : (data.take 24).length = 24 := by
    simp
    omega
  have hc1 : ¬ (data.drop 24).length < 16 := by
    simp
    omega
  have hc2 : ¬ (data.drop 24).length > 2 ^ 38 - 48 := by
    simp
    omega
  have hd : ¬ data.length < 24 := by omega
  unfold DecryptBytes NewX
  simp only [hk, KeySize, NonceSizeX, ne_eq, not_true_eq_false, if_false, hd, XAead.Open, hn,
    hc1, hc2]
  cases openGeneric (subKey ⟨key⟩ (data.take 24)).1 (subKey ⟨key⟩ (data.take 24)).2
      (data.drop 24) [] <;> rfl

/-- The round trip of `EncryptBytes` and `DecryptBytes`. -/
theorem decryptBytes_encryptBytes (entropy key plainData sealed : List Byte)
    (henc : EncryptBytes entropy key plainData = some (sealed, none)) :
    DecryptBytes key sealed = some (plainData, none) := by
  obtain ⟨hk, hp, nonce, hn, -, rfl⟩ := encryptBytes_eq_ok entropy key plainData sealed henc
  have hlen : (sealGeneric (subKey ⟨key⟩ nonce).1 [] (subKey ⟨key⟩ nonce).2
      plainData []).length = plainData.length + 16 := by
    simp [sealGeneric, ChaCha20.xorKeyStream_length, tagOf_length]
  rw [decryptBytes_eq key _ hk (by rw [List.length_append, hlen, hn]; omega)
    (by rw [List.length_append, hlen, hn]; omega)]
  have ht : (nonce ++ sealGeneric (subKey ⟨key⟩ nonce).1 [] (subKey ⟨key⟩ nonce).2
      plainData []).take 24 = nonce := by
    rw [← hn]
    exact List.take_left' rfl
  have hd : (nonce ++ sealGeneric (subKey ⟨key⟩ nonce).1 [] (subKey ⟨key⟩ nonce).2
      plainData []).drop 24 = sealGeneric (subKey ⟨key⟩ nonce).1 [] (subKey ⟨key⟩ nonce).2
      plainData [] := by
    rw [← hn]
    exact List.drop_left' rfl
  rw [ht, hd, openGeneric_sealGeneric]

/-- `EncryptBytes` when the nonce drawn is `nonce`. -/
theorem encryptBytes_of_nonce (key nonce plainData : List Byte) (hk : key.length = 32)
    (hn : nonce.length = 24) (hp : plainData.length ≤ 2 ^ 38 - 64) :
    EncryptBytes nonce key plainData =
      some (nonce ++ sealGeneric (subKey ⟨key⟩ nonce).1 [] (subKey ⟨key⟩ nonce).2
        plainData [], none) := by
  have hr : generateRandomBytes nonce 24 = .ok nonce := by
    unfold generateRandomBytes
    rw [if_neg (by omega), ← hn, List.take_length]
  have hp' : ¬ plainData.length > 2 ^ 38 - 64 := by omega
  unfold EncryptBytes NewX
  simp only [hk, KeySize, NonceSizeX, ne_eq, not_true_eq_false, if_false, hr, XAead.Seal, hn,
    hp']
  simp [sealGeneric, List.append_assoc]

/-- `DecryptBytes` never returns bytes next to an error. -/
theorem decryptBytes_error_nil (key data : List Byte) (r : List Byte × Option Error)
    (h : DecryptBytes key data = some r) (herr : r.2 ≠ none) : r.1 = [] := by
  unfold DecryptBytes at h
  split at h
  · simp only [Option.some.injEq] at h
    subst h
    rfl
  · split at h
    · simp only [Option.some.injEq] at h
      subst h
      rfl
    · dsimp only at h
      split at h
      · simp at h
      · simp only [Option.some.injEq] at h
        subst h
        rfl
      · simp only [Option.some.injEq] at h
        subst h
        exact absurd rfl herr

/-- The sample sealing of the byte 0, under the all-zero key and nonce. -/
theorem encryptBytes_sample_zero :
    EncryptBytes (List.replicate 24 0) (List.replicate 32 0) [0] =
      some (sampleSealedZero, none) := by
  decide!

/-- The sample sealing of the byte 1, under the all-zero key and nonce. -/
theorem encryptBytes_sample_one :
    EncryptBytes (List.replicate 24 0) (List.replicate 32 0) [1] =
      some (sampleSealedOne, none) := by
  decide!

/-- C1: for every 32-byte key and every plaintext, the empty one included, if
`EncryptBytes(key, plaintext)` returns `sealed` without error then
`DecryptBytes(key, sealed)` returns exactly `plaintext` and no error. -/
theorem encrypt_then_decrypt (entropy key plaintext sealed : List Byte)
    (_hkey : key.length = 32)
    (henc : EncryptBytes entropy key plaintext = some (sealed, none)) :
    DecryptBytes key sealed = some (plaintext, none) :=
  decryptBytes_encryptBytes entropy key plaintext sealed henc

/-- C1, on one byte under the all-zero key and nonce. -/
theorem encrypt_then_decrypt_witness :
    (List.replicate 32 0 : List Byte).length = 32 ∧
    EncryptBytes (List.replicate 24 0) (List.replicate 32 0) [1] =
      some (sampleSealedOne, none) ∧
    DecryptBytes (List.replicate 32 0) sampleSealedOne = some ([1], none) :=
  ⟨by decide, encryptBytes_sample_one,
    encrypt_then_decrypt (List.replicate 24 0) (List.replicate 32 0) [1] _ (by decide)
      encryptBytes_sample_one⟩

/-- C7 fails as stated: the sealing of the byte 1 has the length of the
sealing of the byte 0 and differs from it, yet `DecryptBytes` accepts it and
returns a plaintext, with no error. -/
theorem decrypt_accepts_other_sealing :
    EncryptBytes (List.replicate 24 0) (List.replicate 32 0) [0] =
      some (sampleSealedZero, none) ∧
    sampleSealedOne.length = sampleSealedZero.length ∧
    sampleSealedOne ≠ sampleSealedZero ∧
    DecryptBytes (List.replicate 32 0) sampleSealedOne = some ([1], none) :=
  ⟨encryptBytes_sample_zero, by decide, by decide,
    decryptBytes_encryptBytes _ _ _ _ encryptBytes_sample_one⟩

/-- `DecryptBytes` on a nonce, a ciphertext and a 16-byte tag. -/
theorem decryptBytes_parts (key nonce ct tag : List Byte) (hk : key.length = 32)
    (hn : nonce.length = 24) (ht : tag.length = 16) (hc : ct.length ≤ 2 ^ 38 - 64) :
    DecryptBytes key (nonce ++ (ct ++ tag)) =
      if tagOf (subKey ⟨key⟩ nonce).1 (subKey ⟨key⟩ nonce).2 [] ct = tag then
        some (ChaCha20.xorKeyStream (subKey ⟨key⟩ nonce).1 (subKey ⟨key⟩ nonce).2 1 ct, none)
      else some ([], some (.wrap "failed to decrypt or authenticate data" .errOpen)) := by
  have hl : (nonce ++ (ct ++ tag)).length = 24 + (ct.length + 16) := by
    simp [hn, ht]
  have h1 : (nonce ++ (ct ++ tag)).take 24 = nonce := by
    rw [← hn]
    exact List.take_left' rfl
  have h2 : (nonce ++ (ct ++ tag)).drop 24 = ct ++ tag := by
    rw [← hn]
    exact List.drop_left' rfl
  have h3 : (ct ++ tag).length - 16 = ct.length := by
    simp [ht]
  rw [decryptBytes_eq key _ hk (by rw [hl]; omega) (by rw [hl]; omega), h1, h2,
    openGeneric_eq, h3, List.take_left' rfl, List.drop_left' rfl]
  by_cases htag : tagOf (subKey ⟨key⟩ nonce).1 (subKey ⟨key⟩ nonce).2 [] ct = tag
  · rw [if_pos htag, if_pos htag]
  · rw [if_neg htag, if_neg htag]

/-- C7, as amended: for every 32-byte key, plaintext and
`sealed = EncryptBytes(key, plaintext)`, and for every `sealed'` of the same
length that differs from `sealed`, `DecryptBytes(key, sealed')` either returns
the authentication error with a nil plaintext, or `sealed'` is itself what
`EncryptBytes` returns under `key` (with the nonce `sealed'` starts with) for
the plaintext returned; when `sealed'` differs from `sealed` only within the
last 16 bytes, the tag, the authentication error is returned; and whatever the
input, no plaintext is returned next to an error. -/
theorem tampered_sealed_rejected_or_genuine (entropy key plaintext sealed sealed' : List Byte)
    (_hkey : key.length = 32)
    (henc : EncryptBytes entropy key plaintext = some (sealed, none))
    (hlen : sealed'.length = sealed.length) (hne : sealed' ≠ sealed) :
    (DecryptBytes key sealed' =
        some ([], some (.wrap "failed to decrypt or authenticate data" .errOpen)) ∨
      ∃ p', DecryptBytes key sealed' = some (p', none) ∧
        EncryptBytes (sealed'.take 24) key p' = some (sealed', none)) ∧
    (sealed'.take (sealed'.length - 16) = sealed.take (sealed.length - 16) →
      DecryptBytes key sealed' =
        some ([], some (.wrap "failed to decrypt or authenticate data" .errOpen))) ∧
    (∀ data r, DecryptBytes key data = some r → r.2 ≠ none → r.1 = []) := by
  obtain ⟨hk, hp, nonce, hn, -, hs⟩ := encryptBytes_eq_ok entropy key plaintext sealed henc
  have hctl := ChaCha20.xorKeyStream_length (subKey ⟨key⟩ nonce).1 (subKey ⟨key⟩ nonce).2 1
    plaintext
  have htl := tagOf_length (subKey ⟨key⟩ nonce).1 (subKey ⟨key⟩ nonce).2 []
    (ChaCha20.xorKeyStream (subKey ⟨key⟩ nonce).1 (subKey ⟨key⟩ nonce).2 1 plaintext)
  have hs' : sealed = nonce ++
      (ChaCha20.xorKeyStream (subKey ⟨key⟩ nonce).1 (subKey ⟨key⟩ nonce).2 1 plaintext ++
        tagOf (subKey ⟨key⟩ nonce).1 (subKey ⟨key⟩ nonce).2 []
          (ChaCha20.xorKeyStream (subKey ⟨key⟩ nonce).1 (subKey ⟨key⟩ nonce).2 1
            plaintext)) := by
    rw [hs]
    simp [sealGeneric]
  have hsl : sealed.length = 24 + (plaintext.length + 16) := by
    rw [hs']
    simp [hn, hctl, htl]
  have h38 : (2 : Nat) ^ 38 - 64 = 274877906880 := by norm_num
  have h38' : (2 : Nat) ^ 38 - 48 = 274877906896 := by norm_num
  rw [h38] at hp
  refine ⟨?_, ?_, fun data r => decryptBytes_error_nil key data r⟩
  · rw [decryptBytes_eq key sealed' hk (by omega) (by rw [h38']; omega)]
    cases hopen : openGeneric (subKey ⟨key⟩ (sealed'.take 24)).1
        (subKey ⟨key⟩ (sealed'.take 24)).2 (sealed'.drop 24) [] with
    | error err =>
      left
      rw [openGeneric_error _ _ _ _ _ hopen]
    | ok p' =>
      right
      obtain ⟨hseal, hpl⟩ := sealGeneric_of_openGeneric _ _ _ _ _ hopen
      refine ⟨p', rfl, ?_⟩
      have hdl : (sealed'.drop 24).length = plaintext.length + 16 := by
        rw [List.length_drop]
        omega
      rw [encryptBytes_of_nonce key (sealed'.take 24) p' hk
        (by rw [List.length_take]; omega) (by rw [h38, hpl, hdl]; omega), hseal,
        List.take_append_drop]
  · intro hprefix
    have e1 : sealed.take (sealed.length - 16) = nonce ++
        ChaCha20.xorKeyStream (subKey ⟨key⟩ nonce).1 (subKey ⟨key⟩ nonce).2 1 plaintext := by
      have hl : sealed.length - 16 = (nonce ++ ChaCha20.xorKeyStream (subKey ⟨key⟩ nonce).1
          (subKey ⟨key⟩ nonce).2 1 plaintext).length := by
        rw [hsl, List.length_append, hn, hctl]
        omega
      rw [hl]
      conv_lhs => rw [hs', ← List.append_assoc]
      exact List.take_left' rfl
    have e2 : sealed' = nonce ++
        (ChaCha20.xorKeyStream (subKey ⟨key⟩ nonce).1 (subKey ⟨key⟩ nonce).2 1 plaintext ++
          sealed'.drop (sealed'.length - 16)) := by
      rw [← List.append_assoc, ← e1, ← hprefix, List.take_append_drop]
    have ht' : (sealed'.drop (sealed'.length - 16)).length = 16 := by
      rw [List.length_drop]
      omega
    rw [e2, decryptBytes_parts key nonce _ _ hk hn ht' (by rw [hctl, h38]; exact hp)]
    split
    · rename_i htag
      exfalso
      apply hne
      rw [e2, ← htag, ← hs']
    · rfl

/-- C7 as amended, on the sample sealing of the byte 0 with the last byte of
its tag changed: it is rejected. -/
theorem tampered_sealed_rejected_or_genuine_witness :
    ((List.replicate 32 0 : List Byte).length = 32 ∧
      EncryptBytes (List.replicate 24 0) (List.replicate 32 0) [0] =
        some (sampleSealedZero, none) ∧
      sampleTampered.length = sampleSealedZero.length ∧
      sampleTampered ≠ sampleSealedZero ∧
      sampleTampered.take (sampleTampered.length - 16) =
        sampleSealedZero.take (sampleSealedZero.length - 16)) ∧
    DecryptBytes (List.replicate 32 0) sampleTampered =
      some ([], some (.wrap "failed to decrypt or authenticate data" .errOpen)) :=
  ⟨⟨by decide, encryptBytes_sample_zero, by decide, by decide, by decide⟩,
    (tampered_sealed_rejected_or_genuine (List.replicate 24 0) (List.replicate 32 0) [0]
      sampleSealedZero sampleTampered (by decide) encryptBytes_sample_zero (by decide)
      (by decide)).2.1 (by decide)⟩

end Vuya

/-! ## The data-key registry -/

namespace Vuya

namespace GoMap

theorem get_set_self {V : Type} (m : GoMap V) (k : GoString) (v : V) :
    (m.set k v).get k = some v := by
  induction m with
  | nil => simp [set, get]
  | cons e m ih =>
    obtain ⟨k', v'⟩ := e
    by_cases h : k' = k
    · simp [set, get, h]
    · simp [set, get, h, ih]

theorem get_set_of_ne {V : Type} (m : GoMap V) (k k2 : GoString) (v : V) (h : k ≠ k2) :
    (m.set k v).get k2 = m.get k2 := by
  induction m with
  | nil => simp [set, get, h]
  | cons e m ih =>
    obtain ⟨k', v'⟩ := e
    by_cases h1 : k' = k
    · subst h1
      simp [set, get, h]
    · by_cases h2 : k' = k2
      · subst h2
        simp [set, get, h1]
      · simp [set, get, h1, h2, ih]

theorem get_delete_self {V : Type} (m : GoMap V) (k : GoString) :
    (m.delete k).get k = none := by
  induction m with
  | nil => rfl
  | cons e m ih =>
    obtain ⟨k', v'⟩ := e
    by_cases h : k' = k
    · simp [delete, h, ih]
    · simp [delete, get, h, ih]

theorem get_delete_of_ne {V : Type} (m : GoMap V) (k k2 : GoString) (h : k ≠ k2) :
    (m.delete k).get k2 = m.get k2 := by
  induction m with
  | nil => rfl
  | cons e m ih =>
    obtain ⟨k', v'⟩ := e
    by_cases h1 : k' = k
    · subst h1
      simp [delete, get, h, ih]
    · by_cases h2 : k' = k2
      · subst h2
        simp [delete, get, h1]
      · simp [delete, get, h1, h2, ih]

end GoMap

/-- A record is read from a store that is not nil. -/
theorem store_of_record (s : EnvelopeService) (t : GoString) (info : DataKeyInfo)
    (h : s.record t = some info) :
    ∃ store, s.dataKeyStore = some store ∧ store.get t = some info := by
  unfold EnvelopeService.record at h
  split at h
  · exact absurd h (by simp)
  · rename_i store hs
    exact ⟨store, hs, h⟩

theorem record_of_store (s : EnvelopeService) (store : GoMap DataKeyInfo) (t : GoString)
    (h : s.dataKeyStore = some store) : s.record t = store.get t := by
  unfold EnvelopeService.record
  rw [h]

theorem record_of_nil (s : EnvelopeService) (t : GoString) (h : s.dataKeyStore = none) :
    s.record t = none := by
  unfold EnvelopeService.record
  rw [h]

/-- `CreateDataKey` on a tenant that has a record. -/
theorem createDataKey_of_present (env : Env) (w : World) (s : EnvelopeService)
    (t : GoString) (info : DataKeyInfo) (h : s.record t = some info) :
    CreateDataKey env w s t = some (.error .dataKeyExists, w, s) := by
  simp [CreateDataKey, h]

/-- What `CreateDataKey` does on a tenant without a record, by the answer of
the key service and by the store. -/
theorem createDataKey_of_absent (env : Env) (w : World) (s : EnvelopeService) (t : GoString)
    (h : s.record t = none) :
    (∀ out store, s.dataKeyStore = some store →
      env.generateDataKey w.tick.kmsCalls s.masterKeyID (createContext env w t) = .ok out →
      ∃ info w1 s1, CreateDataKey env w s t = some (.ok info, w1, s1) ∧
        info.EncryptionContext = createContext env w t ∧
        s1.dataKeyStore = some (store.set t info) ∧ s1.cache = s.cache) ∧
    (∀ out, s.dataKeyStore = none →
      env.generateDataKey w.tick.kmsCalls s.masterKeyID (createContext env w t) = .ok out →
      CreateDataKey env w s t = none) ∧
    (∀ err, env.generateDataKey w.tick.kmsCalls s.masterKeyID (createContext env w t) =
        .error err →
      CreateDataKey env w s t =
        some (.error (.wrap "failed to generate data key" err),
          w.tick.call (.generateDataKey s.masterKeyID (createContext env w t)
            "AES_256".toList), s)) := by
  refine ⟨?_, ?_, ?_⟩
  · intro out store hs hgen
    simp only [CreateDataKey, h, hgen, hs]
    exact ⟨_, _, _, rfl, rfl, rfl, rfl⟩
  · intro out hs hgen
    simp only [CreateDataKey, h, hgen, hs]
  · intro err hgen
    simp only [CreateDataKey, h, hgen]

/-- C8 fails on the code. On a new service `DeserializeDataKeyStore` of the
JSON text `null` returns nil and leaves the store the nil map: the registry
holds no record for `org1`. `CreateDataKey("org1")` then finds no record,
sends its request to the key service, which answers, and panics at the
assignment into the nil map: the two successive calls do not give success
followed by failure. -/
theorem create_panics_on_nil_store :
    DeserializeDataKeyStore (NewEnvelopeService "mk".toList) .null = (none, sampleNilStore) ∧
    sampleNilStore.dataKeyStore = none ∧
    sampleNilStore.record "org1".toList = none ∧
    (sampleEnv 9).generateDataKey [] "mk".toList
      (createContext (sampleEnv 9) ⟨[], 0⟩ "org1".toList) =
        .ok ⟨List.replicate 32 0, [200, 0]⟩ ∧
    CreateDataKey (sampleEnv 9) ⟨[], 0⟩ sampleNilStore "org1".toList = none ∧
    run (sampleEnv 9) [.deserialize .null, .create "org1".toList, .create "org1".toList]
      (⟨[], 0⟩, NewEnvelopeService "mk".toList) = none := by
  decide

/-- C8, amended: on every registry that holds a record for `t`,
`CreateDataKey(t)` returns the already-exists error and leaves the world (no
request is sent to the key service, the clock is not read), the record store
and the plaintext cache as they were. On a registry without `t`: when the
store is not the nil map and the key service answers, a first
`CreateDataKey(t)` succeeds and stores a record, and a second one returns the
already-exists error; when the store is the nil map and the key service
answers, the first call panics; when the key service fails, the first call
returns its error, having sent the one request, and leaves the registry as it
was. -/
theorem create_twice_rejected (env : Env) (w : World) (s : EnvelopeService) (t : GoString) :
    (∀ info, s.record t = some info →
      CreateDataKey env w s t = some (.error .dataKeyExists, w, s)) ∧
    (∀ out store, s.dataKeyStore = some store → s.record t = none →
      env.generateDataKey w.tick.kmsCalls s.masterKeyID (createContext env w t) = .ok out →
      ∃ info w1 s1, CreateDataKey env w s t = some (.ok info, w1, s1) ∧
        s1.record t = some info ∧
        CreateDataKey env w1 s1 t = some (.error .dataKeyExists, w1, s1)) ∧
    (∀ out, s.dataKeyStore = none →
      env.generateDataKey w.tick.kmsCalls s.masterKeyID (createContext env w t) = .ok out →
      s.record t = none ∧ CreateDataKey env w s t = none) ∧
    (∀ err, s.record t = none →
      env.generateDataKey w.tick.kmsCalls s.masterKeyID (createContext env w t) =
        .error err →
      CreateDataKey env w s t =
        some (.error (.wrap "failed to generate data key" err),
          w.tick.call (.generateDataKey s.masterKeyID (createContext env w t)
            "AES_256".toList), s)) := by
  refine ⟨fun info h => createDataKey_of_present env w s t info h, ?_, ?_, ?_⟩
  · intro out store hs hnone hgen
    obtain ⟨info, w1, s1, hc, -, hstore, -⟩ :=
      (createDataKey_of_absent env w s t hnone).1 out store hs hgen
    have hget : s1.record t = some info := by
      rw [record_of_store s1 _ t hstore]
      exact GoMap.get_set_self _ _ _
    exact ⟨info, w1, s1, hc, hget, createDataKey_of_present env w1 s1 t info hget⟩
  · intro out hs hgen
    have hnone := record_of_nil s t hs
    exact ⟨hnone, (createDataKey_of_absent env w s t hnone).2.1 out hs hgen⟩
  · intro err hnone hgen
    exact (createDataKey_of_absent env w s t hnone).2.2 err hgen

/-- C8, amended, in the sample environment: a second `CreateDataKey("org1")`
is rejected and changes nothing, after a first one that succeeded on a new
service. -/
theorem create_twice_rejected_witness :
    (NewEnvelopeService "mk".toList).dataKeyStore = some [] ∧
    (NewEnvelopeService "mk".toList).record "org1".toList = none ∧
    CreateDataKey (sampleEnv 1) ⟨[], 0⟩ (NewEnvelopeService "mk".toList) "org1".toList =
      some (.ok sampleRecord, sampleRegistry.1, sampleRegistry.2) ∧
    sampleRegistry.2.record "org1".toList = some sampleRecord ∧
    CreateDataKey (sampleEnv 1) sampleRegistry.1 sampleRegistry.2 "org1".toList =
      some (.error .dataKeyExists, sampleRegistry.1, sampleRegistry.2) :=
  ⟨by decide, by decide, by decide, by decide,
    (create_twice_rejected (sampleEnv 1) sampleRegistry.1 sampleRegistry.2 "org1".toList).1
      sampleRecord (by decide)⟩

/-- What a successful `RotateDataKey` did. -/
theorem rotateDataKey_eq_ok (env : Env) (w w' : World) (s s' : EnvelopeService)
    (t : GoString) (info r : DataKeyInfo)
    (hrec : s.record t = some info)
    (hrot : RotateDataKey env w s t = some (.ok r, w', s')) :
    ∃ store context out,
      s.dataKeyStore = some store ∧
      info.EncryptionContext = some context ∧
      env.generateDataKey w.tick.kmsCalls s.masterKeyID
        (some (context.set "rotated_at".toList (env.rfc3339 (env.clock w.ticks)))) =
          .ok out ∧
      r = { info with
            EncryptedDataKey := Base64.encodeToString Base64.stdPadding out.CiphertextBlob
            LastRotatedAt := env.clock w.tick.ticks
            EncryptionContext :=
              some (context.set "rotated_at".toList (env.rfc3339 (env.clock w.ticks))) } ∧
      s'.masterKeyID = s.masterKeyID ∧
      s'.dataKeyStore =
        some ((store.set t { info with
          EncryptionContext :=
            some (context.set "rotated_at".toList (env.rfc3339 (env.clock w.ticks))) }).set
          t r) ∧
      s'.cache = s.cache.delete t := by
  obtain ⟨store, hs, hget⟩ := store_of_record s t info hrec
  unfold RotateDataKey at hrot
  rw [hs] at hrot
  dsimp only at hrot
  rw [hget] at hrot
  dsimp only at hrot
  split at hrot
  · exact absurd hrot (by simp)
  · rename_i context hctx
    split at hrot
    · exact absurd hrot (by simp)
    · rename_i out hgen
      simp only [Option.some.injEq, Prod.mk.injEq, Except.ok.injEq] at hrot
      obtain ⟨hr, -, hs'⟩ := hrot
      subst hs'
      refine ⟨store, context, out, hs, hctx, hgen, ?_, rfl, ?_, rfl⟩
      · rw [← hr]
        rfl
      · rw [← hr]

/-- C9: on every registry that holds a record for `t`, a successful
`RotateDataKey(t)` leaves as `t`'s record the one it returns, whose wrapped
key is the newly minted one and whose context is the old one with
`rotated_at` set, and leaves no cached plaintext for `t`; the next
`FetchDataKey(t)` then sends the key service a `Decrypt` of the new wrapped
key under the record's updated context, and returns what the key service
answers. -/
theorem rotate_then_fetch_unwraps_new_key (env : Env) (w w' : World)
    (s s' : EnvelopeService) (t : GoString) (info r : DataKeyInfo)
    (hrec : s.record t = some info)
    (hrot : RotateDataKey env w s t = some (.ok r, w', s')) :
    ∃ context out,
      info.EncryptionContext = some context ∧
      env.generateDataKey w.tick.kmsCalls s.masterKeyID
        (some (context.set "rotated_at".toList (env.rfc3339 (env.clock w.ticks)))) =
          .ok out ∧
      s'.record t = some r ∧
      r.EncryptedDataKey = Base64.encodeToString Base64.stdPadding out.CiphertextBlob ∧
      r.EncryptionContext =
        some (context.set "rotated_at".toList (env.rfc3339 (env.clock w.ticks))) ∧
      s'.cache.get t = none ∧
      FetchDataKey env w' s' t =
        match env.decrypt w'.kmsCalls out.CiphertextBlob r.EncryptionContext
            s'.masterKeyID with
        | .error err =>
          (.error (.wrap "failed to decrypt data key" err),
            w'.call (.decrypt out.CiphertextBlob r.EncryptionContext s'.masterKeyID), s')
        | .ok plaintext =>
          (.ok plaintext,
            w'.call (.decrypt out.CiphertextBlob r.EncryptionContext s'.masterKeyID),
            { s' with cache := s'.cache.set t plaintext }) := by
  obtain ⟨store, context, out, -, hctx, hgen, hr, -, hstore, hcache⟩ :=
    rotateDataKey_eq_ok env w w' s s' t info r hrec hrot
  have hget : s'.record t = some r := by
    rw [record_of_store s' _ t hstore]
    exact GoMap.get_set_self _ _ _
  have hnone : s'.cache.get t = none := by
    rw [hcache]
    exact GoMap.get_delete_self _ _
  have hkey : r.EncryptedDataKey =
      Base64.encodeToString Base64.stdPadding out.CiphertextBlob := by
    rw [hr]
  have hrctx : r.EncryptionContext =
      some (context.set "rotated_at".toList (env.rfc3339 (env.clock w.ticks))) := by
    rw [hr]
  refine ⟨context, out, hctx, hgen, hget, hkey, hrctx, hnone, ?_⟩
  unfold FetchDataKey
  simp only [hnone, hget, hkey, Base64.decodeString_encodeToString_std]

/-- C9, in the sample environment: `org1`'s key is fetched, and so cached,
then rotated; the next fetch unwraps the new wrapped key. -/
theorem rotate_then_fetch_unwraps_new_key_witness :
    (sampleFetched.2.record "org1".toList = some sampleRecord ∧
      sampleFetched.2.cache.get "org1".toList = some (List.replicate 32 0) ∧
      RotateDataKey (sampleEnv 9) sampleFetched.1 sampleFetched.2 "org1".toList =
        some (.ok sampleRotatedRecord, sampleRotated.1, sampleRotated.2) ∧
      FetchDataKey (sampleEnv 9) sampleRotated.1 sampleRotated.2 "org1".toList =
        (.ok (List.replicate 32 2),
          sampleRotated.1.call (.decrypt [200, 2] sampleRotatedRecord.EncryptionContext
            "mk".toList),
          { sampleRotated.2 with
            cache := sampleRotated.2.cache.set "org1".toList (List.replicate 32 2) })) ∧
    ∃ (context : GoMap GoString) (out : GenerateDataKeyOutput),
      sampleRecord.EncryptionContext = some context ∧
      (sampleEnv 9).generateDataKey sampleFetched.1.tick.kmsCalls sampleFetched.2.masterKeyID
        (some (context.set "rotated_at".toList
          ((sampleEnv 9).rfc3339 ((sampleEnv 9).clock sampleFetched.1.ticks)))) = .ok out ∧
      sampleRotated.2.record "org1".toList = some sampleRotatedRecord ∧
      sampleRotatedRecord.EncryptedDataKey =
        Base64.encodeToString Base64.stdPadding out.CiphertextBlob ∧
      sampleRotatedRecord.EncryptionContext =
        some (context.set "rotated_at".toList
          ((sampleEnv 9).rfc3339 ((sampleEnv 9).clock sampleFetched.1.ticks))) ∧
      sampleRotated.2.cache.get "org1".toList = none ∧
      FetchDataKey (sampleEnv 9) sampleRotated.1 sampleRotated.2 "org1".toList =
        match (sampleEnv 9).decrypt sampleRotated.1.kmsCalls out.CiphertextBlob
            sampleRotatedRecord.EncryptionContext sampleRotated.2.masterKeyID with
        | .error err =>
          (.error (.wrap "failed to decrypt data key" err),
            sampleRotated.1.call (.decrypt out.CiphertextBlob
              sampleRotatedRecord.EncryptionContext sampleRotated.2.masterKeyID),
            sampleRotated.2)
        | .ok plaintext =>
          (.ok plaintext,
            sampleRotated.1.call (.decrypt out.CiphertextBlob
              sampleRotatedRecord.EncryptionContext sampleRotated.2.masterKeyID),
            { sampleRotated.2 with
              cache := sampleRotated.2.cache.set "org1".toList plaintext }) :=
  ⟨⟨by decide, by decide, by decide, by decide⟩,
    rotate_then_fetch_unwraps_new_key (sampleEnv 9) sampleFetched.1 sampleRotated.1
      sampleFetched.2 sampleRotated.2 "org1".toList sampleRecord sampleRotatedRecord
      (by decide) (by decide)⟩

/-- C10 fails on the code. In the sample environment `org1` has a record whose
key unwraps; the key service then fails the `GenerateDataKey` of
`RotateDataKey("org1")`. The record keeps its wrapped key and `LastRotatedAt`
and the cache is as it was, but the record's context has gained `rotated_at`,
and the next `FetchDataKey("org1")` sends the old wrapped key under that
context, which the key service refuses. -/
theorem rotate_failure_leaves_rotated_at :
    sampleRegistry.2.record "org1".toList = some sampleRecord ∧
    (FetchDataKey (sampleEnv 1) sampleRegistry.1 sampleRegistry.2 "org1".toList).1 =
      .ok (List.replicate 32 0) ∧
    RotateDataKey (sampleEnv 1) sampleRegistry.1 sampleRegistry.2 "org1".toList =
      some (.error (.wrap "failed to generate new data key" (.kms 1)),
        sampleAfterFailure.1, sampleAfterFailure.2) ∧
    sampleAfterFailure.2.record "org1".toList =
      some { sampleRecord with
        EncryptionContext := some [("organization_id".toList, "org1".toList),
          ("created_at".toList, "t1700000000".toList),
          ("rotated_at".toList, "t1700000002".toList)] } ∧
    sampleAfterFailure.2.cache = sampleRegistry.2.cache ∧
    FetchDataKey (sampleEnv 1) sampleAfterFailure.1 sampleAfterFailure.2 "org1".toList =
      (.error (.wrap "failed to decrypt data key" (.kms 2)),
        sampleAfterFailure.1.call (.decrypt [200, 0]
          (some [("organization_id".toList, "org1".toList),
            ("created_at".toList, "t1700000000".toList),
            ("rotated_at".toList, "t1700000002".toList)]) "mk".toList),
        sampleAfterFailure.2) := by
  decide

end Vuya

/-! ## The registry as a state machine -/

namespace Vuya

namespace GoMap

theorem delete_of_get_none {V : Type} (m : GoMap V) (k : GoString) (h : m.get k = none) :
    m.delete k = m := by
  induction m with
  | nil => rfl
  | cons e m ih =>
    obtain ⟨k', v'⟩ := e
    by_cases h1 : k' = k
    · simp [get, h1] at h
    · simp only [get, h1, if_false] at h
      simp [delete, h1, ih h]

theorem delete_delete {V : Type} (m : GoMap V) (k : GoString) :
    (m.delete k).delete k = m.delete k :=
  delete_of_get_none _ _ (get_delete_self m k)

end GoMap

/-- `CreateDataKey` never touches the cache, and leaves a store that is not
nil. -/
theorem createDataKey_cache (env : Env) (w : World) (s : EnvelopeService) (u : GoString)
    (r : Except Error DataKeyInfo × World × EnvelopeService)
    (h : CreateDataKey env w s u = some r) :
    r.2.2.cache = s.cache ∧ (s.dataKeyStore ≠ none → r.2.2.dataKeyStore ≠ none) := by
  unfold CreateDataKey at h
  split at h
  · simp only [Option.some.injEq] at h
    subst h
    exact ⟨rfl, fun hs => hs⟩
  · dsimp only at h
    split at h
    · simp only [Option.some.injEq] at h
      subst h
      exact ⟨rfl, fun hs => hs⟩
    · split at h
      · exact absurd h (by simp)
      · simp only [Option.some.injEq] at h
        subst h
        exact ⟨rfl, fun _ => by simp⟩

/-- `CreateDataKey` does not panic on a store that is not nil. -/
theorem createDataKey_of_store (env : Env) (w : World) (s : EnvelopeService) (u : GoString)
    (hs : s.dataKeyStore ≠ none) : ∃ r, CreateDataKey env w s u = some r := by
  unfold CreateDataKey
  split
  · exact ⟨_, rfl⟩
  · dsimp only
    split
    · exact ⟨_, rfl⟩
    · split
      · rename_i hnil
        exact absurd hnil hs
      · exact ⟨_, rfl⟩

/-- `FetchDataKey` never touches the store. -/
theorem fetchDataKey_store (env : Env) (w : World) (s : EnvelopeService) (u : GoString) :
    (FetchDataKey env w s u).2.2.dataKeyStore = s.dataKeyStore := by
  unfold FetchDataKey
  split
  · rfl
  · split
    · rfl
    · split
      · rfl
      · dsimp only
        split <;> rfl

/-- A cached key is what `FetchDataKey` returns, with no request sent. -/
theorem fetchDataKey_of_cached (env : Env) (w : World) (s : EnvelopeService) (t : GoString)
    (key : List Byte) (h : s.cache.get t = some key) :
    FetchDataKey env w s t = (.ok key, w, s) := by
  simp [FetchDataKey, h]

/-- After a `FetchDataKey` that succeeded the key is cached, and at most one
request was sent. -/
theorem fetchDataKey_ok (env : Env) (w w1 : World) (s s1 : EnvelopeService) (t : GoString)
    (key : List Byte) (h : FetchDataKey env w s t = (.ok key, w1, s1)) :
    s1.cache.get t = some key ∧
    (w1 = w ∨ ∃ blob context, w1 = w.call (.decrypt blob context s.masterKeyID)) := by
  unfold FetchDataKey at h
  split at h
  · rename_i plaintextKey hc
    simp only [Prod.mk.injEq, Except.ok.injEq] at h
    obtain ⟨hk, hw, hs⟩ := h
    subst hk hw hs
    exact ⟨hc, Or.inl rfl⟩
  · split at h
    · simp at h
    · split at h
      · simp at h
      · dsimp only at h
        split at h
        · simp at h
        · simp only [Prod.mk.injEq, Except.ok.injEq] at h
          obtain ⟨hk, hw, hs⟩ := h
          subst hk hw hs
          exact ⟨GoMap.get_set_self _ _ _, Or.inr ⟨_, _, rfl⟩⟩

/-- A `FetchDataKey` of any tenant keeps the cached key of `t`. -/
theorem fetchDataKey_keeps_cached (env : Env) (w : World) (s : EnvelopeService)
    (t u : GoString) (key : List Byte) (h : s.cache.get t = some key) :
    (FetchDataKey env w s u).2.2.cache.get t = some key := by
  by_cases hu : u = t
  · subst hu
    rw [fetchDataKey_of_cached env w s u key h]
    exact h
  · unfold FetchDataKey
    split
    · exact h
    · split
      · exact h
      · split
        · exact h
        · dsimp only
          split
          · exact h
          · dsimp only
            rw [GoMap.get_set_of_ne _ _ _ _ hu]
            exact h

/-- A run of calls that are neither a rotation, nor a deletion, nor an import
keeps the cached key of `t`, when it does not panic. -/
theorem run_quiet_keeps_cached (env : Env) (t : GoString) (key : List Byte) :
    ∀ (ops : List Op) (st st2 : World × EnvelopeService),
      (∀ op ∈ ops, op.isQuiet = true) → st.2.cache.get t = some key →
      run env ops st = some st2 → st2.2.cache.get t = some key := by
  intro ops
  induction ops with
  | nil =>
    intro st st2 _ h hrun
    simp only [run, Option.some.injEq] at hrun
    subst hrun
    exact h
  | cons op ops ih =>
    intro st st2 hq h hrun
    obtain ⟨w, s⟩ := st
    have hop : op.isQuiet = true := hq op (List.mem_cons_self _ _)
    have hrest : ∀ o ∈ ops, o.isQuiet = true := fun o ho => hq o (List.mem_cons_of_mem _ ho)
    cases op with
    | create u =>
      simp only [run, Op.apply] at hrun
      cases hc : CreateDataKey env w s u with
      | none =>
        rw [hc] at hrun
        exact absurd hrun (by simp)
      | some r =>
        rw [hc] at hrun
        simp only [Option.map_some', Option.some_bind] at hrun
        have hcache : r.2.2.cache.get t = some key := by
          rw [(createDataKey_cache env w s u r hc).1]
          exact h
        exact ih r.2 st2 hrest hcache hrun
    | fetch u =>
      simp only [run, Op.apply, Option.some_bind] at hrun
      exact ih (FetchDataKey env w s u).2 st2 hrest
        (fetchDataKey_keeps_cached env w s t u key h) hrun
    | rotate u => simp [Op.isQuiet] at hop
    | delete u => simp [Op.isQuiet] at hop
    | deserialize doc => simp [Op.isQuiet] at hop

/-- A run of calls that are neither a rotation, nor a deletion, nor an import
does not panic on a store that is not nil. -/
theorem run_quiet_of_store (env : Env) :
    ∀ (ops : List Op) (st : World × EnvelopeService),
      (∀ op ∈ ops, op.isQuiet = true) → st.2.dataKeyStore ≠ none →
      ∃ st2, run env ops st = some st2 := by
  intro ops
  induction ops with
  | nil => intro st _ _; exact ⟨st, rfl⟩
  | cons op ops ih =>
    intro st hq hs
    obtain ⟨w, s⟩ := st
    have hop : op.isQuiet = true := hq op (List.mem_cons_self _ _)
    have hrest : ∀ o ∈ ops, o.isQuiet = true := fun o ho => hq o (List.mem_cons_of_mem _ ho)
    cases op with
    | create u =>
      obtain ⟨r, hc⟩ := createDataKey_of_store env w s u hs
      obtain ⟨st2, hrun⟩ := ih r.2 hrest ((createDataKey_cache env w s u r hc).2 hs)
      refine ⟨st2, ?_⟩
      simp only [run, Op.apply, hc, Option.map_some', Option.some_bind]
      exact hrun
    | fetch u =>
      have hs2 : (FetchDataKey env w s u).2.2.dataKeyStore ≠ none := by
        rw [fetchDataKey_store]
        exact hs
      obtain ⟨st2, hrun⟩ := ih (FetchDataKey env w s u).2 hrest hs2
      refine ⟨st2, ?_⟩
      simp only [run, Op.apply, Option.some_bind]
      exact hrun
    | rotate u => simp [Op.isQuiet] at hop
    | delete u => simp [Op.isQuiet] at hop
    | deserialize doc => simp [Op.isQuiet] at hop

/-- Repeated fetches of a cached key change nothing. -/
theorem run_fetch_cached (env : Env) (w : World) (s : EnvelopeService) (t : GoString)
    (key : List Byte) (h : s.cache.get t = some key) :
    ∀ n, run env (List.replicate n (.fetch t)) (w, s) = some (w, s) := by
  intro n
  induction n with
  | zero => rfl
  | succ n ih =>
    simp only [List.replicate_succ, run, Op.apply, fetchDataKey_of_cached env w s t key h,
      Option.some_bind]
    exact ih

/-- The context that `CreateDataKey` builds carries no `rotated_at`. -/
theorem createContext_not_rotated (env : Env) (w : World) (t : GoString) :
    ∃ context, createContext env w t = some context ∧
      context.get "rotated_at".toList = none := by
  refine ⟨_, rfl, ?_⟩
  simp [GoMap.set, GoMap.get]

/-- The state of a tenant that was just given the record `info`. -/
theorem tenantState_set (s1 : EnvelopeService) (store : GoMap DataKeyInfo) (t : GoString)
    (info : DataKeyInfo) (h : s1.dataKeyStore = some (store.set t info)) :
    tenantState s1 t =
      match info.EncryptionContext with
      | none => .active
      | some context =>
        match context.get "rotated_at".toList with
        | none => .active
        | some _ => .rotated := by
  unfold tenantState
  rw [record_of_store s1 _ t h, GoMap.get_set_self]

theorem deleteDataKey_record (s : EnvelopeService) (t u : GoString) :
    (DeleteDataKey s t).record u = if u = t then none else s.record u := by
  unfold DeleteDataKey EnvelopeService.record
  cases hs : s.dataKeyStore with
  | none =>
    dsimp only [Option.map]
    split <;> rfl
  | some store =>
    dsimp only [Option.map]
    by_cases hu : u = t
    · subst hu
      rw [if_pos rfl]
      exact GoMap.get_delete_self _ _
    · rw [if_neg hu]
      exact GoMap.get_delete_of_ne _ _ _ (Ne.symm hu)

/-- C15: for every registry state and tenant `t`, `DeleteDataKey(t)` leaves
neither a record nor a cached plaintext key for `t`, and leaves the record and
the cache entry of every other tenant as they were; applied twice it gives the
state it gives applied once; applied when `t` has neither record nor cached
key it leaves the state unchanged. The function has no result: there is no
error to report. -/
theorem delete_removes_and_is_idempotent (s : EnvelopeService) (t : GoString) :
    (DeleteDataKey s t).record t = none ∧
    (DeleteDataKey s t).cache.get t = none ∧
    (∀ u, u ≠ t →
      (DeleteDataKey s t).record u = s.record u ∧
      (DeleteDataKey s t).cache.get u = s.cache.get u) ∧
    (DeleteDataKey s t).masterKeyID = s.masterKeyID ∧
    DeleteDataKey (DeleteDataKey s t) t = DeleteDataKey s t ∧
    (s.record t = none → s.cache.get t = none → DeleteDataKey s t = s) := by
  refine ⟨?_, GoMap.get_delete_self _ _, ?_, rfl, ?_, ?_⟩
  · rw [deleteDataKey_record, if_pos rfl]
  · intro u hu
    refine ⟨?_, GoMap.get_delete_of_ne _ _ _ (Ne.symm hu)⟩
    rw [deleteDataKey_record, if_neg hu]
  · unfold DeleteDataKey
    cases hs : s.dataKeyStore with
    | none => simp only [Option.map, GoMap.delete_delete]
    | some store => simp only [Option.map, GoMap.delete_delete]
  · intro h1 h2
    unfold DeleteDataKey
    unfold EnvelopeService.record at h1
    cases hs : s.dataKeyStore with
    | none =>
      simp only [Option.map, GoMap.delete_of_get_none _ _ h2]
      cases s
      simp only at hs
      subst hs
      rfl
    | some store =>
      rw [hs] at h1
      simp only [Option.map, GoMap.delete_of_get_none _ _ h1, GoMap.delete_of_get_none _ _ h2]
      cases s
      simp only at hs
      subst hs
      rfl

/-- C15, in the sample registry: `org1` has a record and is deleted; `org2`
has none, and its deletion changes nothing. -/
theorem delete_removes_and_is_idempotent_witness :
    sampleRegistry.2.record "org1".toList = some sampleRecord ∧
    (DeleteDataKey sampleRegistry.2 "org1".toList).record "org1".toList = none ∧
    sampleRegistry.2.record "org2".toList = none ∧
    sampleRegistry.2.cache.get "org2".toList = none ∧
    DeleteDataKey sampleRegistry.2 "org2".toList = sampleRegistry.2 :=
  ⟨by decide,
    (delete_removes_and_is_idempotent sampleRegistry.2 "org1".toList).1,
    by decide, by decide,
    (delete_removes_and_is_idempotent sampleRegistry.2 "org2".toList).2.2.2.2.2
      (by decide) (by decide)⟩

/-- C13 fails on the code: `org1` is created, then deleted, and a
`CreateDataKey("org1")` after the deletion succeeds and installs a record:
`org1` is `Active` again. -/
theorem create_after_delete_installs_record :
    tenantState sampleRegistry.2 "org1".toList = .active ∧
    sampleDeleted.2 = DeleteDataKey sampleRegistry.2 "org1".toList ∧
    tenantState sampleDeleted.2 "org1".toList = .absent ∧
    (CreateDataKey (sampleEnv 9) sampleDeleted.1 sampleDeleted.2 "org1".toList).map
      (fun r => r.1) = some (.ok sampleRecreatedRecord) ∧
    (CreateDataKey (sampleEnv 9) sampleDeleted.1 sampleDeleted.2 "org1".toList).map
      (fun r => r.2.2.record "org1".toList) = some (some sampleRecreatedRecord) ∧
    (CreateDataKey (sampleEnv 9) sampleDeleted.1 sampleDeleted.2 "org1".toList).map
      (fun r => tenantState r.2.2 "org1".toList) = some .active ∧
    (run (sampleEnv 9) [.create "org1".toList, .delete "org1".toList, .create "org1".toList]
      (⟨[], 0⟩, NewEnvelopeService "mk".toList)).map
        (fun st => st.2.record "org1".toList) =
      some (some sampleRecreatedRecord) := by
  decide

/-- C13, amended: per tenant the state moves from `Absent` to `Active` by a
`CreateDataKey` and to `Rotated` by a successful `RotateDataKey`, a
`CreateDataKey` on a tenant that has a record and a `FetchDataKey` leave it
where it is, and `DeleteDataKey(t)` takes `t` back to `Absent`, with no cached
key: the registry keeps no trace of a deletion. A `CreateDataKey(t)` after it,
on a store that is not the nil map, installs a record, `t` being `Active`
again, when the key service answers; it leaves `t` `Absent` when the key
service fails; and on the nil map, which the deletion leaves nil, it panics
when the key service answers. -/
theorem delete_returns_tenant_to_absent (env : Env) (w : World) (s : EnvelopeService)
    (t : GoString) :
    tenantState (DeleteDataKey s t) t = .absent ∧
    (DeleteDataKey s t).cache.get t = none ∧
    (∀ out, s.dataKeyStore ≠ none →
      env.generateDataKey w.tick.kmsCalls s.masterKeyID (createContext env w t) = .ok out →
      ∃ info w1 s1, CreateDataKey env w (DeleteDataKey s t) t = some (.ok info, w1, s1) ∧
        s1.record t = some info ∧ tenantState s1 t = .active) ∧
    (∀ out, s.dataKeyStore = none →
      env.generateDataKey w.tick.kmsCalls s.masterKeyID (createContext env w t) = .ok out →
      (DeleteDataKey s t).dataKeyStore = none ∧
      CreateDataKey env w (DeleteDataKey s t) t = none) ∧
    (∀ err, env.generateDataKey w.tick.kmsCalls s.masterKeyID (createContext env w t) =
        .error err →
      ∃ r, CreateDataKey env w (DeleteDataKey s t) t = some r ∧
        tenantState r.2.2 t = .absent) ∧
    (∀ info, s.record t = some info →
      CreateDataKey env w s t = some (.error .dataKeyExists, w, s)) ∧
    (∀ u, tenantState (FetchDataKey env w s u).2.2 t = tenantState s t) ∧
    (∀ info r w1 s1, s.record t = some info →
      RotateDataKey env w s t = some (.ok r, w1, s1) → tenantState s1 t = .rotated) := by
  have habs : (DeleteDataKey s t).record t = none := by
    rw [deleteDataKey_record, if_pos rfl]
  have hstate : tenantState (DeleteDataKey s t) t = .absent := by
    unfold tenantState
    rw [habs]
  refine ⟨hstate, GoMap.get_delete_self _ _, ?_, ?_, ?_, ?_, ?_, ?_⟩
  · intro out hs hgen
    obtain ⟨store, hstore0⟩ := Option.ne_none_iff_exists'.mp hs
    have hds : (DeleteDataKey s t).dataKeyStore = some (store.delete t) := by
      unfold DeleteDataKey
      rw [hstore0]
      rfl
    obtain ⟨info, w1, s1, hc, hctx, hstore, -⟩ :=
      (createDataKey_of_absent env w (DeleteDataKey s t) t habs).1 out _ hds hgen
    refine ⟨info, w1, s1, hc, ?_, ?_⟩
    · rw [record_of_store s1 _ t hstore]
      exact GoMap.get_set_self _ _ _
    · obtain ⟨context, hcc, hnone⟩ := createContext_not_rotated env w t
      rw [tenantState_set s1 _ t info hstore, hctx, hcc]
      simp only [hnone]
  · intro out hs hgen
    have hds : (DeleteDataKey s t).dataKeyStore = none := by
      unfold DeleteDataKey
      rw [hs]
      rfl
    exact ⟨hds, (createDataKey_of_absent env w (DeleteDataKey s t) t habs).2.1 out hds hgen⟩
  · intro err hgen
    exact ⟨_, (createDataKey_of_absent env w (DeleteDataKey s t) t habs).2.2 err hgen, hstate⟩
  · intro info h
    exact createDataKey_of_present env w s t info h
  · intro u
    unfold tenantState EnvelopeService.record
    rw [fetchDataKey_store]
  · intro info r w1 s1 hrec hrot
    obtain ⟨store, context, out, -, -, -, hr, -, hstore, -⟩ :=
      rotateDataKey_eq_ok env w w1 s s1 t info r hrec hrot
    unfold tenantState
    rw [record_of_store s1 _ t hstore, GoMap.get_set_self, hr]
    simp only [GoMap.get_set_self]

/-- C13, amended, in the sample registry: `org1` is deleted and created
again. -/
theorem delete_returns_tenant_to_absent_witness :
    sampleRegistry.2.dataKeyStore ≠ none ∧
    (sampleEnv 9).generateDataKey sampleRegistry.1.tick.kmsCalls sampleRegistry.2.masterKeyID
      (createContext (sampleEnv 9) sampleRegistry.1 "org1".toList) =
        .ok ⟨List.replicate 32 1, [200, 1]⟩ ∧
    ∃ info w1 s1,
      CreateDataKey (sampleEnv 9) sampleRegistry.1
        (DeleteDataKey sampleRegistry.2 "org1".toList) "org1".toList =
          some (.ok info, w1, s1) ∧
      s1.record "org1".toList = some info ∧
      tenantState s1 "org1".toList = .active :=
  ⟨by decide, by decide,
    (delete_returns_tenant_to_absent (sampleEnv 9) sampleRegistry.1 sampleRegistry.2
      "org1".toList).2.2.1 ⟨List.replicate 32 1, [200, 1]⟩ (by decide) (by decide)⟩

/-- C14: after a `FetchDataKey(t)` that succeeded, having sent the key service
at most one request, every later `FetchDataKey(t)`, after any run of calls
that are neither a rotation, nor a deletion, nor an import, returns the same
plaintext key and leaves the world as it is: no request is sent to the key
service. (Such a run ends without a panic whenever the store is not the nil
map.) Any number of fetches of `t` in a row after the first leave the world
and the service as the first left them, so that over all of them the key
service was asked at most once. -/
theorem fetch_after_fetch_hits_cache (env : Env) (w w1 : World) (s s1 : EnvelopeService)
    (t : GoString) (key : List Byte)
    (h : FetchDataKey env w s t = (.ok key, w1, s1)) :
    (w1 = w ∨ ∃ blob context, w1 = w.call (.decrypt blob context s.masterKeyID)) ∧
    (∀ ops, (∀ op ∈ ops, op.isQuiet = true) →
      (∀ st, run env ops (w1, s1) = some st →
        FetchDataKey env st.1 st.2 t = (.ok key, st.1, st.2)) ∧
      (s1.dataKeyStore ≠ none → ∃ st, run env ops (w1, s1) = some st)) ∧
    (∀ n, run env (List.replicate n (.fetch t)) (w1, s1) = some (w1, s1)) := by
  obtain ⟨hc, hw⟩ := fetchDataKey_ok env w w1 s s1 t key h
  refine ⟨hw, ?_, run_fetch_cached env w1 s1 t key hc⟩
  intro ops hq
  refine ⟨?_, fun hs => run_quiet_of_store env ops (w1, s1) hq hs⟩
  intro st hrun
  exact fetchDataKey_of_cached env st.1 st.2 t key
    (run_quiet_keeps_cached env t key ops (w1, s1) st hq hc hrun)

/-- C14, in the sample registry: `org1`'s key is fetched, which asks the key
service once; `org2` is then created and `org1` fetched again. -/
theorem fetch_after_fetch_hits_cache_witness :
    FetchDataKey (sampleEnv 9) sampleRegistry.1 sampleRegistry.2 "org1".toList =
      (.ok (List.replicate 32 0), sampleFetched.1, sampleFetched.2) ∧
    sampleFetched.1.kmsCalls.length = sampleRegistry.1.kmsCalls.length + 1 ∧
    (∃ st, run (sampleEnv 9) [.create "org2".toList, .fetch "org1".toList]
        (sampleFetched.1, sampleFetched.2) = some st) ∧
    ∀ st, run (sampleEnv 9) [.create "org2".toList, .fetch "org1".toList]
        (sampleFetched.1, sampleFetched.2) = some st →
      FetchDataKey (sampleEnv 9) st.1 st.2 "org1".toList =
        (.ok (List.replicate 32 0), st.1, st.2) :=
  ⟨by decide, by decide,
    ((fetch_after_fetch_hits_cache (sampleEnv 9) sampleRegistry.1 sampleFetched.1
      sampleRegistry.2 sampleFetched.2 "org1".toList (List.replicate 32 0) (by decide)).2.1
      [.create "org2".toList, .fetch "org1".toList] (by decide)).2 (by decide),
    ((fetch_after_fetch_hits_cache (sampleEnv 9) sampleRegistry.1 sampleFetched.1
      sampleRegistry.2 sampleFetched.2 "org1".toList (List.replicate 32 0) (by decide)).2.1
      [.create "org2".toList, .fetch "org1".toList] (by decide)).1⟩

/-- C12 fails on the code: the registry holds a record for `org1`; a snapshot
that names `org2` only is imported, and the call returns nil; the store then
holds `org2`'s record as the snapshot describes it, and still holds `org1`'s
record. -/
theorem deserialize_keeps_unnamed_tenants :
    sampleRegistry.2.record "org1".toList = some sampleRecord ∧
    sampleSnapshot.map Prod.fst = ["org2".toList] ∧
    (DeserializeDataKeyStore sampleRegistry.2 (.object sampleSnapshot)).1 = none ∧
    (DeserializeDataKeyStore sampleRegistry.2 (.object sampleSnapshot)).2.record
      "org2".toList = sampleSnapshot.lookup "org2".toList ∧
    (DeserializeDataKeyStore sampleRegistry.2 (.object sampleSnapshot)).2.record
      "org1".toList = some sampleRecord ∧
    (DeserializeDataKeyStore sampleRegistry.2 (.object sampleSnapshot)).2.dataKeyStore.map
      List.length = some 2 := by
  decide

/-- C11 fails on the code. `org1`'s key is created and the store exported, the
key is rotated and fetched, so that the plaintext of the rotated key is
cached, and the exported snapshot is imported. The store then holds the record
of the snapshot, whose wrapped key the key service unwraps, under the record's
context, to the first plaintext key, while the cache still holds the plaintext
of the rotated key, which `FetchDataKey` returns. -/
theorem import_leaves_stale_cached_key :
    run (sampleEnv 9) sampleRestoreRun (⟨[], 0⟩, NewEnvelopeService "mk".toList) =
      some sampleRestored ∧
    sampleRestored.2.record "org1".toList = some sampleRecord ∧
    Base64.decodeString Base64.stdPadding sampleRecord.EncryptedDataKey = .ok [200, 0] ∧
    (sampleEnv 9).decrypt sampleRestored.1.kmsCalls [200, 0] sampleRecord.EncryptionContext
      sampleRestored.2.masterKeyID = .ok (List.replicate 32 0) ∧
    sampleRestored.2.cache.get "org1".toList = some (List.replicate 32 1) ∧
    (FetchDataKey (sampleEnv 9) sampleRestored.1 sampleRestored.2 "org1".toList).1 =
      .ok (List.replicate 32 1) ∧
    (FetchDataKey (sampleEnv 9) sampleRestored.1
      { sampleRestored.2 with cache := [] } "org1".toList).1 = .ok (List.replicate 32 0) := by
  decide

end Vuya

/-! ## The envelope service -/

namespace Vuya

namespace AES

theorem encrypt_length (b : Block) (src : List Byte) : (b.Encrypt src).length = 16 := by
  simp [Block.Encrypt, cipher, addRoundKey]

/-- `aes.NewCipher` accepts the keys of 16, 24 and 32 bytes, and no other. -/
theorem newCipher_eq (key : List Byte) :
    NewCipher key =
      if key.length = 16 ∨ key.length = 24 ∨ key.length = 32 then .ok ⟨key⟩
      else .error (.aesKeySize key.length) := rfl

end AES

namespace GCM

theorem beBytes_length (n : Nat) : ∀ v, (beBytes n v).length = n := by
  induction n with
  | zero => intro v; rfl
  | succ n ih => intro v; simp [beBytes, ih]

theorem ctr_keyStream_length (b : AES.Block) (nonce : List Byte) (n : Nat) :
    ∀ counter, (keyStream b nonce counter n).length = 16 * n := by
  induction n with
  | zero => intro counter; rfl
  | succ n ih =>
    intro counter
    simp only [keyStream, List.length_append, AES.encrypt_length, ih]
    omega

theorem length_le_ctr_keyStream (b : AES.Block) (nonce src : List Byte) :
    src.length ≤ (keyStream b nonce 2 ((src.length + 15) / 16)).length := by
  rw [ctr_keyStream_length]
  omega

theorem counterCrypt_length (b : AES.Block) (nonce src : List Byte) :
    (counterCrypt b nonce src).length = src.length :=
  ChaCha20.xorBytes_length _ _ (length_le_ctr_keyStream b nonce src)

/-- The counter mode is its own inverse. -/
theorem counterCrypt_counterCrypt (b : AES.Block) (nonce src : List Byte) :
    counterCrypt b nonce (counterCrypt b nonce src) = src := by
  have hl := counterCrypt_length b nonce src
  unfold counterCrypt at hl ⊢
  rw [hl]
  exact ChaCha20.xorBytes_xorBytes src _ (length_le_ctr_keyStream b nonce src)

theorem auth_length (b : AES.Block) (nonce ciphertext data : List Byte) :
    (auth b nonce ciphertext data).length = 16 := by
  simp [auth, ChaCha20.xorBytes, beBytes_length, AES.encrypt_length]

/-- What `Seal` returns on a nonce of 12 bytes and a plaintext it accepts. -/
theorem seal_eq (b : AES.Block) (dst nonce plaintext data : List Byte)
    (hn : nonce.length = 12) (hp : plaintext.length ≤ maxPlaintext) :
    Seal b dst nonce plaintext data =
      some (dst ++ counterCrypt b nonce plaintext ++
        auth b nonce (counterCrypt b nonce plaintext) data) := by
  unfold Seal
  rw [if_neg (by simp [NonceSize, hn]), if_neg (by omega)]

/-- `Open` gives back what `Seal` was given. -/
theorem open_seal (b : AES.Block) (nonce plaintext data : List Byte)
    (hn : nonce.length = 12) (hp : plaintext.length ≤ maxPlaintext) :
    Open b nonce (counterCrypt b nonce plaintext ++
      auth b nonce (counterCrypt b nonce plaintext) data) data = some (.ok plaintext) := by
  have hlen : (counterCrypt b nonce plaintext ++
      auth b nonce (counterCrypt b nonce plaintext) data).length = plaintext.length + 16 := by
    simp [counterCrypt_length, auth_length]
  have hsub : (counterCrypt b nonce plaintext ++
      auth b nonce (counterCrypt b nonce plaintext) data).length - TagSize =
      (counterCrypt b nonce plaintext).length := by
    rw [hlen, counterCrypt_length]
    simp [TagSize]
  unfold Open
  rw [if_neg (by simp [NonceSize, hn]), if_neg (by rw [hlen]; simp [TagSize]),
    if_neg (by rw [hlen]; simp only [TagSize]; omega)]
  simp only [hsub, List.take_left', List.drop_left']
  rw [if_neg (by
    rw [(Subtle.constantTimeCompare_eq_one_iff _ _).mpr rfl]
    simp)]
  rw [counterCrypt_counterCrypt]

end GCM

theorem generateRandomBytes_eq_ok (entropy : List Byte) (n : Nat) (h : n ≤ entropy.length) :
    generateRandomBytes entropy n = .ok (entropy.take n) := by
  unfold generateRandomBytes
  rw [if_neg (by omega)]

/-- What `Encrypt` returns when the key is fetched and has 16, 24 or 32 bytes,
the random source gives 12 bytes and `Seal` accepts the plaintext. -/
theorem encrypt_eq_ok (env : Env) (entropy : List Byte) (w w1 : World)
    (s s1 : EnvelopeService) (t : GoString) (p key : List Byte)
    (hfetch : FetchDataKey env w s t = (.ok key, w1, s1))
    (hkey : key.length = 16 ∨ key.length = 24 ∨ key.length = 32)
    (hent : 12 ≤ entropy.length) (hp : p.length ≤ GCM.maxPlaintext) :
    Encrypt env entropy w s t p =
      some (.ok (Base64.encodeToString Base64.stdPadding
        (entropy.take 12 ++ GCM.counterCrypt ⟨key⟩ (entropy.take 12) p ++
          GCM.auth ⟨key⟩ (entropy.take 12) (GCM.counterCrypt ⟨key⟩ (entropy.take 12) p) [])),
        w1, s1) := by
  have hn : (entropy.take 12).length = 12 := by simp [hent]
  unfold Encrypt
  rw [hfetch]
  simp only [AES.newCipher_eq, if_pos hkey, GCM.NonceSize,
    generateRandomBytes_eq_ok entropy 12 hent, GCM.seal_eq _ _ _ _ _ hn hp]

/-- What `Decrypt` returns on the token of a sealed message, when the key is
fetched. -/
theorem decrypt_sealed (env : Env) (w w1 : World) (s s1 : EnvelopeService) (t : GoString)
    (p key nonce : List Byte)
    (hfetch : FetchDataKey env w s t = (.ok key, w1, s1))
    (hkey : key.length = 16 ∨ key.length = 24 ∨ key.length = 32)
    (hn : nonce.length = 12) (hp : p.length ≤ GCM.maxPlaintext) :
    Decrypt env w s t (Base64.encodeToString Base64.stdPadding
      (nonce ++ GCM.counterCrypt ⟨key⟩ nonce p ++
        GCM.auth ⟨key⟩ nonce (GCM.counterCrypt ⟨key⟩ nonce p) [])) =
      some (.ok p, w1, s1) := by
  unfold Decrypt
  rw [hfetch]
  simp only [Base64.decodeString_encodeToString_std, AES.newCipher_eq, if_pos hkey]
  have hlen : ¬ (nonce ++ GCM.counterCrypt ⟨key⟩ nonce p ++
      GCM.auth ⟨key⟩ nonce (GCM.counterCrypt ⟨key⟩ nonce p) []).length < GCM.NonceSize := by
    simp only [List.length_append, hn, GCM.NonceSize]
    omega
  rw [if_neg hlen]
  have htake : (nonce ++ GCM.counterCrypt ⟨key⟩ nonce p ++
      GCM.auth ⟨key⟩ nonce (GCM.counterCrypt ⟨key⟩ nonce p) []).take GCM.NonceSize = nonce := by
    rw [List.append_assoc, GCM.NonceSize, ← hn, List.take_left']
    rfl
  have hdrop : (nonce ++ GCM.counterCrypt ⟨key⟩ nonce p ++
      GCM.auth ⟨key⟩ nonce (GCM.counterCrypt ⟨key⟩ nonce p) []).drop GCM.NonceSize =
      GCM.counterCrypt ⟨key⟩ nonce p ++
        GCM.auth ⟨key⟩ nonce (GCM.counterCrypt ⟨key⟩ nonce p) [] := by
    rw [List.append_assoc, GCM.NonceSize, ← hn, List.drop_left']
    rfl
  rw [htake, hdrop, GCM.open_seal _ _ _ _ hn hp]

/-- C16 fails on the code: `org1` has a data key of 32 bytes, the random source
holds the bytes 0, 1, ..., 11, ... and the plaintext has 2 bytes. `Encrypt`
returns a token that is the standard base64 encoding of 12 + 2 + 16 = 30
bytes, not 24 + 2 + 16, which begin with the 12 bytes drawn. -/
theorem encrypt_nonce_has_twelve_bytes :
    ∃ token bytes,
      Encrypt (sampleEnv 9) sampleEntropy sampleRegistry.1 sampleRegistry.2 "org1".toList
        [104, 105] = some (.ok token, sampleFetched.1, sampleFetched.2) ∧
      Base64.decodeString Base64.stdPadding token = .ok bytes ∧
      bytes.length = 30 ∧ bytes.length ≠ 24 + 2 + 16 ∧
      bytes.take 12 = sampleEntropy.take 12 ∧
      generateRandomBytes sampleEntropy GCM.NonceSize = .ok (bytes.take 12) := by
  have hfetch : FetchDataKey (sampleEnv 9) sampleRegistry.1 sampleRegistry.2 "org1".toList =
      (.ok (List.replicate 32 0), sampleFetched.1, sampleFetched.2) := by decide
  have henc := encrypt_eq_ok (sampleEnv 9) sampleEntropy _ _ _ _ "org1".toList [104, 105]
    (List.replicate 32 0) hfetch (by decide) (by decide) (by decide)
  have hlen : (sampleEntropy.take 12 ++
      GCM.counterCrypt ⟨List.replicate 32 0⟩ (sampleEntropy.take 12) [104, 105] ++
      GCM.auth ⟨List.replicate 32 0⟩ (sampleEntropy.take 12)
        (GCM.counterCrypt ⟨List.replicate 32 0⟩ (sampleEntropy.take 12) [104, 105]) []).length
      = 30 := by
    rw [List.length_append, List.length_append, GCM.counterCrypt_length, GCM.auth_length]
    rfl
  refine ⟨_, _, henc, Base64.decodeString_encodeToString_std _, hlen, ?_, ?_, ?_⟩
  · rw [hlen]
    decide
  · rw [List.append_assoc, List.take_left']
    rfl
  · rw [List.append_assoc, List.take_left' (by rfl)]
    rfl

/-- C16, amended: for every tenant whose data key is fetched and is a key
`aes.NewCipher` accepts (16, 24 or 32 bytes), and every plaintext `p` that
`Seal` accepts, `Encrypt` with a random source that provides 12 bytes returns
the standard base64 encoding of `nonce ++ ct ++ tag`, a byte string of length
12 + len(p) + 16, where `nonce` is the 12 bytes just drawn, `ct` the AES-GCM
ciphertext of `p`, of the length of `p`, and `tag` its 16-byte tag. -/
theorem encrypt_token_layout (env : Env) (entropy : List Byte) (w w1 : World)
    (s s1 : EnvelopeService) (t : GoString) (p key : List Byte)
    (hfetch : FetchDataKey env w s t = (.ok key, w1, s1))
    (hkey : key.length = 16 ∨ key.length = 24 ∨ key.length = 32)
    (hent : 12 ≤ entropy.length) (hp : p.length ≤ GCM.maxPlaintext) :
    ∃ nonce ct tag,
      generateRandomBytes entropy GCM.NonceSize = .ok nonce ∧
      Encrypt env entropy w s t p =
        some (.ok (Base64.encodeToString Base64.stdPadding (nonce ++ ct ++ tag)), w1, s1) ∧
      nonce.length = 12 ∧ ct.length = p.length ∧ tag.length = 16 ∧
      (nonce ++ ct ++ tag).length = 12 + p.length + 16 ∧
      (nonce ++ ct ++ tag).take 12 = nonce ∧
      ct = GCM.counterCrypt ⟨key⟩ nonce p ∧ tag = GCM.auth ⟨key⟩ nonce ct [] := by
  have hn : (entropy.take 12).length = 12 := by simp [hent]
  refine ⟨entropy.take 12, _, _, generateRandomBytes_eq_ok entropy 12 hent,
    encrypt_eq_ok env entropy w w1 s s1 t p key hfetch hkey hent hp, hn,
    GCM.counterCrypt_length _ _ _, GCM.auth_length _ _ _ _, ?_, ?_, rfl, rfl⟩
  · simp only [List.length_append, hn, GCM.counterCrypt_length, GCM.auth_length]
  · rw [List.append_assoc]
    exact List.take_left' hn

/-- C16, amended, in the sample registry. -/
theorem encrypt_token_layout_witness :
    FetchDataKey (sampleEnv 9) sampleRegistry.1 sampleRegistry.2 "org1".toList =
      (.ok (List.replicate 32 0), sampleFetched.1, sampleFetched.2) ∧
    ∃ nonce ct tag,
      generateRandomBytes sampleEntropy GCM.NonceSize = .ok nonce ∧
      Encrypt (sampleEnv 9) sampleEntropy sampleRegistry.1 sampleRegistry.2 "org1".toList
        [104, 105] =
        some (.ok (Base64.encodeToString Base64.stdPadding (nonce ++ ct ++ tag)),
          sampleFetched.1, sampleFetched.2) ∧
      nonce.length = 12 ∧ ct.length = [(104 : Byte), 105].length ∧ tag.length = 16 ∧
      (nonce ++ ct ++ tag).length = 12 + [(104 : Byte), 105].length + 16 ∧
      (nonce ++ ct ++ tag).take 12 = nonce ∧
      ct = GCM.counterCrypt ⟨List.replicate 32 0⟩ nonce [104, 105] ∧
      tag = GCM.auth ⟨List.replicate 32 0⟩ nonce ct [] :=
  ⟨by decide,
    encrypt_token_layout (sampleEnv 9) sampleEntropy sampleRegistry.1 sampleFetched.1
      sampleRegistry.2 sampleFetched.2 "org1".toList [104, 105] (List.replicate 32 0)
      (by decide) (by decide) (by decide) (by decide)⟩

/-- What `Encrypt` does on a plaintext that `Seal` refuses, when the key is
fetched and the random source gives the nonce: it panics. -/
theorem encrypt_of_large (env : Env) (entropy : List Byte) (w w1 : World)
    (s s1 : EnvelopeService) (t : GoString) (p key : List Byte)
    (hfetch : FetchDataKey env w s t = (.ok key, w1, s1))
    (hkey : key.length = 16 ∨ key.length = 24 ∨ key.length = 32)
    (hent : 12 ≤ entropy.length) (hp : GCM.maxPlaintext < p.length) :
    Encrypt env entropy w s t p = none := by
  have hn : (entropy.take 12).length = 12 := by simp [hent]
  have hseal : GCM.Seal ⟨key⟩ (entropy.take 12) (entropy.take 12) p [] = none := by
    unfold GCM.Seal
    rw [if_neg (by simp [GCM.NonceSize, hn]), if_pos hp]
  unfold Encrypt
  rw [hfetch]
  simp only [AES.newCipher_eq, if_pos hkey, GCM.NonceSize,
    generateRandomBytes_eq_ok entropy 12 hent, hseal]

/-- C17 fails on the code: `org1` has a record that unwraps to a key of 32
bytes, and the plaintext has `2^36 - 31` bytes, one more than the largest
message that the `Seal` of AES-GCM accepts (`((1 << 32) - 2) * 16` bytes).
`Encrypt` fetches the key, draws the nonce, and panics in `Seal`: there is no
token to decrypt. -/
theorem encrypt_panics_on_large_plaintext :
    FetchDataKey (sampleEnv 9) sampleRegistry.1 sampleRegistry.2 "org1".toList =
      (.ok (List.replicate 32 0), sampleFetched.1, sampleFetched.2) ∧
    GCM.maxPlaintext + 1 = 2 ^ 36 - 31 ∧
    (List.replicate (GCM.maxPlaintext + 1) (0 : Byte)).length = GCM.maxPlaintext + 1 ∧
    Encrypt (sampleEnv 9) sampleEntropy sampleRegistry.1 sampleRegistry.2 "org1".toList
      (List.replicate (GCM.maxPlaintext + 1) 0) = none := by
  have hfetch : FetchDataKey (sampleEnv 9) sampleRegistry.1 sampleRegistry.2 "org1".toList =
      (.ok (List.replicate 32 0), sampleFetched.1, sampleFetched.2) := by decide
  refine ⟨hfetch, by decide, List.length_replicate _ _, ?_⟩
  exact encrypt_of_large (sampleEnv 9) sampleEntropy _ _ _ _ "org1".toList _
    (List.replicate 32 0) hfetch (by decide) (by decide)
    (by rw [List.length_replicate]; exact Nat.lt_succ_self _)

/-- C17, amended: for every tenant `t` whose data key is fetched and has 32
bytes (or 16 or 24, which `aes.NewCipher` accepts too), with a random source
that provides the nonce: for every plaintext `p` of at most `2^36 - 32` bytes,
which are those `Seal` accepts, `Encrypt(t, p)` returns a token and no error,
and after any run of registry calls that are neither a rotation, nor a
deletion, nor an import, `Decrypt(t, token)` returns exactly `p` and no error,
and sends no request to the key service (such a run ends without a panic
whenever the store is not the nil map); for every longer plaintext `Encrypt`
panics. -/
theorem decrypt_encrypt_roundtrip (env : Env) (entropy : List Byte) (w w1 : World)
    (s s1 : EnvelopeService) (t : GoString) (p key : List Byte)
    (hfetch : FetchDataKey env w s t = (.ok key, w1, s1))
    (hkey : key.length = 32 ∨ key.length = 16 ∨ key.length = 24)
    (hent : 12 ≤ entropy.length) :
    (p.length ≤ 2 ^ 36 - 32 →
      ∃ token, Encrypt env entropy w s t p = some (.ok token, w1, s1) ∧
        ∀ ops, (∀ op ∈ ops, op.isQuiet = true) →
          (∀ st, run env ops (w1, s1) = some st →
            Decrypt env st.1 st.2 t token = some (.ok p, st.1, st.2)) ∧
          (s1.dataKeyStore ≠ none → ∃ st, run env ops (w1, s1) = some st)) ∧
    (2 ^ 36 - 32 < p.length → Encrypt env entropy w s t p = none) := by
  have hkey2 : key.length = 16 ∨ key.length = 24 ∨ key.length = 32 := by omega
  have hn : (entropy.take 12).length = 12 := by simp [hent]
  have hmax : GCM.maxPlaintext = 2 ^ 36 - 32 := by decide
  constructor
  · intro hp
    rw [← hmax] at hp
    refine ⟨_, encrypt_eq_ok env entropy w w1 s s1 t p key hfetch hkey2 hent hp, ?_⟩
    intro ops hq
    obtain ⟨hc, -⟩ := fetchDataKey_ok env w w1 s s1 t key hfetch
    refine ⟨?_, fun hs => run_quiet_of_store env ops (w1, s1) hq hs⟩
    intro st hrun
    have hk := run_quiet_keeps_cached env t key ops (w1, s1) st hq hc hrun
    exact decrypt_sealed env st.1 st.1 st.2 st.2 t p key _
      (fetchDataKey_of_cached env st.1 st.2 t key hk) hkey2 hn hp
  · intro hp
    rw [← hmax] at hp
    exact encrypt_of_large env entropy w w1 s s1 t p key hfetch hkey2 hent hp

/-- C17, amended, in the sample registry: `org1`'s key is created, a plaintext
is encrypted, `org2` is created, and the token is decrypted. -/
theorem decrypt_encrypt_roundtrip_witness :
    FetchDataKey (sampleEnv 9) sampleRegistry.1 sampleRegistry.2 "org1".toList =
      (.ok (List.replicate 32 0), sampleFetched.1, sampleFetched.2) ∧
    ∃ token,
      Encrypt (sampleEnv 9) sampleEntropy sampleRegistry.1 sampleRegistry.2 "org1".toList
        [104, 105] = some (.ok token, sampleFetched.1, sampleFetched.2) ∧
      ∀ ops, (∀ op ∈ ops, op.isQuiet = true) →
        (∀ st, run (sampleEnv 9) ops (sampleFetched.1, sampleFetched.2) = some st →
          Decrypt (sampleEnv 9) st.1 st.2 "org1".toList token =
            some (.ok [104, 105], st.1, st.2)) ∧
        (sampleFetched.2.dataKeyStore ≠ none →
          ∃ st, run (sampleEnv 9) ops (sampleFetched.1, sampleFetched.2) = some st) :=
  ⟨by decide,
    (decrypt_encrypt_roundtrip (sampleEnv 9) sampleEntropy sampleRegistry.1 sampleFetched.1
      sampleRegistry.2 sampleFetched.2 "org1".toList [104, 105] (List.replicate 32 0)
      (by decide) (by decide) (by decide)).1 (by decide)⟩

end Vuya

/-! ## The signed-claims service -/

namespace Vuya

/-- What `BuildJwtSignerEd25519` does, by the bytes its two arguments decode
to: a private key of 64 bytes passes the size check and makes
`ed25519.NewKeyFromSeed` panic. -/
theorem buildJwtSigner_of_decoded (e : Ed25519.Scheme) (priv pub : GoString)
    (privBytes pubBytes : List Byte)
    (hpriv : Hex.DecodeString priv = .ok privBytes)
    (hpub : Hex.DecodeString pub = .ok pubBytes) :
    BuildJwtSignerEd25519 e priv pub =
      if privBytes.length = 64 then none
      else if privBytes.length ≠ 32 then some (.error .ErrBadPrivateKeySize)
      else if pubBytes.length ≠ 32 then some (.error .ErrBadPrivateKeySize)
      else some (.ok { privateKey := some (privBytes ++ e.publicOf privBytes),
                       publicKey := some pubBytes }) := by
  unfold BuildJwtSignerEd25519 decodePrivateKeyEd25519FromString decodePublicKeyEd25519
    newEd25519PrivateKey newEd25519PublicKey Ed25519.NewKeyFromSeed
  rw [hpriv, hpub]
  by_cases h64 : privBytes.length = 64
  · simp [h64, Ed25519.SeedSize]
  · by_cases h32 : privBytes.length = 32
    · by_cases hp : pubBytes.length = 32
      · simp [h32, hp, Ed25519.SeedSize, Ed25519.PublicKeySize]
      · simp [h32, hp, Ed25519.SeedSize, Ed25519.PublicKeySize]
    · simp [h64, h32]

/-- A private key that is not hexadecimal is refused with the error of
`encoding/hex`. -/
theorem buildJwtSigner_of_bad_hex (e : Ed25519.Scheme) (priv pub : GoString) (err : Error)
    (hpriv : Hex.DecodeString priv = .error err) :
    BuildJwtSignerEd25519 e priv pub = some (.error err) := by
  simp [BuildJwtSignerEd25519, decodePrivateKeyEd25519FromString, hpriv]

/-- C18 fails on the code: the hexadecimal string of 128 zeros decodes to 64
bytes, the size of a full private key, which `newEd25519PrivateKey` lets
through; `ed25519.NewKeyFromSeed` then panics on a seed that has not 32 bytes,
whatever the scheme computes, and `BuildJwtSignerEd25519` with it. A private
key of 32 bytes is accepted, and one of 31 bytes is refused with
`ErrBadPrivateKeySize`, as is a public key of 33 bytes. -/
theorem build_signer_panics_on_full_private_key :
    Hex.DecodeString (List.replicate 128 '0') = .ok (List.replicate 64 0) ∧
    Hex.DecodeString (List.replicate 64 '0') = .ok (List.replicate 32 0) ∧
    (∀ e : Ed25519.Scheme,
      newEd25519PrivateKey e (List.replicate 64 0) = none ∧
      BuildJwtSignerEd25519 e (List.replicate 128 '0') (List.replicate 64 '0') = none) ∧
    BuildJwtSignerEd25519 sampleScheme (List.replicate 64 '0') (List.replicate 64 '0') =
      some (.ok { privateKey := some (List.replicate 64 0),
                  publicKey := some (List.replicate 32 0) }) ∧
    BuildJwtSignerEd25519 sampleScheme (List.replicate 62 '0') (List.replicate 64 '0') =
      some (.error .ErrBadPrivateKeySize) ∧
    BuildJwtSignerEd25519 sampleScheme (List.replicate 64 '0') (List.replicate 66 '0') =
      some (.error .ErrBadPrivateKeySize) := by
  have h128 : Hex.DecodeString (List.replicate 128 '0') = .ok (List.replicate 64 0) := by
    decide
  have h64 : Hex.DecodeString (List.replicate 64 '0') = .ok (List.replicate 32 0) := by
    decide
  refine ⟨h128, h64, ?_, by decide, by decide, by decide⟩
  intro e
  refine ⟨?_, ?_⟩
  · simp [newEd25519PrivateKey, Ed25519.NewKeyFromSeed, Ed25519.SeedSize]
  · rw [buildJwtSigner_of_decoded e _ _ _ _ h128 h64]
    simp

namespace Jwt

/-- The flags that `MapClaims.Valid` can set do not hold
`ValidationErrorSignatureInvalid`, and hold `ValidationErrorExpired` and
`ValidationErrorNotValidYet` when the claims `exp` and `nbf` fail. -/
theorem claimsValid_flags (lib : Lib) (c : MapClaims) :
    ∃ flags inner,
      (claimsValid lib c).getD (0, .jwtText "") = (flags, inner) ∧
      (flags &&& ValidationErrorExpired ≠ 0 ↔ verifyExp lib c.exp = false) ∧
      (flags &&& ValidationErrorNotValidYet ≠ 0 ↔ verifyNotAfterNow lib c.nbf = false) ∧
      ((flags ||| ValidationErrorSignatureInvalid) &&& ValidationErrorExpired ≠ 0 ↔
        verifyExp lib c.exp = false) ∧
      ((flags ||| ValidationErrorSignatureInvalid) &&& ValidationErrorNotValidYet ≠ 0 ↔
        verifyNotAfterNow lib c.nbf = false) ∧
      (flags ||| ValidationErrorSignatureInvalid) &&& ValidationErrorSignatureInvalid ≠ 0 ∧
      flags ||| ValidationErrorSignatureInvalid ≠ 0 := by
  unfold claimsValid
  cases h1 : verifyExp lib c.exp <;> cases h2 : verifyNotAfterNow lib c.iat <;>
    cases h3 : verifyNotAfterNow lib c.nbf <;>
    exact ⟨_, _, rfl, by decide, by decide, by decide, by decide, by decide, by decide⟩

end Jwt

/-- What `verifySignatureJwtTokenEd25519` returns on a well-formed EdDSA token
whose signature does not verify, in each release of the package. -/
theorem verify_of_bad_signature (lib : Jwt.Lib) (rel : Jwt.Release) (token : GoString)
    (key : List Byte) (tok : Jwt.Token) (parts : List GoString) (err : Error)
    (hne : token ≠ [])
    (hparse : Jwt.ParseUnverified lib token = .ok (tok, parts))
    (hm : tok.Method = .ed25519)
    (hsig : Jwt.SigningMethod.Verify lib .ed25519
      (parts.getD 0 [] ++ ".".toList ++ parts.getD 1 []) (parts.getD 2 []) key = some err) :
    verifySignatureJwtTokenEd25519 lib rel token (some key) =
      match rel with
      | .signatureFirst => .error .ErrInvalidSignature
      | .joined =>
        if Jwt.verifyExp lib tok.Claims.exp = false then .error .ErrTokenExpired
        else if Jwt.verifyNotAfterNow lib tok.Claims.nbf = false then
          .error .ErrTokenNotValidYet
        else .error .ErrInvalidSignature := by
  unfold verifySignatureJwtTokenEd25519
  rw [if_neg hne]
  unfold Jwt.Parse
  rw [hparse]
  simp only [verifyKeyFunc, hm, ne_eq, not_true_eq_false, if_false, hsig]
  cases rel with
  | signatureFirst =>
    simp only
    rw [if_neg (by decide), if_neg (by decide), if_pos (by decide)]
  | joined =>
    obtain ⟨flags, inner, hv, -, -, hexp, hnbf, hsigbit, hnz⟩ :=
      Jwt.claimsValid_flags lib tok.Claims
    simp only [hv]
    rw [if_neg hnz]
    simp only
    by_cases h1 : Jwt.verifyExp lib tok.Claims.exp = false
    · rw [if_pos (hexp.mpr h1), if_pos h1]
    · rw [if_neg (fun h => h1 (hexp.mp h)), if_neg h1]
      by_cases h2 : Jwt.verifyNotAfterNow lib tok.Claims.nbf = false
      · rw [if_pos (hnbf.mpr h2), if_pos h2]
      · rw [if_neg (fun h => h2 (hnbf.mp h)), if_neg h2, if_pos hsigbit]

/-- C19 fails on the code built with a release of `jwt/v4` up to v4.5.0.
The sample token is a well-formed EdDSA token whose claims are `{"exp":1000}`
and whose signature segment does not verify under the public key; the clock
reads 2000. The package returns a `ValidationError` with the flags
`ValidationErrorExpired` and `ValidationErrorSignatureInvalid` (16 + 4), and
`verifySignatureJwtTokenEd25519`, which tests the expiry first, returns
`ErrTokenExpired`. The same signature on a token that is not expired gives
`ErrInvalidSignature`. With the releases from v4.5.1 on, where the package
returns at the bad signature, the expired token gives `ErrInvalidSignature`
too. -/
theorem expired_forged_token_reported_expired :
    (Jwt.ParseUnverified sampleLib sampleExpiredForged).map (fun r => r.1.Method) =
      .ok .ed25519 ∧
    Jwt.SigningMethod.Verify sampleLib .ed25519
      "eyJhbGciOiJFZERTQSIsInR5cCI6IkpXVCJ9.eyJleHAiOjEwMDB9".toList "AAAA".toList
      samplePublicKey = some (.jwtText "ed25519: verification error") ∧
    Jwt.Parse sampleLib .joined sampleExpiredForged (verifyKeyFunc (some samplePublicKey)) =
      .error (.jwtValidation 20 (.jwtText "ed25519: verification error")) ∧
    verifySignatureJwtTokenEd25519 sampleLib .joined sampleExpiredForged
      (some samplePublicKey) = .error .ErrTokenExpired ∧
    verifySignatureJwtTokenEd25519 sampleLib .joined sampleForged (some samplePublicKey) =
      .error .ErrInvalidSignature ∧
    verifySignatureJwtTokenEd25519 sampleLib .signatureFirst sampleExpiredForged
      (some samplePublicKey) = .error .ErrInvalidSignature := by
  decide

/-- C19, amended: for every well-formed EdDSA token whose signature does not
verify under the configured public key, `verifySignatureJwtTokenEd25519`
returns an error and no token. With the releases of `jwt/v4` from v4.5.1 on
the error is `ErrInvalidSignature`, whatever the claims hold. With the
releases up to v4.5.0 it is `ErrTokenExpired` when the claim `exp` fails, else
`ErrTokenNotValidYet` when the claim `nbf` fails, and `ErrInvalidSignature`
when neither does. -/
theorem bad_signature_reported_by_release (lib : Jwt.Lib) (token : GoString)
    (key : List Byte) (tok : Jwt.Token) (parts : List GoString) (err : Error)
    (hne : token ≠ [])
    (hparse : Jwt.ParseUnverified lib token = .ok (tok, parts))
    (hm : tok.Method = .ed25519)
    (hsig : Jwt.SigningMethod.Verify lib .ed25519
      (parts.getD 0 [] ++ ".".toList ++ parts.getD 1 []) (parts.getD 2 []) key = some err) :
    verifySignatureJwtTokenEd25519 lib .signatureFirst token (some key) =
      .error .ErrInvalidSignature ∧
    verifySignatureJwtTokenEd25519 lib .joined token (some key) =
      (if Jwt.verifyExp lib tok.Claims.exp = false then .error .ErrTokenExpired
        else if Jwt.verifyNotAfterNow lib tok.Claims.nbf = false then
          .error .ErrTokenNotValidYet
        else .error .ErrInvalidSignature) ∧
    (∀ rel, ∃ e, verifySignatureJwtTokenEd25519 lib rel token (some key) = .error e ∧
      (e = .ErrInvalidSignature ∨ e = .ErrTokenExpired ∨ e = .ErrTokenNotValidYet)) := by
  have h1 := verify_of_bad_signature lib .signatureFirst token key tok parts err hne hparse
    hm hsig
  have h2 := verify_of_bad_signature lib .joined token key tok parts err hne hparse hm hsig
  dsimp only at h1 h2
  refine ⟨h1, h2, ?_⟩
  intro rel
  cases rel with
  | signatureFirst => exact ⟨_, h1, Or.inl rfl⟩
  | joined =>
    rw [h2]
    by_cases he : Jwt.verifyExp lib tok.Claims.exp = false
    · rw [if_pos he]
      exact ⟨_, rfl, Or.inr (Or.inl rfl)⟩
    · rw [if_neg he]
      by_cases hn : Jwt.verifyNotAfterNow lib tok.Claims.nbf = false
      · rw [if_pos hn]
        exact ⟨_, rfl, Or.inr (Or.inr rfl)⟩
      · rw [if_neg hn]
        exact ⟨_, rfl, Or.inl rfl⟩

/-- C19, amended, on the sample library: the expired token with a signature
that does not verify. -/
theorem bad_signature_reported_by_release_witness :
    sampleExpiredForged ≠ [] ∧
    Jwt.ParseUnverified sampleLib sampleExpiredForged =
      .ok (sampleExpiredToken, sampleExpiredParts) ∧
    Jwt.verifyExp sampleLib sampleExpiredToken.Claims.exp = false ∧
    verifySignatureJwtTokenEd25519 sampleLib .signatureFirst sampleExpiredForged
      (some samplePublicKey) = .error .ErrInvalidSignature ∧
    verifySignatureJwtTokenEd25519 sampleLib .joined sampleExpiredForged
      (some samplePublicKey) =
      (if Jwt.verifyExp sampleLib sampleExpiredToken.Claims.exp = false then
          .error .ErrTokenExpired
        else if Jwt.verifyNotAfterNow sampleLib sampleExpiredToken.Claims.nbf = false then
          .error .ErrTokenNotValidYet
        else .error .ErrInvalidSignature) :=
  ⟨by decide, by decide, by decide,
    (bad_signature_reported_by_release sampleLib sampleExpiredForged samplePublicKey
      sampleExpiredToken sampleExpiredParts (.jwtText "ed25519: verification error")
      (by decide) (by decide) (by decide) (by decide)).1,
    (bad_signature_reported_by_release sampleLib sampleExpiredForged samplePublicKey
      sampleExpiredToken sampleExpiredParts (.jwtText "ed25519: verification error")
      (by decide) (by decide) (by decide) (by decide)).2.1⟩

/-- The tokens that `isMalformed` names are those `ParseUnverified` refuses
with the flag `ValidationErrorMalformed`. -/
theorem parseUnverified_of_malformed (lib : Jwt.Lib) (token : GoString)
    (h : Jwt.isMalformed lib token = true) :
    ∃ inner, Jwt.ParseUnverified lib token =
      .error (.jwtValidation Jwt.ValidationErrorMalformed inner) := by
  unfold Jwt.isMalformed at h
  unfold Jwt.ParseUnverified
  dsimp only at h ⊢
  split at h
  · rename_i hlen
    rw [if_pos hlen]
    exact ⟨_, rfl⟩
  · rename_i hlen
    rw [if_neg hlen]
    split at h
    · split
      · exact ⟨_, rfl⟩
      · exact ⟨_, rfl⟩
    · split at h
      · exact ⟨_, rfl⟩
      · split at h
        · exact ⟨_, rfl⟩
        · split at h
          · exact ⟨_, rfl⟩
          · exact absurd h (by simp)

/-- C20 fails on the code: the token `abc`, which has one segment, and the
token `a.b.c`, whose header does not decode, are refused with the error
"token validation error: ..." that wraps the `ValidationError` of the
package, which is not `ErrInvalidTokenFormat`. -/
theorem malformed_token_not_invalid_format :
    verifySignatureJwtTokenEd25519 sampleLib .joined "abc".toList (some samplePublicKey) =
      .error (.wrap "token validation error"
        (.jwtValidation 1 (.jwtText "token contains an invalid number of segments"))) ∧
    verifySignatureJwtTokenEd25519 sampleLib .signatureFirst "abc".toList
      (some samplePublicKey) =
      .error (.wrap "token validation error"
        (.jwtValidation 1 (.jwtText "token contains an invalid number of segments"))) ∧
    verifySignatureJwtTokenEd25519 sampleLib .joined "abc".toList (some samplePublicKey) ≠
      .error .ErrInvalidTokenFormat ∧
    Jwt.isMalformed sampleLib "a.b.c".toList = true ∧
    verifySignatureJwtTokenEd25519 sampleLib .joined "a.b.c".toList (some samplePublicKey) =
      .error (.wrap "token validation error" (.jwtValidation 1 .corruptInput)) := by
  decide

/-- C20, amended: `verifySignatureJwtTokenEd25519` returns
`ErrInvalidTokenFormat` for the empty token; for every token that is not
empty and is malformed (it has not three segments, or its header or claims
segment does not decode) it returns, with no token, the error
"token validation error: ..." that wraps the `ValidationError` of the
package, whose flag is `ValidationErrorMalformed`; in both cases whatever the
public key and the release of the package. -/
theorem malformed_token_rejected (lib : Jwt.Lib) (rel : Jwt.Release) (token : GoString)
    (publicKey : Option (List Byte)) :
    (token = [] →
      verifySignatureJwtTokenEd25519 lib rel token publicKey =
        .error .ErrInvalidTokenFormat) ∧
    (token ≠ [] → Jwt.isMalformed lib token = true →
      ∃ inner, verifySignatureJwtTokenEd25519 lib rel token publicKey =
        .error (.wrap "token validation error"
          (.jwtValidation Jwt.ValidationErrorMalformed inner))) := by
  constructor
  · intro h
    simp [verifySignatureJwtTokenEd25519, h]
  · intro hne hmal
    obtain ⟨inner, hparse⟩ := parseUnverified_of_malformed lib token hmal
    refine ⟨inner, ?_⟩
    unfold verifySignatureJwtTokenEd25519
    rw [if_neg hne]
    unfold Jwt.Parse
    rw [hparse]
    simp only
    rw [if_neg (by decide), if_neg (by decide), if_neg (by decide)]

/-- C20, amended, on the sample library: the empty token and the token
`abc`. -/
theorem malformed_token_rejected_witness :
    verifySignatureJwtTokenEd25519 sampleLib .joined [] (some samplePublicKey) =
      .error .ErrInvalidTokenFormat ∧
    "abc".toList ≠ [] ∧ Jwt.isMalformed sampleLib "abc".toList = true ∧
    ∃ inner, verifySignatureJwtTokenEd25519 sampleLib .joined "abc".toList
        (some samplePublicKey) =
      .error (.wrap "token validation error"
        (.jwtValidation Jwt.ValidationErrorMalformed inner)) :=
  ⟨(malformed_token_rejected sampleLib .joined [] (some samplePublicKey)).1 rfl,
    by decide, by decide,
    (malformed_token_rejected sampleLib .joined "abc".toList (some samplePublicKey)).2
      (by decide) (by decide)⟩

end Vuya

/-! ## Pagination requests -/

namespace Vuya

namespace Unicode

/-- The characters whose lower case is a given ASCII letter other than `k` and
`i` are the letter and its capital: here for `a`, `s` and `c`. -/
theorem toLower_eq_letter (r : Char) :
    (ToLower r = 'a' → r = 'a' ∨ r = 'A') ∧
    (ToLower r = 's' → r = 's' ∨ r = 'S') ∧
    (ToLower r = 'c' → r = 'c' ∨ r = 'C') := by
  have hr : r = Char.ofNat r.toNat := (Char.ofNat_toNat r).symm
  unfold ToLower
  refine ⟨?_, ?_, ?_⟩
  all_goals
    intro h
    split at h
    · rename_i hn
      obtain ⟨h1, h2⟩ := hn
      generalize r.toNat = n at hr h h1 h2
      subst hr
      interval_cases n <;> first | exact absurd h (by decide) | decide
    · split at h
      · exact absurd h (by decide)
      · split at h
        · exact absurd h (by decide)
        · exact Or.inl h

end Unicode

/-- The strings that `strings.ToLower` sends to `asc` are its eight
spellings. -/
theorem toLower_eq_asc_iff (s : GoString) :
    Strings.ToLower s = "asc".toList ↔ s ∈ caseVariants "asc".toList := by
  constructor
  · intro h
    unfold Strings.ToLower at h
    rcases s with _ | ⟨x, _ | ⟨y, _ | ⟨z, _ | ⟨u, t⟩⟩⟩⟩
    · simp at h
    · simp at h
    · simp at h
    · simp only [List.map_cons, List.map_nil, String.toList, List.cons.injEq, and_true] at h
      obtain ⟨hx, hy, hz⟩ := h
      rcases (Unicode.toLower_eq_letter x).1 hx with rfl | rfl <;>
        rcases (Unicode.toLower_eq_letter y).2.1 hy with rfl | rfl <;>
        rcases (Unicode.toLower_eq_letter z).2.2 hz with rfl | rfl <;> decide
    · simp at h
  · revert s
    decide

/-- What `Validate` returns, by the outcome of `ValidatePaginateOrder`. -/
theorem validate_eq (a : AgPaginateOptionsRequest) :
    a.Validate =
      match ValidatePaginateOrder a.Order with
      | none => none
      | some err => some [("order", err)] := by
  unfold AgPaginateOptionsRequest.Validate Validation.ValidateStruct
  cases h : ValidatePaginateOrder a.Order <;> simp [Validation.Validate, h]

/-- What `ValidatePaginateOrder` returns. -/
theorem validatePaginateOrder_eq (value : GoString) :
    ValidatePaginateOrder value =
      if Strings.ToUpper value ∈ ["".toList, "ASC".toList, "DESC".toList] then none
      else some .validationIn := by
  unfold ValidatePaginateOrder Validation.Validate Validation.In
  by_cases h1 : Strings.ToUpper value ∈ ["".toList, "ASC".toList, "DESC".toList]
  · rw [if_pos h1]
    by_cases h0 : Strings.ToUpper value = []
    · rw [if_pos h0]
      rfl
    · rw [if_neg h0]
      rfl
  · rw [if_neg h1]
    have h0 : ¬ Strings.ToUpper value = [] := fun h => h1 (by rw [h]; decide)
    rw [if_neg h0]

/-- C22: for every request, `GetLimitItems` returns 20 when `LimitItems` is 0,
200 when `LimitItems` is greater than 200, and `LimitItems` itself otherwise;
the result is between 1 and 200. -/
theorem getLimitItems_clamps (a : AgPaginateOptionsRequest) :
    (a.LimitItems = 0 → a.GetLimitItems = 20) ∧
    (a.LimitItems > 200 → a.GetLimitItems = 200) ∧
    (a.LimitItems ≠ 0 → a.LimitItems ≤ 200 → a.GetLimitItems = a.LimitItems) ∧
    1 ≤ a.GetLimitItems ∧ a.GetLimitItems ≤ 200 := by
  unfold AgPaginateOptionsRequest.GetLimitItems
  refine ⟨?_, ?_, ?_, ?_, ?_⟩
  · intro h
    rw [if_pos h]
  · intro h
    rw [if_neg (by omega), if_pos h]
  · intro h0 h
    rw [if_neg h0, if_neg (by omega)]
  · split
    · omega
    · split <;> omega
  · split
    · omega
    · split <;> omega

/-- C22, on the requests of the test: the limits 0, 250 and 100. -/
theorem getLimitItems_clamps_witness :
    (⟨[], 0, 0, []⟩ : AgPaginateOptionsRequest).GetLimitItems = 20 ∧
    (⟨[], 250, 0, "desc".toList⟩ : AgPaginateOptionsRequest).GetLimitItems = 200 ∧
    (⟨[], 100, 0, "desc".toList⟩ : AgPaginateOptionsRequest).GetLimitItems = 100 :=
  ⟨(getLimitItems_clamps ⟨[], 0, 0, []⟩).1 rfl,
    (getLimitItems_clamps ⟨[], 250, 0, "desc".toList⟩).2.1 (by decide),
    (getLimitItems_clamps ⟨[], 100, 0, "desc".toList⟩).2.2.1 (by decide) (by decide)⟩

/-- C23: for every request, `GetOrder` returns `ASC` exactly when `Order` is
one of the eight spellings of `asc` (which are the strings that
`strings.ToLower` sends to `asc`), and `DESC` for every other value of
`Order`; the result is always one of `ASC` and `DESC`. -/
theorem getOrder_asc_iff (a : AgPaginateOptionsRequest) :
    (a.GetOrder = "ASC".toList ↔ a.Order ∈ caseVariants "asc".toList) ∧
    (a.GetOrder = "ASC".toList ↔ Strings.ToLower a.Order = "asc".toList) ∧
    (a.Order ∉ caseVariants "asc".toList → a.GetOrder = "DESC".toList) ∧
    (a.GetOrder = "ASC".toList ∨ a.GetOrder = "DESC".toList) := by
  have key : a.GetOrder = "ASC".toList ↔ Strings.ToLower a.Order = "asc".toList := by
    unfold AgPaginateOptionsRequest.GetOrder
    by_cases h1 : a.Order = "".toList ∨ Strings.ToLower a.Order = "desc".toList
    · rw [if_pos h1]
      constructor
      · intro h
        exact absurd h (by decide)
      · intro h
        rcases h1 with h1 | h1
        · rw [h1] at h
          exact absurd h (by decide)
        · rw [h1] at h
          exact absurd h (by decide)
    · rw [if_neg h1]
      by_cases h2 : Strings.ToLower a.Order = "asc".toList
      · rw [if_pos h2]
        exact ⟨fun _ => h2, fun _ => rfl⟩
      · rw [if_neg h2]
        constructor
        · intro h
          exact absurd h (by decide)
        · intro h
          exact absurd h h2
  have hor : a.GetOrder = "ASC".toList ∨ a.GetOrder = "DESC".toList := by
    unfold AgPaginateOptionsRequest.GetOrder
    split
    · exact Or.inr rfl
    · split
      · exact Or.inl rfl
      · exact Or.inr rfl
  refine ⟨key.trans (toLower_eq_asc_iff a.Order), key, ?_, hor⟩
  intro h
  rcases hor with h1 | h1
  · exact absurd ((key.trans (toLower_eq_asc_iff a.Order)).mp h1) h
  · exact h1

/-- C23, on the orders `aSc`, the empty string and `descdelete`. -/
theorem getOrder_asc_iff_witness :
    (⟨[], 0, 0, "aSc".toList⟩ : AgPaginateOptionsRequest).GetOrder = "ASC".toList ∧
    (⟨[], 0, 0, []⟩ : AgPaginateOptionsRequest).GetOrder = "DESC".toList ∧
    (⟨[], 0, 0, "descdelete".toList⟩ : AgPaginateOptionsRequest).GetOrder = "DESC".toList :=
  ⟨(getOrder_asc_iff ⟨[], 0, 0, "aSc".toList⟩).1.mpr (by decide),
    (getOrder_asc_iff ⟨[], 0, 0, []⟩).2.2.1 (by decide),
    (getOrder_asc_iff ⟨[], 0, 0, "descdelete".toList⟩).2.2.1 (by decide)⟩

/-- C24 fails on the code: the request of the test case "Error Invalid Limit
PaginateRequest" (no cursor, `LimitItems` 250, order `desc`), for which the
test expects an error, is validated without error. `Validate` does not read
`LimitItems`: the field and its rule `ValidatePaginateLimitItems`, which
refuses 250, are in a line of the source that is a comment. -/
theorem validate_accepts_limit_over_200 :
    (⟨"".toList, 250, 0, "desc".toList⟩, true) ∈ paginateTestCases ∧
    (⟨"".toList, 250, 0, "desc".toList⟩ : AgPaginateOptionsRequest).Validate = none ∧
    ValidatePaginateLimitItems 250 = some (.errorsNew "Invalid limitItems") ∧
    ∀ (a : AgPaginateOptionsRequest) (n : Nat),
      ({ a with LimitItems := n } : AgPaginateOptionsRequest).Validate = a.Validate := by
  refine ⟨by decide, by decide, by decide, ?_⟩
  intro a n
  rw [validate_eq, validate_eq]

/-- C25 fails on the code: the request of the test case "Error Invalid Cursor
PaginateRequest" (cursor `selectfromtable`, every other field zero), for
which the test expects an error, is validated without error. The field
`Cursor` is listed without any rule, so that its content takes no part in the
validation. -/
theorem validate_ignores_cursor :
    (⟨"selectfromtable".toList, 0, 0, "".toList⟩, true) ∈ paginateTestCases ∧
    (⟨"selectfromtable".toList, 0, 0, "".toList⟩ : AgPaginateOptionsRequest).Validate =
      none ∧
    ∀ (a : AgPaginateOptionsRequest) (c : GoString),
      ({ a with Cursor := c } : AgPaginateOptionsRequest).Validate = a.Validate := by
  refine ⟨by decide, by decide, ?_⟩
  intro a c
  rw [validate_eq, validate_eq]

/-- C26: `Validate` returns an error, under the name `order`, for every
request whose `Order`, upper-cased, is not one of the empty string, `ASC` and
`DESC`, and returns nil for every request with an empty cursor, `LimitItems`
at most 200 and an `Order` that is empty or one of the spellings of `asc` and
`desc` in any letter case. -/
theorem validate_order_rule (a : AgPaginateOptionsRequest) :
    (Strings.ToUpper a.Order ∉ ["".toList, "ASC".toList, "DESC".toList] →
      a.Validate = some [("order", .validationIn)]) ∧
    (a.Cursor = [] → a.LimitItems ≤ 200 →
      a.Order ∈ [] :: (caseVariants "asc".toList ++ caseVariants "desc".toList) →
      a.Validate = none) := by
  constructor
  · intro h
    rw [validate_eq, validatePaginateOrder_eq, if_neg h]
  · intro _ _ h
    have hall : ∀ o ∈ [] :: (caseVariants "asc".toList ++ caseVariants "desc".toList),
        ValidatePaginateOrder o = none := by decide
    rw [validate_eq, hall a.Order h]

/-- C26, on the requests of the test with the orders `descdelete` and
`desc`. -/
theorem validate_order_rule_witness :
    (⟨"dat-65ab0d000000000000000000".toList, 100, 0, "descdelete".toList⟩ :
      AgPaginateOptionsRequest).Validate = some [("order", .validationIn)] ∧
    (⟨[], 200, 0, "desc".toList⟩ : AgPaginateOptionsRequest).Validate = none :=
  ⟨(validate_order_rule ⟨"dat-65ab0d000000000000000000".toList, 100, 0,
      "descdelete".toList⟩).1 (by decide),
    (validate_order_rule ⟨[], 200, 0, "desc".toList⟩).2 rfl (by decide) (by decide)⟩

end Vuya

/-! ## JSON bodies and issued claims -/

namespace Vuya

/-- C28 fails on the code: a reader delivers the four bytes of the text
`nope`, which is not valid JSON, and ends; `json.Unmarshal` fails, and
`DecodeJSONBody` returns nil, where `ConvertJSONStringToStruct` returns the
error of the parsing. For every reader, decoder and destination, the error
that `DecodeJSONBody` returns is the error of the reader, whatever the parsing
answered. -/
theorem decodeJSONBody_drops_parse_error :
    sampleUnmarshal [110, 111, 112, 101] false =
      (false, some (.jsonError "invalid character")) ∧
    DecodeJSONBody sampleUnmarshal ⟨[110, 111, 112, 101], none⟩ false = (none, false) ∧
    ConvertJSONStringToStruct sampleUnmarshal "nope".toList false =
      (some (.jsonError "invalid character"), false) ∧
    ∀ (D : Type) (unmarshal : Unmarshal D) (r : Reader) (d : D),
      (DecodeJSONBody unmarshal r d).1 = r.failure := by
  refine ⟨by decide, by decide, by decide, ?_⟩
  intro D unmarshal r d
  unfold DecodeJSONBody ReadAll
  dsimp only
  by_cases h : r.failure = none
  · rw [if_neg (by simp [h])]
    split
    · rfl
    · exact h.symm
  · rw [if_pos h]

/-- The value that the claims hold for a key: the value of the caller, when
the caller gives one, and the value of the claims the loop starts from
otherwise. -/
theorem get_foldl_set {V : Type} (data : List (AgKeyValue V)) (k : GoString) :
    ∀ m : GoMap (ClaimValue V),
      (data.foldl (fun claims itemData => claims.set itemData.Key (.caller itemData.Value))
        m).get k =
        match callerValue data k with
        | some v => some (.caller v)
        | none => m.get k := by
  induction data with
  | nil => intro m; rfl
  | cons e rest ih =>
    intro m
    have hcons : callerValue (e :: rest) k =
        match callerValue rest k with
        | some v => some v
        | none => if e.Key = k then some e.Value else none := rfl
    rw [List.foldl_cons, ih, hcons]
    cases callerValue rest k with
    | some v => rfl
    | none =>
      dsimp only
      by_cases hk : e.Key = k
      · rw [if_pos hk, ← hk]
        exact GoMap.get_set_self _ _ _
      · rw [if_neg hk]
        exact GoMap.get_set_of_ne _ _ _ _ hk

/-- C27 fails on the code: the caller gives an entry whose key is `exp`; the
claims that are signed hold the value of the caller under `exp`, not
`expire.Unix()`. -/
theorem caller_entry_replaces_exp :
    (tokenClaims sampleIssuer [⟨"exp".toList, 0⟩] 1700003600).get "exp".toList =
      some (.caller 0) ∧
    (tokenClaims sampleIssuer [⟨"exp".toList, 0⟩] 1700003600).get "exp".toList ≠
      some (.int64 1700003600) ∧
    (tokenClaims sampleIssuer [⟨"nounce".toList, 7⟩, ⟨"stsession".toList, 8⟩]
      1700003600).get "nounce".toList = some (.caller 7) ∧
    (tokenClaims sampleIssuer [⟨"nounce".toList, 7⟩, ⟨"stsession".toList, 8⟩]
      1700003600).get "stsession".toList = some (.caller 8) := by
  decide

/-- C27, amended: for every data list and every expiry, the claims signed by
`generateAndSignEd25519JwtToken` are those built from the list; they hold,
under every key that the caller gives, the value of the last entry of the
caller with this key, also when the key is `exp`, `nounce` or `stsession`,
and under each of these three keys, when the caller does not give it, the
value of the service: `expire.Unix()`, the generated identifier and the time
of the call. -/
theorem token_claims_values {V : Type} (iss : Issuer V) (data : List (AgKeyValue V))
    (expire : Int) :
    (∀ key, generateAndSignEd25519JwtToken iss data expire (some key) =
      some (iss.signedString (tokenClaims iss data expire) key)) ∧
    (∀ k v, callerValue data k = some v →
      (tokenClaims iss data expire).get k = some (.caller v)) ∧
    (callerValue data "exp".toList = none →
      (tokenClaims iss data expire).get "exp".toList = some (.int64 expire)) ∧
    (callerValue data "nounce".toList = none →
      (tokenClaims iss data expire).get "nounce".toList = some (.text iss.xid)) ∧
    (callerValue data "stsession".toList = none →
      (tokenClaims iss data expire).get "stsession".toList = some (.int64 iss.now)) := by
  refine ⟨?_, ?_, ?_, ?_, ?_⟩
  · intro key
    unfold generateAndSignEd25519JwtToken
    dsimp only
    cases iss.signedString (tokenClaims iss data expire) key <;> rfl
  · intro k v h
    unfold tokenClaims
    dsimp only
    rw [get_foldl_set, h]
  · intro h
    unfold tokenClaims
    dsimp only
    rw [get_foldl_set, h]
    dsimp only
    rw [GoMap.get_set_of_ne _ _ _ _ (by decide), GoMap.get_set_self]
  · intro h
    unfold tokenClaims
    dsimp only
    rw [get_foldl_set, h]
    dsimp only
    rw [GoMap.get_set_of_ne _ _ _ _ (by decide), GoMap.get_set_of_ne _ _ _ _ (by decide),
      GoMap.get_set_self]
  · intro h
    unfold tokenClaims
    dsimp only
    rw [get_foldl_set, h]
    dsimp only
    rw [GoMap.get_set_self]

/-- C27, amended, on the sample issuer: the caller gives `role` twice. -/
theorem token_claims_values_witness :
    callerValue [(⟨"role".toList, 1⟩ : AgKeyValue Int), ⟨"role".toList, 2⟩] "role".toList =
      some 2 ∧
    (tokenClaims sampleIssuer [⟨"role".toList, 1⟩, ⟨"role".toList, 2⟩] 1700003600).get
      "role".toList = some (.caller 2) ∧
    (tokenClaims sampleIssuer [⟨"role".toList, 1⟩, ⟨"role".toList, 2⟩] 1700003600).get
      "exp".toList = some (.int64 1700003600) ∧
    (tokenClaims sampleIssuer [⟨"role".toList, 1⟩, ⟨"role".toList, 2⟩] 1700003600).get
      "nounce".toList = some (.text "9m4e2mr0ui3e8a215n4g".toList) ∧
    (tokenClaims sampleIssuer [⟨"role".toList, 1⟩, ⟨"role".toList, 2⟩] 1700003600).get
      "stsession".toList = some (.int64 1700000000) :=
  ⟨by decide,
    (token_claims_values sampleIssuer [⟨"role".toList, 1⟩, ⟨"role".toList, 2⟩]
      1700003600).2.1 "role".toList 2 (by decide),
    (token_claims_values sampleIssuer [⟨"role".toList, 1⟩, ⟨"role".toList, 2⟩]
      1700003600).2.2.1 (by decide),
    (token_claims_values sampleIssuer [⟨"role".toList, 1⟩, ⟨"role".toList, 2⟩]
      1700003600).2.2.2.1 (by decide),
    (token_claims_values sampleIssuer [⟨"role".toList, 1⟩, ⟨"role".toList, 2⟩]
      1700003600).2.2.2.2 (by decide)⟩

end Vuya

/-! ## Malformed fields of an encoded hash -/

namespace Vuya
namespace Fmt

theorem error_bind {α β : Type} (e : Error) (f : α → Except Error β) :
    (Except.error e >>= f) = .error e := rfl

theorem notEOF_numeral (d rest : List Char) (h : IsNumeral d) : notEOF (d ++ rest) = .ok () := by
  cases d with
  | nil => exact absurd rfl h.1
  | cons c cs => rfl

theorem skipSpace_numeral (d rest : List Char) (h : IsNumeral d) :
    skipSpace (d ++ rest) = .ok (d ++ rest) := by
  cases d with
  | nil => exact absurd rfl h.1
  | cons c cs =>
    obtain ⟨h1, h2, h3, -⟩ := isDigit_not_space c (h.2 c (List.mem_cons_self _ _))
    simp [skipSpace, h1, h2, h3]

theorem scanNumber_numeral (d rest : List Char) (h : IsNumeral d) (hr : EndsNumber rest) :
    scanNumber (d ++ rest) = .ok (d, rest) := by
  unfold scanNumber notEOF
  rw [span_isDigit_append _ _ h.2 hr]
  cases d with
  | nil => exact absurd rfl h.1
  | cons c cs => rfl

/-- Scanning an unsigned `%d` on a numeral: its value, when it is within the
operand, and a range error otherwise. -/
theorem scanUint_numeral (bits : Nat) (d rest : List Char) (hb : bits ≤ 64)
    (h : IsNumeral d) (hr : EndsNumber rest) :
    scanUint bits (d ++ rest) =
      if parseDecimal d < 2 ^ bits then .ok (parseDecimal d, rest) else .error .scanRange := by
  have hpow : 2 ^ bits ≤ 2 ^ 64 := Nat.pow_le_pow_right (by decide) hb
  unfold scanUint
  rw [skipSpace_numeral _ _ h]
  simp only [ok_bind, notEOF_numeral _ _ h, scanNumber_numeral _ _ h hr]
  by_cases hlt : parseDecimal d < 2 ^ bits
  · rw [if_pos hlt, if_neg (by omega)]
    simp only [Nat.mod_eq_of_lt hlt, ne_eq, not_true_eq_false, if_false]
  · rw [if_neg hlt]
    by_cases h64 : 2 ^ 64 ≤ parseDecimal d
    · rw [if_pos h64]
    · rw [if_neg h64]
      have hmod : parseDecimal d % 2 ^ bits ≠ parseDecimal d := by
        intro he
        have := Nat.mod_lt (parseDecimal d) (Nat.two_pow_pos bits)
        omega
      simp only [ne_eq, hmod, not_false_eq_true, if_true]

/-- Scanning a `%d` into an `int` on a numeral without a sign. -/
theorem scanInt_numeral (d rest : List Char) (h : IsNumeral d) (hr : EndsNumber rest) :
    scanInt 64 (d ++ rest) =
      if parseDecimal d < 2 ^ 63 then .ok ((parseDecimal d : Int), rest)
      else .error .scanRange := by
  have hne : notEOF (d ++ rest) = .ok () := notEOF_numeral _ _ h
  have hnum := scanNumber_numeral _ _ h hr
  have hskip := skipSpace_numeral d rest h
  unfold scanInt
  rw [hskip]
  simp only [ok_bind, hne]
  cases d with
  | nil => exact absurd rfl h.1
  | cons c cs =>
    obtain ⟨-, -, -, h4, h5, -⟩ := isDigit_not_space c (h.2 c (List.mem_cons_self _ _))
    simp only [List.cons_append] at hnum ⊢
    split
    · rename_i hneg
      exfalso
      split at hneg
      · rename_i heq
        simp only [List.cons.injEq] at heq
        exact h4 heq.1
      · rename_i heq
        simp only [List.cons.injEq] at heq
        exact h5 heq.1
      · exact absurd hneg (by simp)
    · split
      · rename_i heq
        simp only [List.cons.injEq] at heq
        exact absurd heq.1 h4
      · rename_i heq
        simp only [List.cons.injEq] at heq
        exact absurd heq.1 h5
      · simp only [hnum, ok_bind]
        by_cases hlt : parseDecimal (c :: cs) < 2 ^ 63
        · rw [if_pos hlt, if_neg (by omega)]
          have hx : ((parseDecimal (c :: cs) : Int) + 2 ^ (64 - 1)) % 2 ^ 64 - 2 ^ (64 - 1) =
              (parseDecimal (c :: cs) : Int) := by omega
          simp only [hx, ne_eq, not_true_eq_false, if_false]
        · rw [if_neg hlt, if_pos (Or.inr (by omega))]

/-- A format that begins with literals refuses an input that does not begin
with them. -/
theorem doScanf_lits_error (ls : List Char) (fmt : List Item) :
    ∀ z, ¬ ls <+: z → ∃ err, doScanf (ls.map Item.lit ++ fmt) z = .error err := by
  induction ls with
  | nil => intro z h; exact absurd (List.nil_prefix) h
  | cons a ls ih =>
    intro z h
    cases z with
    | nil => exact ⟨_, rfl⟩
    | cons r z =>
      by_cases har : a = r
      · subst har
        have h2 : ¬ ls <+: z := fun hp => h ((List.cons_prefix_cons).mpr ⟨rfl, hp⟩)
        obtain ⟨err, herr⟩ := ih z h2
        refine ⟨err, ?_⟩
        simp only [List.map_cons, List.cons_append, doScanf, ne_eq, not_true_eq_false, if_false]
        exact herr
      · refine ⟨.scanMismatch, ?_⟩
        simp only [List.map_cons, List.cons_append, doScanf, ne_eq, har, not_false_eq_true,
          if_true]

/-- The literals of a format consume the same characters of the input. -/
theorem doScanf_lits (ls : List Char) (fmt : List Item) (z : List Char) :
    doScanf (ls.map Item.lit ++ fmt) (ls ++ z) = doScanf fmt z := by
  induction ls with
  | nil => rfl
  | cons a ls ih =>
    simp only [List.map_cons, List.cons_append, doScanf, ne_eq, not_true_eq_false, if_false]
    exact ih

/-- An unsigned verb on a numeral. -/
theorem doScanf_uint (bits : Nat) (fmt : List Item) (d z : List Char) (hb : bits ≤ 64)
    (h : IsNumeral d) (hz : EndsNumber z) :
    doScanf (.verbD (.uint bits) :: fmt) (d ++ z) =
      if parseDecimal d < 2 ^ bits then
        doScanf fmt z >>= fun vs => .ok ((parseDecimal d : Int) :: vs)
      else .error .scanRange := by
  simp only [doScanf, skipSpace_numeral _ _ h, ok_bind, scanUint_numeral bits d z hb h hz]
  by_cases hlt : parseDecimal d < 2 ^ bits
  · simp only [if_pos hlt, ok_bind]
  · simp only [if_neg hlt, error_bind]

/-- A signed verb, last of its format, on a numeral. -/
theorem doScanf_int (d z : List Char) (h : IsNumeral d) (hz : EndsNumber z) :
    doScanf [.verbD (.int 64)] (d ++ z) =
      if parseDecimal d < 2 ^ 63 then .ok [(parseDecimal d : Int)] else .error .scanRange := by
  simp only [doScanf, skipSpace_numeral _ _ h, ok_bind, scanInt_numeral d z h hz]
  by_cases hlt : parseDecimal d < 2 ^ 63
  · simp only [if_pos hlt, ok_bind]
  · simp only [if_neg hlt, error_bind]

theorem skipSpace_of_no_integer (x : List Char) (h : BeginsNoInteger x) :
    skipSpace x = .ok x := by
  cases x with
  | nil => rfl
  | cons c x =>
    obtain ⟨-, hs, -, -⟩ := h c rfl
    have h1 : c ≠ '\r' := by
      intro he
      subst he
      exact absurd hs (by decide)
    have h2 : c ≠ '\n' := by
      intro he
      subst he
      exact absurd hs (by decide)
    simp [skipSpace, h1, h2, hs]

theorem scanNumber_of_no_integer (x : List Char) (h : BeginsNoInteger x) :
    ∃ err, scanNumber x = .error err := by
  cases x with
  | nil => exact ⟨_, rfl⟩
  | cons c x =>
    obtain ⟨hd, -, -, -⟩ := h c rfl
    refine ⟨.scanExpectedInteger, ?_⟩
    simp [scanNumber, notEOF, List.span_eq_take_drop, List.takeWhile_cons, hd, ok_bind]

/-- A verb finds no integer at a text that begins none. -/
theorem doScanf_verb_error (arg : Operand) (fmt : List Item) (x : List Char)
    (h : BeginsNoInteger x) : ∃ err, doScanf (.verbD arg :: fmt) x = .error err := by
  have hskip := skipSpace_of_no_integer x h
  obtain ⟨e, he⟩ := scanNumber_of_no_integer x h
  cases arg with
  | uint bits =>
    cases x with
    | nil => exact ⟨.scanEOF, by simp [doScanf, skipSpace, scanUint, notEOF, ok_bind, error_bind]⟩
    | cons c x =>
      refine ⟨e, ?_⟩
      simp only [doScanf, hskip, ok_bind, scanUint, notEOF, List.isEmpty_cons,
        Bool.false_eq_true, if_false, he, error_bind]
  | int bits =>
    cases x with
    | nil => exact ⟨.scanEOF, by simp [doScanf, skipSpace, scanInt, notEOF, ok_bind, error_bind]⟩
    | cons c x =>
      obtain ⟨-, -, h4, h5⟩ := h c rfl
      refine ⟨e, ?_⟩
      simp only [doScanf, hskip, ok_bind, scanInt, notEOF, List.isEmpty_cons,
        Bool.false_eq_true, if_false]
      split
      · rename_i heq
        simp only [List.cons.injEq] at heq
        exact absurd heq.1 h4
      · rename_i heq
        simp only [List.cons.injEq] at heq
        exact absurd heq.1 h5
      · simp only [he, error_bind]

end Fmt

/-- The version field `v=` followed by a numeral, whatever follows it. -/
theorem doScanf_version_numeral (d x : List Char) (h : Fmt.IsNumeral d)
    (hx : Fmt.EndsNumber x) :
    Fmt.doScanf versionFormat ("v=".toList ++ d ++ x) =
      if Fmt.parseDecimal d < 2 ^ 63 then .ok [(Fmt.parseDecimal d : Int)]
      else .error .scanRange := by
  have hf : versionFormat = ['v', '='].map Fmt.Item.lit ++ [.verbD (.int 64)] := rfl
  have hs : "v=".toList ++ d ++ x = ['v', '='] ++ (d ++ x) := by
    rw [List.append_assoc]
    rfl
  rw [hf, hs, Fmt.doScanf_lits, Fmt.doScanf_int d x h hx]

/-- The parameter field `m=` followed by a numeral: the value of `m` is read,
and the rest of the format scans what follows. -/
theorem doScanf_params_m (dm z : List Char) (hm : Fmt.IsNumeral dm) (hz : Fmt.EndsNumber z) :
    Fmt.doScanf paramsFormat ("m=".toList ++ dm ++ z) =
      if Fmt.parseDecimal dm < 2 ^ 32 then
        Fmt.doScanf ([',', 't', '='].map Fmt.Item.lit ++
          (.verbD (.uint 32) :: ([',', 'p', '='].map Fmt.Item.lit ++ [.verbD (.uint 8)]))) z >>=
          fun vs => .ok ((Fmt.parseDecimal dm : Int) :: vs)
      else .error .scanRange := by
  have hf : paramsFormat = ['m', '='].map Fmt.Item.lit ++
      (.verbD (.uint 32) :: ([',', 't', '='].map Fmt.Item.lit ++
        (.verbD (.uint 32) :: ([',', 'p', '='].map Fmt.Item.lit ++ [.verbD (.uint 8)])))) := rfl
  have hs : "m=".toList ++ dm ++ z = ['m', '='] ++ (dm ++ z) := by
    rw [List.append_assoc]
    rfl
  rw [hf, hs, Fmt.doScanf_lits, Fmt.doScanf_uint 32 _ dm z (by decide) hm hz]

/-- The parameter field from `,t=` on, followed by a numeral. -/
theorem doScanf_params_t (dt z : List Char) (ht : Fmt.IsNumeral dt) (hz : Fmt.EndsNumber z) :
    Fmt.doScanf ([',', 't', '='].map Fmt.Item.lit ++
        (.verbD (.uint 32) :: ([',', 'p', '='].map Fmt.Item.lit ++ [.verbD (.uint 8)])))
      (",t=".toList ++ dt ++ z) =
      if Fmt.parseDecimal dt < 2 ^ 32 then
        Fmt.doScanf ([',', 'p', '='].map Fmt.Item.lit ++ [.verbD (.uint 8)]) z >>=
          fun vs => .ok ((Fmt.parseDecimal dt : Int) :: vs)
      else .error .scanRange := by
  have hs : ",t=".toList ++ dt ++ z = [',', 't', '='] ++ (dt ++ z) := by
    rw [List.append_assoc]
    rfl
  rw [hs, Fmt.doScanf_lits, Fmt.doScanf_uint 32 _ dt z (by decide) ht hz]

/-- The parameter field from `,p=` on, followed by a numeral. -/
theorem doScanf_params_p (dp y : List Char) (hp : Fmt.IsNumeral dp) (hy : Fmt.EndsNumber y) :
    Fmt.doScanf ([',', 'p', '='].map Fmt.Item.lit ++ [.verbD (.uint 8)])
      (",p=".toList ++ dp ++ y) =
      if Fmt.parseDecimal dp < 2 ^ 8 then .ok [(Fmt.parseDecimal dp : Int)]
      else .error .scanRange := by
  have hs : ",p=".toList ++ dp ++ y = [',', 'p', '='] ++ (dp ++ y) := by
    rw [List.append_assoc]
    rfl
  rw [hs, Fmt.doScanf_lits, Fmt.doScanf_uint 8 _ dp y (by decide) hp hy]
  by_cases hlt : Fmt.parseDecimal dp < 2 ^ 8
  · simp only [if_pos hlt, Fmt.doScanf, Fmt.ok_bind]
  · simp only [if_neg hlt]

/-- A text that begins with a comma does not begin with a digit. -/
theorem endsNumber_comma (k : String) (z : List Char) (h : k.toList.head? = some ',') :
    Fmt.EndsNumber (k.toList ++ z) := by
  intro c hc
  cases hk : k.toList with
  | nil =>
    rw [hk] at h
    exact absurd h (by simp)
  | cons a l =>
    rw [hk] at h hc
    simp only [List.head?_cons, Option.some.injEq, List.cons_append] at h hc
    subst h
    subst hc
    decide

/-- `decodeHash` returns the error of `Sscanf` on the version field. -/
theorem decodeHash_version_error (hash : GoString) (err : Error)
    (h6 : (Strings.split '$' hash).length = 6)
    (h : Fmt.doScanf versionFormat ((Strings.split '$' hash).getD 2 []) = .error err) :
    decodeHash hash = .error err := by
  unfold decodeHash
  dsimp only
  rw [if_neg (by simp [h6]), h]

/-- `decodeHash` on a version that is not 19. -/
theorem decodeHash_incompatible (hash : GoString) (vs : List Int)
    (h6 : (Strings.split '$' hash).length = 6)
    (h : Fmt.doScanf versionFormat ((Strings.split '$' hash).getD 2 []) = .ok vs)
    (hver : vs.getD 0 0 ≠ 19) : decodeHash hash = .error .ErrIncompatibleVersion := by
  unfold decodeHash
  dsimp only
  rw [if_neg (by simp [h6]), h]
  dsimp only
  rw [if_pos (fun heq => hver (by rw [heq]; rfl))]

/-- `decodeHash` returns the error of `Sscanf` on the parameter field. -/
theorem decodeHash_params_error (hash : GoString) (vs : List Int) (err : Error)
    (h6 : (Strings.split '$' hash).length = 6)
    (h : Fmt.doScanf versionFormat ((Strings.split '$' hash).getD 2 []) = .ok vs)
    (hver : vs.getD 0 0 = 19)
    (hpar : Fmt.doScanf paramsFormat ((Strings.split '$' hash).getD 3 []) = .error err) :
    decodeHash hash = .error err := by
  unfold decodeHash
  dsimp only
  rw [if_neg (by simp [h6]), h]
  dsimp only
  rw [if_neg (fun hne => hne (by rw [hver]; rfl)), hpar]

/-- `decodeHash` when both fields are scanned and the salt and the key
decode. -/
theorem decodeHash_scanned (hash : GoString) (vs ps : List Int) (salt key : List Byte)
    (h6 : (Strings.split '$' hash).length = 6)
    (h : Fmt.doScanf versionFormat ((Strings.split '$' hash).getD 2 []) = .ok vs)
    (hver : vs.getD 0 0 = 19)
    (hpar : Fmt.doScanf paramsFormat ((Strings.split '$' hash).getD 3 []) = .ok ps)
    (hsalt : Base64.decodeString Base64.noPadding ((Strings.split '$' hash).getD 4 []) =
      .ok salt)
    (hkey : Base64.decodeString Base64.noPadding ((Strings.split '$' hash).getD 5 []) =
      .ok key) :
    decodeHash hash =
      .ok ({ Memory := (ps.getD 0 0).toNat
             Iterations := (ps.getD 1 0).toNat
             Parallelism := (ps.getD 2 0).toNat
             SaltLength := salt.length % 2 ^ 32
             KeyLength := key.length % 2 ^ 32 }, salt, key) := by
  unfold decodeHash
  dsimp only
  rw [if_neg (by simp [h6]), h]
  dsimp only
  rw [if_neg (fun hne => hne (by rw [hver]; rfl)), hpar]
  dsimp only
  rw [hsalt]
  dsimp only
  rw [hkey]

/-- C21 fails on the code: the hash has six fields, its version field `v=19x`
and its parameter field `m=8,t=1,p=1junk` carry characters after the last
number, and so does the version field `v= +19`, which carries a space and a
sign; `decodeHash` returns parameters, a salt and a key, and no error. -/
theorem decodeHash_accepts_trailing_characters :
    (Strings.split '$' "$argon2id$v=19x$m=8,t=1,p=1junk$AAAA$AAAA".toList).length = 6 ∧
    decodeHash "$argon2id$v=19x$m=8,t=1,p=1junk$AAAA$AAAA".toList =
      .ok (⟨8, 1, 1, 3, 3⟩, [0, 0, 0], [0, 0, 0]) ∧
    decodeHash "$argon2id$v= +19$m= 8,t=1,p=1$AAAA$AAAA".toList =
      .ok (⟨8, 1, 1, 3, 3⟩, [0, 0, 0], [0, 0, 0]) := by
  decide

/-- C21, amended: for every hash string of six fields, `decodeHash` returns
an error, and so no parameters, salt or key, when the version field does not
begin with `v=`; when `v=` is followed by nothing or by a character that is
neither a digit, a space nor a sign; when `v=` is followed by a decimal
integer that is not 19 (the error is `ErrIncompatibleVersion` when the integer
fits an `int`); and, `v=` being followed by a decimal integer of value 19, when
the parameter field does not begin with `m=`; when a parameter is missing (the
integer after `m=` is not followed by `,t=`, the integer after `t=` is not
followed by `,p=`, or `,p=` is followed by no integer); and when, in
`m=<int>,t=<int>,p=<int>`, a value is out of range for its type, the error
being that of the range. What follows the integer of the version field and the
last integer of the parameter field is not read: when the values are in range
and the salt and the key decode, `decodeHash` returns the parameters, the salt
and the key, whatever the texts `x` and `y` that follow, provided they do not
begin with a digit. -/
theorem decodeHash_scan_errors (hash version params : GoString)
    (h6 : (Strings.split '$' hash).length = 6)
    (hversion : (Strings.split '$' hash).getD 2 [] = version)
    (hparams : (Strings.split '$' hash).getD 3 [] = params) :
    (¬ "v=".toList <+: version → ∃ err, decodeHash hash = .error err) ∧
    (∀ x, version = "v=".toList ++ x → Fmt.BeginsNoInteger x →
      ∃ err, decodeHash hash = .error err) ∧
    (∀ d x, version = "v=".toList ++ d ++ x → Fmt.IsNumeral d → Fmt.EndsNumber x →
      (Fmt.parseDecimal d ≠ 19 →
        ∃ err, decodeHash hash = .error err ∧
          (Fmt.parseDecimal d < 2 ^ 63 → err = .ErrIncompatibleVersion)) ∧
      (Fmt.parseDecimal d = 19 →
        (¬ "m=".toList <+: params → ∃ err, decodeHash hash = .error err) ∧
        (∀ dm z, params = "m=".toList ++ dm ++ z → Fmt.IsNumeral dm → Fmt.EndsNumber z →
          ¬ ",t=".toList <+: z → ∃ err, decodeHash hash = .error err) ∧
        (∀ dm dt z, params = "m=".toList ++ dm ++ (",t=".toList ++ dt ++ z) →
          Fmt.IsNumeral dm → Fmt.IsNumeral dt → Fmt.EndsNumber z →
          ¬ ",p=".toList <+: z → ∃ err, decodeHash hash = .error err) ∧
        (∀ dm dt z, params = "m=".toList ++ dm ++ (",t=".toList ++ dt ++ (",p=".toList ++ z)) →
          Fmt.IsNumeral dm → Fmt.IsNumeral dt → Fmt.BeginsNoInteger z →
          ∃ err, decodeHash hash = .error err) ∧
        (∀ dm dt dp y,
          params = "m=".toList ++ dm ++ (",t=".toList ++ dt ++ (",p=".toList ++ dp ++ y)) →
          Fmt.IsNumeral dm → Fmt.IsNumeral dt → Fmt.IsNumeral dp → Fmt.EndsNumber y →
          ((2 ^ 32 ≤ Fmt.parseDecimal dm ∨ 2 ^ 32 ≤ Fmt.parseDecimal dt ∨
              2 ^ 8 ≤ Fmt.parseDecimal dp) →
            decodeHash hash = .error .scanRange) ∧
          (Fmt.parseDecimal dm < 2 ^ 32 → Fmt.parseDecimal dt < 2 ^ 32 →
            Fmt.parseDecimal dp < 2 ^ 8 →
            ∀ salt key,
              Base64.decodeString Base64.noPadding ((Strings.split '$' hash).getD 4 []) =
                .ok salt →
              Base64.decodeString Base64.noPadding ((Strings.split '$' hash).getD 5 []) =
                .ok key →
              decodeHash hash =
                .ok ({ Memory := Fmt.parseDecimal dm
                       Iterations := Fmt.parseDecimal dt
                       Parallelism := Fmt.parseDecimal dp
                       SaltLength := salt.length % 2 ^ 32
                       KeyLength := key.length % 2 ^ 32 }, salt, key))))) := by
  subst hversion hparams
  have hvf : versionFormat = ['v', '='].map Fmt.Item.lit ++ [.verbD (.int 64)] := rfl
  have hpf : paramsFormat = ['m', '='].map Fmt.Item.lit ++
      (.verbD (.uint 32) :: ([',', 't', '='].map Fmt.Item.lit ++
        (.verbD (.uint 32) :: ([',', 'p', '='].map Fmt.Item.lit ++ [.verbD (.uint 8)])))) := rfl
  refine ⟨?_, ?_, ?_⟩
  · intro h
    have h2 : ¬ ['v', '='] <+: (Strings.split '$' hash).getD 2 [] := h
    obtain ⟨err, herr⟩ := Fmt.doScanf_lits_error ['v', '='] [.verbD (.int 64)] _ h2
    rw [← hvf] at herr
    exact ⟨err, decodeHash_version_error hash err h6 herr⟩
  · intro x hx hno
    obtain ⟨err, herr⟩ := Fmt.doScanf_verb_error (.int 64) [] x hno
    refine ⟨err, decodeHash_version_error hash err h6 ?_⟩
    have hs : "v=".toList ++ x = ['v', '='] ++ x := rfl
    rw [hx, hvf, hs, Fmt.doScanf_lits]
    exact herr
  · intro d x hx hd hxe
    have hscan := doScanf_version_numeral d x hd hxe
    rw [← hx] at hscan
    constructor
    · intro hne
      by_cases hlt : Fmt.parseDecimal d < 2 ^ 63
      · rw [if_pos hlt] at hscan
        refine ⟨_, decodeHash_incompatible hash _ h6 hscan ?_, fun _ => rfl⟩
        simp only [List.getD_cons_zero, ne_eq]
        exact_mod_cast hne
      · rw [if_neg hlt] at hscan
        exact ⟨_, decodeHash_version_error hash _ h6 hscan, fun h => absurd h hlt⟩
    · intro h19
      rw [if_pos (by rw [h19]; decide)] at hscan
      have hver : ([(Fmt.parseDecimal d : Int)]).getD 0 0 = 19 := by
        simp only [List.getD_cons_zero]
        exact_mod_cast h19
      have herror : ∀ err, Fmt.doScanf paramsFormat ((Strings.split '$' hash).getD 3 []) =
          .error err → decodeHash hash = .error err :=
        fun err h => decodeHash_params_error hash _ err h6 hscan hver h
      refine ⟨?_, ?_, ?_, ?_, ?_⟩
      · intro h
        have h2 : ¬ ['m', '='] <+: (Strings.split '$' hash).getD 3 [] := h
        obtain ⟨err, herr⟩ := Fmt.doScanf_lits_error ['m', '='] _ _ h2
        rw [← hpf] at herr
        exact ⟨err, herror err herr⟩
      · intro dm z hp hm hz ht
        have hm2 := doScanf_params_m dm z hm hz
        rw [← hp] at hm2
        have ht2 : ¬ [',', 't', '='] <+: z := ht
        obtain ⟨err, herr⟩ := Fmt.doScanf_lits_error [',', 't', '=']
          (.verbD (.uint 32) :: ([',', 'p', '='].map Fmt.Item.lit ++ [.verbD (.uint 8)])) z ht2
        by_cases hlt : Fmt.parseDecimal dm < 2 ^ 32
        · rw [if_pos hlt, herr, Fmt.error_bind] at hm2
          exact ⟨_, herror _ hm2⟩
        · rw [if_neg hlt] at hm2
          exact ⟨_, herror _ hm2⟩
      · intro dm dt z hp hm ht hz hpz
        have hm2 := doScanf_params_m dm (",t=".toList ++ dt ++ z) hm
          (by rw [List.append_assoc]; exact endsNumber_comma ",t=" _ rfl)
        rw [← hp] at hm2
        have ht2 := doScanf_params_t dt z ht hz
        have hp2 : ¬ [',', 'p', '='] <+: z := hpz
        obtain ⟨err, herr⟩ := Fmt.doScanf_lits_error [',', 'p', '='] [.verbD (.uint 8)] z hp2
        by_cases hlm : Fmt.parseDecimal dm < 2 ^ 32
        · rw [if_pos hlm, ht2] at hm2
          by_cases hlt : Fmt.parseDecimal dt < 2 ^ 32
          · rw [if_pos hlt, herr, Fmt.error_bind, Fmt.error_bind] at hm2
            exact ⟨_, herror _ hm2⟩
          · rw [if_neg hlt, Fmt.error_bind] at hm2
            exact ⟨_, herror _ hm2⟩
        · rw [if_neg hlm] at hm2
          exact ⟨_, herror _ hm2⟩
      · intro dm dt z hp hm ht hno
        have hm2 := doScanf_params_m dm (",t=".toList ++ dt ++ (",p=".toList ++ z)) hm
          (by rw [List.append_assoc]; exact endsNumber_comma ",t=" _ rfl)
        rw [← hp] at hm2
        have ht2 := doScanf_params_t dt (",p=".toList ++ z) ht (endsNumber_comma ",p=" _ rfl)
        obtain ⟨err, herr⟩ := Fmt.doScanf_verb_error (.uint 8) [] z hno
        have hp2 : Fmt.doScanf ([',', 'p', '='].map Fmt.Item.lit ++ [.verbD (.uint 8)])
            (",p=".toList ++ z) = .error err := by
          have hs : ",p=".toList ++ z = [',', 'p', '='] ++ z := rfl
          rw [hs, Fmt.doScanf_lits]
          exact herr
        by_cases hlm : Fmt.parseDecimal dm < 2 ^ 32
        · rw [if_pos hlm, ht2] at hm2
          by_cases hlt : Fmt.parseDecimal dt < 2 ^ 32
          · rw [if_pos hlt, hp2, Fmt.error_bind, Fmt.error_bind] at hm2
            exact ⟨_, herror _ hm2⟩
          · rw [if_neg hlt, Fmt.error_bind] at hm2
            exact ⟨_, herror _ hm2⟩
        · rw [if_neg hlm] at hm2
          exact ⟨_, herror _ hm2⟩
      · intro dm dt dp y hp hm ht hdp hy
        have hm2 := doScanf_params_m dm (",t=".toList ++ dt ++ (",p=".toList ++ dp ++ y)) hm
          (by rw [List.append_assoc]; exact endsNumber_comma ",t=" _ rfl)
        rw [← hp] at hm2
        have ht2 := doScanf_params_t dt (",p=".toList ++ dp ++ y) ht
          (by rw [List.append_assoc]; exact endsNumber_comma ",p=" _ rfl)
        have hp2 := doScanf_params_p dp y hdp hy
        constructor
        · intro hrange
          refine herror _ ?_
          by_cases hlm : Fmt.parseDecimal dm < 2 ^ 32
          · rw [if_pos hlm, ht2] at hm2
            by_cases hlt : Fmt.parseDecimal dt < 2 ^ 32
            · have hlp : ¬ Fmt.parseDecimal dp < 2 ^ 8 := by omega
              rw [if_pos hlt, hp2, if_neg hlp, Fmt.error_bind, Fmt.error_bind] at hm2
              exact hm2
            · rw [if_neg hlt, Fmt.error_bind] at hm2
              exact hm2
          · rw [if_neg hlm] at hm2
            exact hm2
        · intro hlm hlt hlp salt key hsalt hkey
          rw [if_pos hlm, ht2, if_pos hlt, hp2, if_pos hlp, Fmt.ok_bind, Fmt.ok_bind] at hm2
          have hres := decodeHash_scanned hash _ _ salt key h6 hscan hver hm2 hsalt hkey
          rw [hres]
          simp only [List.getD_cons_zero, List.getD_cons_succ, Int.toNat_ofNat]

/-- C21, amended, on hashes with a missing parameter, with a parallelism out
of the range of `uint8`, with a version field that holds no number, and with
fields that carry text after their last number. -/
theorem decodeHash_scan_errors_witness :
    (∃ err, decodeHash "$argon2id$v=19$m=8,t=1$AAAA$AAAA".toList = .error err) ∧
    decodeHash "$argon2id$v=19$m=8,t=1,p=256$AAAA$AAAA".toList = .error .scanRange ∧
    (∃ err, decodeHash "$argon2id$v=x$m=8,t=1,p=1$AAAA$AAAA".toList = .error err) ∧
    decodeHash "$argon2id$v=19x$m=8,t=1,p=1junk$AAAA$AAAA".toList =
      .ok (⟨8, 1, 1, 3, 3⟩, [0, 0, 0], [0, 0, 0]) :=
  ⟨((decodeHash_scan_errors "$argon2id$v=19$m=8,t=1$AAAA$AAAA".toList "v=19".toList
        "m=8,t=1".toList (by decide) (by decide) (by decide)).2.2 "19".toList [] (by decide)
        (by decide) (by decide)).2 (by decide) |>.2.2.1 "8".toList "1".toList [] (by decide)
        (by decide) (by decide) (by decide) (by decide),
    (((decodeHash_scan_errors "$argon2id$v=19$m=8,t=1,p=256$AAAA$AAAA".toList "v=19".toList
        "m=8,t=1,p=256".toList (by decide) (by decide) (by decide)).2.2 "19".toList []
        (by decide) (by decide) (by decide)).2 (by decide) |>.2.2.2.2 "8".toList "1".toList
        "256".toList [] (by decide) (by decide) (by decide) (by decide) (by decide)).1
        (by decide),
    (decodeHash_scan_errors "$argon2id$v=x$m=8,t=1,p=1$AAAA$AAAA".toList "v=x".toList
        "m=8,t=1,p=1".toList (by decide) (by decide) (by decide)).2.1 "x".toList (by decide)
        (by decide),
    (((decodeHash_scan_errors "$argon2id$v=19x$m=8,t=1,p=1junk$AAAA$AAAA".toList
        "v=19x".toList "m=8,t=1,p=1junk".toList (by decide) (by decide) (by decide)).2.2
        "19".toList "x".toList (by decide) (by decide) (by decide)).2 (by decide) |>.2.2.2.2
        "8".toList "1".toList "1".toList "junk".toList (by decide) (by decide) (by decide)
        (by decide) (by decide)).2 (by decide) (by decide) (by decide) [0, 0, 0] [0, 0, 0]
        (by decide) (by decide)⟩

end Vuya

namespace Vuya

/-! ## ArrayChunk -/

theorem wrapInt_eq (z : Int) (h0 : -2 ^ 63 ≤ z) (h1 : z < 2 ^ 63) : wrapInt z = z := by
  unfold wrapInt
  omega

theorem isChunking_nil {T : Type} (c : Nat) (hc : 0 < c) :
    IsChunking c ([] : List T) [] := by
  refine ⟨rfl, by simp, by simp, ?_⟩
  have h : (([] : List T).length + c - 1) / c = 0 := Nat.div_eq_of_lt (by simp; omega)
  rw [h]
  rfl

theorem isChunking_eq_nil {T : Type} (c : Nat) (hc : 0 < c) (chunks : List (List T))
    (h : IsChunking c ([] : List T) chunks) : chunks = [] := by
  have h0 : (([] : List T).length + c - 1) / c = 0 := Nat.div_eq_of_lt (by simp; omega)
  have hn := h.2.2.2
  rw [h0] at hn
  exact List.length_eq_zero.mp hn

theorem isChunking_cons {T : Type} (c : Nat) (hc : 0 < c) (l : List T) (hl : l ≠ [])
    (chunks : List (List T)) (h : IsChunking c (l.drop c) chunks) :
    IsChunking c l (l.take c :: chunks) := by
  have hpos : 0 < l.length := List.length_pos.mpr hl
  by_cases hle : l.length ≤ c
  · have hd : l.drop c = [] := List.drop_eq_nil_of_le hle
    rw [hd] at h
    have hnil := isChunking_eq_nil c hc chunks h
    subst hnil
    have ht : l.take c = l := List.take_of_length_le hle
    rw [ht]
    refine ⟨by simp, by simp, ?_, ?_⟩
    · intro ch hch
      simp at hch
      subst hch
      exact ⟨hpos, hle⟩
    · have h1 : (l.length + c - 1) / c = 1 :=
        Nat.div_eq_of_lt_le (by omega) (by omega)
      rw [h1]
      rfl
  · have hlt : c < l.length := Nat.lt_of_not_le hle
    obtain ⟨hf, hd, hlast, hn⟩ := h
    have htl : (l.take c).length = c := by
      rw [List.length_take]
      omega
    have hdl : (l.drop c).length = l.length - c := List.length_drop c l
    have hne : chunks ≠ [] := by
      intro he
      rw [he] at hf
      have : (l.drop c).length = 0 := by rw [← hf]; rfl
      omega
    obtain ⟨r, rest, hr⟩ := List.exists_cons_of_ne_nil hne
    subst hr
    refine ⟨?_, ?_, ?_, ?_⟩
    · rw [List.flatten_cons, hf]
      exact List.take_append_drop c l
    · intro ch hch
      rw [List.dropLast_cons₂, List.mem_cons] at hch
      rcases hch with hch | hch
      · rw [hch]
        exact htl
      · exact hd ch hch
    · intro ch hch
      rw [List.getLast?_cons_cons] at hch
      exact hlast ch hch
    · rw [List.length_cons, hn, hdl]
      have h2 : l.length + c - 1 = (l.length - c + c - 1) + c := by omega
      rw [h2, Nat.add_div_right _ hc]

theorem sliceExpr_chunk {T : Type} (items : List T) (i c : Nat) (hc : 0 < c)
    (hlt : i < items.length) :
    sliceExpr items (i : Int)
        (if (((i + c : Nat) : Int)) > (items.length : Int) then (items.length : Int)
          else ((i + c : Nat) : Int))
      = some ((items.drop i).take c) := by
  by_cases hgt : (((i + c : Nat) : Int)) > (items.length : Int)
  · rw [if_pos hgt]
    unfold sliceExpr
    rw [if_pos ⟨by omega, by omega, le_refl _⟩]
    simp only [Int.toNat_ofNat]
    have h1 : (items.drop i).take (items.length - i) = items.drop i :=
      List.take_of_length_le (by rw [List.length_drop])
    have h2 : (items.drop i).take c = items.drop i :=
      List.take_of_length_le (by rw [List.length_drop]; omega)
    rw [h1, h2]
  · rw [if_neg hgt]
    unfold sliceExpr
    rw [if_pos ⟨by omega, by omega, by omega⟩]
    simp only [Int.toNat_ofNat]
    have h1 : i + c - i = c := by omega
    rw [h1]

theorem arrayChunk_loop {T : Type} (items : List T) (c : Nat) (hc : 0 < c)
    (hc63 : c < 2 ^ 63) (hlen : items.length < 2 ^ 62) :
    ∀ (fuel i : Nat) (chunks : List (List T)), (i = 0 ∨ c ≤ i) → items.length < i + fuel →
      ∃ rest, ArrayChunk.loop items (c : Int) fuel (i : Int) chunks = some (chunks ++ rest) ∧
        IsChunking c (items.drop i) rest := by
  intro fuel
  induction fuel with
  | zero =>
    intro i chunks _ hf
    refine ⟨[], by simp [ArrayChunk.loop], ?_⟩
    rw [List.drop_eq_nil_of_le (by omega)]
    exact isChunking_nil c hc
  | succ fuel ih =>
    intro i chunks hi hf
    by_cases hlt : i < items.length
    · have hsum : wrapInt ((i : Int) + (c : Int)) = ((i + c : Nat) : Int) := by
        rw [wrapInt_eq _ (by omega) (by omega)]
        push_cast
        rfl
      obtain ⟨rest, hrest, hch⟩ :=
        ih (i + c) (chunks ++ [(items.drop i).take c]) (Or.inr (by omega)) (by omega)
      refine ⟨(items.drop i).take c :: rest, ?_, ?_⟩
      · rw [ArrayChunk.loop, if_pos (by exact_mod_cast hlt)]
        simp only [hsum, sliceExpr_chunk items i c hc hlt, hrest]
        simp
      · apply isChunking_cons c hc _ _ _
        · rw [List.drop_drop]
          exact hch
        · intro he
          have : (items.drop i).length = 0 := by rw [he]; rfl
          rw [List.length_drop] at this
          omega
    · refine ⟨[], ?_, ?_⟩
      · rw [ArrayChunk.loop, if_neg (by exact_mod_cast hlt)]
        simp
      · rw [List.drop_eq_nil_of_le (by omega)]
        exact isChunking_nil c hc

theorem arrayChunk_loop_step {T : Type} (items : List T) (c : Nat) (hc : 0 < c) (fuel i : Nat)
    (chunks : List (List T)) (hlt : i < items.length) (hsum : i + c < 2 ^ 63) :
    ArrayChunk.loop items (c : Int) (fuel + 1) (i : Int) chunks
      = ArrayChunk.loop items (c : Int) fuel ((i + c : Nat) : Int)
          (chunks ++ [(items.drop i).take c]) := by
  have hw : wrapInt ((i : Int) + (c : Int)) = ((i + c : Nat) : Int) := by
    rw [wrapInt_eq _ (by omega) (by omega)]
    push_cast
    rfl
  rw [ArrayChunk.loop, if_pos (by exact_mod_cast hlt)]
  simp only [hw, sliceExpr_chunk items i c hc hlt]

theorem arrayChunk_loop_panics {T : Type} (items : List T) (c : Nat) (fuel i : Nat)
    (chunks : List (List T)) (hlt : i < items.length) (hlo : 2 ^ 63 ≤ i + c)
    (hhi : i + c < 2 ^ 64) :
    ArrayChunk.loop items (c : Int) (fuel + 1) (i : Int) chunks = none := by
  have hw : wrapInt ((i : Int) + (c : Int)) = ((i + c : Nat) : Int) - 2 ^ 64 := by
    unfold wrapInt
    omega
  have hs : sliceExpr items (i : Int)
      (if ((i + c : Nat) : Int) - 2 ^ 64 > (items.length : Int) then (items.length : Int)
        else ((i + c : Nat) : Int) - 2 ^ 64) = none := by
    rw [if_neg (by omega)]
    unfold sliceExpr
    rw [if_neg (by omega)]
  rw [ArrayChunk.loop, if_pos (by exact_mod_cast hlt)]
  simp only [hw, hs]

theorem arrayChunk_overflow {T : Type} (items : List T) (hlen : items.length = 2 ^ 62 + 1) :
    ArrayChunk items (2 ^ 62) = none := by
  have hcast : ((2 : Int) ^ 62) = (((2 ^ 62 : Nat)) : Int) := by norm_num
  unfold ArrayChunk
  rw [if_neg (by norm_num), hcast]
  have h0 := arrayChunk_loop_step items (2 ^ 62) (by norm_num) items.length 0 []
    (by omega) (by norm_num)
  rw [Nat.cast_zero] at h0
  rw [h0]
  have hf : items.length = 2 ^ 62 + 1 := hlen
  rw [hf]
  exact arrayChunk_loop_panics items (2 ^ 62) (2 ^ 62) (0 + 2 ^ 62) _ (by omega) (by norm_num)
    (by norm_num)

/-- C29, the case that the claim leaves out: on a list of `2^62 + 1`
elements (of a type of size zero, such as `struct{}`) and the chunk size
`2^62`, the second turn of the loop computes `end := i + chunkSize`, which is
`2^63` and wraps around to `-2^63`, and `items[i:end]` panics: `ArrayChunk`
returns no chunks at all. -/
theorem arrayChunk_panics_on_overflow :
    ArrayChunk (List.replicate (2 ^ 62 + 1) ()) (2 ^ 62) = none :=
  arrayChunk_overflow _ (List.length_replicate _ _)

/-- C29, amended. For every list of fewer than `2^62` elements and every
`chunkSize` of type `int` above zero, `ArrayChunk` returns chunks which, concatenated in
order, give the list: every chunk but the last has `chunkSize` elements, the
last has between one and `chunkSize` elements, and the number of chunks is
the ceiling of `len(items) / chunkSize`, zero for the empty list. For every
`chunkSize` that is zero or below, the result is empty. -/
theorem arrayChunk_chunks {T : Type} (items : List T) (chunkSize : Int) :
    (chunkSize ≤ 0 → ArrayChunk items chunkSize = some []) ∧
    (0 < chunkSize → chunkSize < 2 ^ 63 → items.length < 2 ^ 62 →
      ∃ chunks, ArrayChunk items chunkSize = some chunks ∧
        chunks.flatten = items ∧
        (∀ ch ∈ chunks.dropLast, (ch.length : Int) = chunkSize) ∧
        (∀ ch ∈ chunks.getLast?, 1 ≤ ch.length ∧ (ch.length : Int) ≤ chunkSize) ∧
        (chunks.length : Int) = ((items.length : Int) + chunkSize - 1) / chunkSize ∧
        (items = [] → chunks = [])) := by
  constructor
  · intro h
    unfold ArrayChunk
    rw [if_pos h]
  · intro h0 h63 hlen
    obtain ⟨c, hcs⟩ := Int.eq_ofNat_of_zero_le (le_of_lt h0)
    subst hcs
    have hc : 0 < c := by exact_mod_cast h0
    have hc63 : c < 2 ^ 63 := by exact_mod_cast h63
    obtain ⟨rest, hrest, hf, hd, hlast, hn⟩ :=
      arrayChunk_loop items c hc hc63 hlen (items.length + 1) 0 [] (Or.inl rfl) (by omega)
    rw [List.drop_zero] at hf hn
    rw [List.nil_append] at hrest
    refine ⟨rest, ?_, hf, ?_, ?_, ?_, ?_⟩
    · unfold ArrayChunk
      rw [if_neg (by omega)]
      exact hrest
    · intro ch hch
      exact_mod_cast hd ch hch
    · intro ch hch
      have := hlast ch hch
      exact ⟨this.1, by exact_mod_cast this.2⟩
    · rw [hn]
      have h1 : ((items.length : Int) + (c : Int) - 1) = ((items.length + c - 1 : Nat) : Int) := by
        omega
      rw [h1]
      exact Int.natCast_div _ _
    · intro he
      subst he
      exact isChunking_eq_nil c hc rest ⟨hf, hd, hlast, hn⟩

/-- C29, on a list of seven elements cut by three: the chunks are those of
three, three and one elements. -/
theorem arrayChunk_chunks_witness :
    (0 : Int) < 3 ∧ ArrayChunk [1, 2, 3, 4, 5, 6, 7] 3 = some [[1, 2, 3], [4, 5, 6], [7]] ∧
    ∃ chunks, ArrayChunk [1, 2, 3, 4, 5, 6, 7] 3 = some chunks ∧
      chunks.flatten = [1, 2, 3, 4, 5, 6, 7] ∧
      (∀ ch ∈ chunks.dropLast, (ch.length : Int) = 3) ∧
      (∀ ch ∈ chunks.getLast?, 1 ≤ ch.length ∧ (ch.length : Int) ≤ 3) ∧
      (chunks.length : Int) = (([1, 2, 3, 4, 5, 6, 7].length : Int) + 3 - 1) / 3 ∧
      (([1, 2, 3, 4, 5, 6, 7] : List Nat) = [] → chunks = []) :=
  ⟨by decide, by decide,
    (arrayChunk_chunks ([1, 2, 3, 4, 5, 6, 7] : List Nat) 3).2 (by decide) (by norm_num)
      (by simp)⟩

end Vuya

namespace Vuya

/-! ## Bytes of a number, little-endian and big-endian -/

theorem leBytes_zero_value (n : Nat) : Poly1305.leBytes n 0 = List.replicate n (0 : Byte) := by
  induction n with
  | zero => rfl
  | succ n ih =>
    rw [Poly1305.leBytes, Nat.zero_div, ih, List.replicate_succ]
    rfl

theorem leBytes_mod (a : Nat) : ∀ v, Poly1305.leBytes a (v % 256 ^ a) = Poly1305.leBytes a v := by
  induction a with
  | zero => intro v; rfl
  | succ a ih =>
    intro v
    have h1 : (Fin.ofNat (v % 256 ^ (a + 1)) : Byte) = Fin.ofNat v := by
      apply Fin.ext
      show v % 256 ^ (a + 1) % 256 = v % 256
      exact Nat.mod_mod_of_dvd v (Dvd.intro_left (256 ^ a) rfl)
    have h2 : v % 256 ^ (a + 1) / 256 = v / 256 % 256 ^ a := by
      rw [pow_succ', Nat.mod_mul_right_div_self]
    rw [Poly1305.leBytes, Poly1305.leBytes, h1, h2, ih]

theorem leBytes_add (a b : Nat) :
    ∀ v, Poly1305.leBytes (a + b) v = Poly1305.leBytes a v ++ Poly1305.leBytes b (v / 256 ^ a) := by
  induction a with
  | zero => intro v; simp [Poly1305.leBytes]
  | succ a ih =>
    intro v
    have h : a + 1 + b = (a + b) + 1 := by omega
    rw [h, Poly1305.leBytes, Poly1305.leBytes, ih, Nat.div_div_eq_div_mul, ← pow_succ']
    rfl

theorem leBytes_extend (m e v : Nat) (hv : v < 256 ^ m) :
    Poly1305.leBytes (m + e) v = Poly1305.leBytes m v ++ List.replicate e (0 : Byte) := by
  rw [leBytes_add, Nat.div_eq_of_lt hv, leBytes_zero_value]

theorem leBytes_take (n e v : Nat) :
    (Poly1305.leBytes (n + e) v).take n = Poly1305.leBytes n v := by
  rw [leBytes_add]
  exact List.take_left' (Poly1305.leBytes_length n v)

theorem beBytes_eq_reverse (n : Nat) :
    ∀ v, GCM.beBytes n v = (Poly1305.leBytes n v).reverse := by
  induction n with
  | zero => intro v; rfl
  | succ n ih =>
    intro v
    rw [GCM.beBytes, Poly1305.leBytes, List.reverse_cons, ih]

theorem beNat_append_byte (bs : List Byte) (b : Byte) :
    GCM.beNat (bs ++ [b]) = GCM.beNat bs * 256 + b.val := by
  unfold GCM.beNat
  rw [List.foldl_append]
  rfl

theorem beNat_beBytes (n : Nat) : ∀ v, GCM.beNat (GCM.beBytes n v) = v % 256 ^ n := by
  induction n with
  | zero =>
    intro v
    rw [pow_zero, Nat.mod_one]
    rfl
  | succ n ih =>
    intro v
    rw [GCM.beBytes, beNat_append_byte, ih, pow_succ', Nat.mod_mul]
    have : (Fin.ofNat v : Byte).val = v % 256 := rfl
    rw [this]
    omega

/-! ## BigIntToUint256 -/

namespace Uint256

theorem words_flatMap_leBytes (wb : Nat) : ∀ (k v : Nat),
    (Big.words (8 * wb) k v).flatMap (Poly1305.leBytes wb) = Poly1305.leBytes (k * wb) v := by
  intro k
  induction k with
  | zero => intro v; simp [Big.words, Poly1305.leBytes]
  | succ k ih =>
    intro v
    have hp : 2 ^ (8 * wb) = 256 ^ wb := by
      rw [pow_mul]
      rfl
    have h : (k + 1) * wb = wb + k * wb := by
      rw [Nat.add_mul, Nat.one_mul, Nat.add_comm]
    rw [Big.words, List.flatMap_cons, ih, h, leBytes_add, hp, leBytes_mod]

theorem word_eq_foldl_store : ∀ (k d : Nat) (st : Nat × List Byte),
    readBits.word k d st = (Poly1305.leBytes k d).foldl readBits.store st := by
  intro k
  induction k with
  | zero => intro d st; rfl
  | succ k ih =>
    intro d st
    obtain ⟨i, buf⟩ := st
    have hstop : ∀ (bs : List Byte), bs.foldl readBits.store (0, buf) = (0, buf) := by
      intro bs
      induction bs with
      | nil => rfl
      | cons b bs ihb =>
        rw [List.foldl_cons]
        exact ihb
    rw [readBits.word, Poly1305.leBytes, List.foldl_cons]
    by_cases hi : i > 0
    · rw [if_pos hi, ih]
      have h8 : d >>> 8 = d / 256 := by
        rw [Nat.shiftRight_eq_div_pow]
      have hs : readBits.store (i, buf) (Fin.ofNat d) = (i - 1, buf.set (i - 1) (Fin.ofNat d)) :=
        if_pos hi
      rw [h8, hs]
    · have h0 : i = 0 := by omega
      subst h0
      rw [if_neg hi]
      have hs : readBits.store (0, buf) (Fin.ofNat d) = (0, buf) := rfl
      rw [hs, hstop]

theorem foldl_word_eq (wb : Nat) : ∀ (ws : List Nat) (st : Nat × List Byte),
    ws.foldl (fun st d => readBits.word wb d st) st
      = (ws.flatMap (Poly1305.leBytes wb)).foldl readBits.store st := by
  intro ws
  induction ws with
  | nil => intro st; rfl
  | cons d ws ih =>
    intro st
    rw [List.foldl_cons, List.flatMap_cons, List.foldl_append, ih, word_eq_foldl_store]

theorem set_replicate_append (i : Nat) (b : Byte) (tail : List Byte) :
    (List.replicate (i + 1) (0 : Byte) ++ tail).set i b = List.replicate i 0 ++ b :: tail := by
  induction i with
  | zero => rfl
  | succ i ih =>
    rw [List.replicate_succ, List.cons_append, List.set_cons_succ, ih, List.replicate_succ,
      List.cons_append]

theorem foldl_store : ∀ (bs : List Byte) (i : Nat) (tail : List Byte),
    bs.foldl readBits.store (i, List.replicate i 0 ++ tail)
      = (i - min bs.length i,
          List.replicate (i - min bs.length i) 0 ++ ((bs.take (min bs.length i)).reverse ++ tail)) := by
  intro bs
  induction bs with
  | nil => intro i tail; simp
  | cons b bs ih =>
    intro i tail
    rw [List.foldl_cons]
    rcases i with _ | i
    · have hs : readBits.store (0, List.replicate 0 0 ++ tail) b
          = (0, List.replicate 0 0 ++ tail) := rfl
      rw [hs, ih]
      simp
    · have hs : readBits.store (i + 1, List.replicate (i + 1) 0 ++ tail) b
          = (i, List.replicate i 0 ++ b :: tail) := by
        unfold readBits.store
        rw [if_pos (Nat.succ_pos i)]
        simp only [Nat.add_sub_cancel]
        rw [set_replicate_append]
      rw [hs, ih]
      have hm : min (b :: bs).length (i + 1) = min bs.length i + 1 := by
        rw [List.length_cons]
        omega
      rw [hm, List.take_succ_cons, List.reverse_cons, List.append_assoc]
      have hsub : i + 1 - (min bs.length i + 1) = i - min bs.length i := by omega
      rw [hsub]
      rfl

theorem bitLen_le_iff : ∀ (fuel v k : Nat), v ≤ fuel → (Big.bitLen fuel v ≤ k ↔ v < 2 ^ k) := by
  intro fuel
  induction fuel with
  | zero =>
    intro v k hv
    have h0 : v = 0 := by omega
    subst h0
    simp [Big.bitLen]
  | succ fuel ih =>
    intro v k hv
    rw [Big.bitLen]
    by_cases h0 : v = 0
    · subst h0
      simp
    · rw [if_neg h0]
      rcases k with _ | k
      · simp
        omega
      · rw [Nat.add_le_add_iff_right, ih (v / 2) k (by omega), pow_succ, Nat.div_lt_iff_lt_mul (by norm_num)]

theorem bitLen_le (v k : Nat) : Big.BitLen (v : Int) ≤ k ↔ v < 2 ^ k :=
  bitLen_le_iff v v k (le_refl v)

theorem ceil_mul_ge (a b : Nat) (hb : 0 < b) : a ≤ (a + b - 1) / b * b := by
  have h1 := Nat.div_add_mod (a + b - 1) b
  have h2 := Nat.mod_lt (a + b - 1) hb
  rw [Nat.mul_comm] at h1
  generalize (a + b - 1) / b * b = t at h1 ⊢
  omega

theorem readBits_eq (wb : Nat) (hwb : 0 < wb) (v n : Nat) :
    v < 256 ^ n →
    readBits wb (v : Int) (List.replicate n 0) = GCM.beBytes n v := by
  intro hv
  unfold readBits Big.Bits
  rw [foldl_word_eq, Int.natAbs_ofNat, words_flatMap_leBytes, List.length_replicate]
  generalize hl : Big.BitLen (v : Int) = len
  have h := foldl_store
    (Poly1305.leBytes ((len + 8 * wb - 1) / (8 * wb) * wb) v) n []
  rw [List.append_nil] at h
  rw [h, Poly1305.leBytes_length, List.append_nil, beBytes_eq_reverse]
  generalize hm : (len + 8 * wb - 1) / (8 * wb) * wb = m
  show List.replicate (n - min m n) 0 ++ ((Poly1305.leBytes m v).take (min m n)).reverse
    = (Poly1305.leBytes n v).reverse
  by_cases hmn : m ≤ n
  · have hsize : len ≤ 8 * m := by
      have := ceil_mul_ge len (8 * wb) (by omega)
      rw [← hm]
      calc len ≤ (len + 8 * wb - 1) / (8 * wb) * (8 * wb) := this
        _ = 8 * ((len + 8 * wb - 1) / (8 * wb) * wb) := by ring
    have hvm : v < 256 ^ m := by
      have h2 : (256 : Nat) ^ m = 2 ^ (8 * m) := by
        rw [pow_mul]
        rfl
      rw [h2]
      rw [← hl] at hsize
      exact (bitLen_le v (8 * m)).mp hsize
    obtain ⟨e, he⟩ := Nat.exists_eq_add_of_le hmn
    subst he
    rw [leBytes_extend m e v hvm, List.reverse_append, List.reverse_replicate,
      Nat.min_eq_left hmn]
    have ht : (Poly1305.leBytes m v).take m = Poly1305.leBytes m v :=
      List.take_of_length_le (by rw [Poly1305.leBytes_length])
    rw [ht, Nat.add_sub_cancel_left]
  · have hnm : n ≤ m := by omega
    obtain ⟨e, he⟩ := Nat.exists_eq_add_of_le hnm
    subst he
    rw [Nat.min_eq_right hnm, leBytes_take, Nat.sub_self]
    rfl

theorem paddedBigBytes_eq (wb : Nat) (hwb : 0 < wb) (v n : Nat) (hv : v < 256 ^ n) :
    paddedBigBytes wb (v : Int) (n : Int) = GCM.beBytes n v := by
  unfold paddedBigBytes
  by_cases h : ((Big.BitLen (v : Int) / 8 : Nat) : Int) ≥ (n : Int)
  · rw [if_pos h]
    unfold Big.Bytes
    have h1 : n ≤ Big.BitLen (v : Int) / 8 := by exact_mod_cast h
    have h2 : Big.BitLen (v : Int) ≤ 8 * n := by
      apply (bitLen_le v (8 * n)).mpr
      have h3 : (256 : Nat) ^ n = 2 ^ (8 * n) := by
        rw [pow_mul]
        rfl
      rw [← h3]
      exact hv
    have h4 : (Big.BitLen (v : Int) + 7) / 8 = n := by omega
    rw [h4, Int.natAbs_ofNat]
  · rw [if_neg h, Int.toNat_ofNat]
    exact readBits_eq wb hwb v n hv

theorem andNot_mask (k m : Nat) : Big.andNot (2 ^ k - 1) m = 2 ^ k - (m % 2 ^ k + 1) := by
  apply Nat.eq_of_testBit_eq
  intro i
  unfold Big.andNot
  rw [Nat.testBit_xor, Nat.testBit_and, Nat.testBit_two_pow_sub_one,
    Nat.testBit_two_pow_sub_succ (Nat.mod_lt m (Nat.two_pow_pos k)), Nat.testBit_mod_two_pow]
  by_cases hi : i < k <;> cases m.testBit i <;> simp [hi]

theorem and_mask (x : Int) (k : Nat) :
    Big.And x ((2 ^ k - 1 : Nat) : Int) = x % ((2 ^ k : Nat) : Int) := by
  have hnn : ¬ (((2 ^ k - 1 : Nat) : Int) < 0) := not_lt.mpr (Int.ofNat_zero_le _)
  unfold Big.And
  rcases x with v | m
  · have hx : ¬ (Int.ofNat v < 0) := not_lt.mpr (Int.ofNat_zero_le v)
    have hd : decide (Int.ofNat v < 0) = decide (((2 ^ k - 1 : Nat) : Int) < 0) := by
      rw [decide_eq_false hx, decide_eq_false hnn]
    rw [if_pos hd, if_neg hx, Int.natAbs_ofNat]
    show ((v &&& (2 ^ k - 1) : Nat) : Int) = (v : Int) % ((2 ^ k : Nat) : Int)
    rw [Nat.and_pow_two_sub_one_eq_mod, Int.natCast_mod]
  · have hx : Int.negSucc m < 0 := Int.negSucc_lt_zero m
    have hd : ¬ (decide (Int.negSucc m < 0) = decide (((2 ^ k - 1 : Nat) : Int) < 0)) := by
      rw [decide_eq_true hx, decide_eq_false hnn]
      decide
    rw [if_neg hd]
    simp only [if_pos hx]
    rw [Int.natAbs_ofNat, andNot_mask]
    have h1 : (Int.negSucc m).natAbs - 1 = m := rfl
    have h2 := Nat.mod_lt m (Nat.two_pow_pos k)
    rw [h1, Int.emod_negSucc, Int.natAbs_ofNat, Int.subNatNat_of_le (by omega)]

theorem u256_eq_emod (x : Int) : u256 x = x % 2 ^ 256 := by
  have h1 : tt256m1 = ((2 ^ 256 - 1 : Nat) : Int) := by
    unfold tt256m1
    norm_num
  have h2 : ((2 : Int) ^ 256) = ((2 ^ 256 : Nat) : Int) := by norm_num
  unfold u256
  rw [h1, h2]
  exact and_mask x 256

theorem bigIntToUint256_eq (wb : Nat) (hwb : 0 < wb) (n : Int) :
    BigIntToUint256 wb n = GCM.beBytes 32 (n % 2 ^ 256).toNat := by
  unfold BigIntToUint256
  rw [u256_eq_emod]
  have h0 : 0 ≤ n % 2 ^ 256 := Int.emod_nonneg n (by norm_num)
  have h1 : n % 2 ^ 256 < 2 ^ 256 := Int.emod_lt_of_pos n (by norm_num)
  obtain ⟨v, hv⟩ := Int.eq_ofNat_of_zero_le h0
  rw [hv] at h1 ⊢
  rw [Int.toNat_ofNat]
  have hlt : v < 256 ^ 32 := by
    have : (256 : Nat) ^ 32 = 2 ^ 256 := by norm_num
    rw [this]
    exact_mod_cast h1
  exact paddedBigBytes_eq wb hwb v 32 hlt

end Uint256

/-- C30. On a platform whose words have `wordBytes` bytes, for every integer
`n`, negative, zero or above `2^256`, `BigIntToUint256(n)` returns 32 bytes
exactly, which are the big-endian bytes of `n mod 2^256` with zeros on the
left: read back as a big-endian number they give `n mod 2^256`. Hence
`Uint256ToBigInt(BigIntToUint256(n))` is `n mod 2^256`, and it is `n` for
every `0 <= n < 2^256`. -/
theorem bigIntToUint256_encodes (wordBytes : Nat) (hw : 0 < wordBytes) (n : Int) :
    (Uint256.BigIntToUint256 wordBytes n).length = 32 ∧
    Uint256.BigIntToUint256 wordBytes n = GCM.beBytes 32 (n % 2 ^ 256).toNat ∧
    (GCM.beNat (Uint256.BigIntToUint256 wordBytes n) : Int) = n % 2 ^ 256 ∧
    Uint256.Uint256ToBigInt (Uint256.BigIntToUint256 wordBytes n) = n % 2 ^ 256 ∧
    (0 ≤ n → n < 2 ^ 256 →
      Uint256.Uint256ToBigInt (Uint256.BigIntToUint256 wordBytes n) = n) := by
  have he := Uint256.bigIntToUint256_eq wordBytes hw n
  have h0 : 0 ≤ n % 2 ^ 256 := Int.emod_nonneg n (by norm_num)
  have h1 : n % 2 ^ 256 < 2 ^ 256 := Int.emod_lt_of_pos n (by norm_num)
  have hlen : (Uint256.BigIntToUint256 wordBytes n).length = 32 := by
    rw [he, GCM.beBytes_length]
  have hnat : (GCM.beNat (Uint256.BigIntToUint256 wordBytes n) : Int) = n % 2 ^ 256 := by
    rw [he, beNat_beBytes]
    obtain ⟨v, hv⟩ := Int.eq_ofNat_of_zero_le h0
    rw [hv] at h1 ⊢
    rw [Int.toNat_ofNat]
    have h2 : (256 : Nat) ^ 32 = 2 ^ 256 := by norm_num
    have h3 : v < 2 ^ 256 := by exact_mod_cast h1
    rw [h2, Nat.mod_eq_of_lt h3]
  have hback : Uint256.Uint256ToBigInt (Uint256.BigIntToUint256 wordBytes n) = n % 2 ^ 256 := by
    unfold Uint256.Uint256ToBigInt
    rw [if_neg (by rw [hlen]; decide)]
    exact hnat
  refine ⟨hlen, he, hnat, hback, ?_⟩
  intro hn0 hn1
  rw [hback]
  exact Int.emod_eq_of_lt hn0 hn1

/-- C30, with words of eight bytes and `n = -2`: the bytes are 31 times
`0xff` and `0xfe`, those of `2^256 - 2`. -/
theorem bigIntToUint256_encodes_witness :
    0 < 8 ∧
    Uint256.BigIntToUint256 8 (-2) = List.replicate 31 255 ++ [254] ∧
    (Uint256.BigIntToUint256 8 (-2)).length = 32 ∧
    Uint256.BigIntToUint256 8 (-2) = GCM.beBytes 32 ((-2 : Int) % 2 ^ 256).toNat ∧
    (GCM.beNat (Uint256.BigIntToUint256 8 (-2)) : Int) = (-2 : Int) % 2 ^ 256 ∧
    Uint256.Uint256ToBigInt (Uint256.BigIntToUint256 8 (-2)) = (-2 : Int) % 2 ^ 256 ∧
    ((0 : Int) ≤ -2 → (-2 : Int) < 2 ^ 256 →
      Uint256.Uint256ToBigInt (Uint256.BigIntToUint256 8 (-2)) = -2) :=
  ⟨by decide, by decide!, bigIntToUint256_encodes 8 (by decide) (-2)⟩

end Vuya
